import Mathlib

/-!
# CppAsciiFilm: the playback pipeline of `player.cpp`

A shallow embedding of `calculateOptimalWidth`, `createProgressBar`, the height computation of
`processFrame` and the producer/consumer loop of `playVideo`.

* C++ `int` values are `ℤ`; `static_cast<int>` of a `double` is the one place where the range of
  `int` matters and is modelled with an explicit range check.
* C++ `double` values are rationals; every arithmetic operation rounds its exact result with
  `roundDouble` (round to nearest, ties to even, 53-bit significand).  The exponent range of
  binary64 is not modelled: all quantities below are quotients and products of 32-bit and 64-bit
  integers, far away from overflow and underflow.
* The two threads of `playVideo` are a step function over an explicit state; an interleaving is a
  list of events, each event letting one thread execute the code up to its next interaction with
  shared state.
-/

namespace AsciiFilm

/-! ## Double arithmetic -/

/-- Nearest integer, ties to even. -/
def roundHalfEven (x : ℚ) : ℤ :=
  if x - ⌊x⌋ < 1 / 2 then ⌊x⌋
  else if 1 / 2 < x - ⌊x⌋ then ⌊x⌋ + 1
  else if ⌊x⌋ % 2 = 0 then ⌊x⌋ else ⌊x⌋ + 1

/-- Rounding of an exact result to `double`: the significand is rounded to 53 bits in the binade
`2 ^ e ≤ |x| < 2 ^ (e + 1)` of `x`. -/
def roundDouble (x : ℚ) : ℚ :=
  if x = 0 then 0
  else (roundHalfEven (x / (2 : ℚ) ^ (Int.log 2 |x| - 52)) : ℚ) * (2 : ℚ) ^ (Int.log 2 |x| - 52)

/-- Values of type `double`: a finite number, an infinity with its sign (`true` is negative) or
NaN.  Zero is always `+0.0`; a negative zero cannot arise from the non-negative sizes used here. -/
inductive Dbl where
  | fin (q : ℚ)
  | inf (negative : Bool)
  | nan
  deriving DecidableEq

/-- Conversion `static_cast<double>(n)` of an `int`, which is exact. -/
def Dbl.ofInt (n : ℤ) : Dbl := Dbl.fin n

/-- Product of two doubles. -/
def Dbl.mul : Dbl → Dbl → Dbl
  | Dbl.fin x, Dbl.fin y => Dbl.fin (roundDouble (x * y))
  | Dbl.fin x, Dbl.inf s => if x = 0 then Dbl.nan else Dbl.inf (xor (decide (x < 0)) s)
  | Dbl.inf s, Dbl.fin y => if y = 0 then Dbl.nan else Dbl.inf (xor s (decide (y < 0)))
  | Dbl.inf s, Dbl.inf t => Dbl.inf (xor s t)
  | Dbl.nan, _ => Dbl.nan
  | _, Dbl.nan => Dbl.nan

/-- Quotient of two doubles; a division by zero gives an infinity, `0.0 / 0.0` gives NaN. -/
def Dbl.div : Dbl → Dbl → Dbl
  | Dbl.fin x, Dbl.fin y =>
      if y = 0 then (if x = 0 then Dbl.nan else Dbl.inf (decide (x < 0)))
      else Dbl.fin (roundDouble (x / y))
  | Dbl.fin _, Dbl.inf _ => Dbl.fin 0
  | Dbl.inf s, Dbl.fin y => Dbl.inf (xor s (decide (y < 0)))
  | Dbl.inf _, Dbl.inf _ => Dbl.nan
  | Dbl.nan, _ => Dbl.nan
  | _, Dbl.nan => Dbl.nan

/-- Comparison `a <= b` of two doubles; every comparison with NaN is false. -/
def Dbl.le : Dbl → Dbl → Bool
  | Dbl.fin x, Dbl.fin y => decide (x ≤ y)
  | Dbl.fin _, Dbl.inf s => !s
  | Dbl.inf s, Dbl.fin _ => s
  | Dbl.inf s, Dbl.inf t => s || !t
  | Dbl.nan, _ => false
  | _, Dbl.nan => false

/-- Truncation towards zero. -/
def truncInt (q : ℚ) : ℤ := if 0 ≤ q then ⌊q⌋ else ⌈q⌉

/-- Largest value of `int`. -/
def INT_MAX : ℤ := 2147483647

/-- Smallest value of `int`. -/
def INT_MIN : ℤ := -2147483648

/-- Conversion `static_cast<int>(x)` of a finite double: the truncated value when `int` can hold
it; otherwise the behaviour is undefined (`none`). -/
def castInt (q : ℚ) : Option ℤ :=
  if INT_MIN ≤ truncInt q ∧ truncInt q ≤ INT_MAX then some (truncInt q) else none

/-- Conversion `static_cast<int>(x)` of a double; undefined for infinities and NaN. -/
def Dbl.toInt : Dbl → Option ℤ
  | Dbl.fin q => castInt q
  | _ => none

/-! ## Geometry: `calculateOptimalWidth` and the height of `processFrame` -/

/-- Function `calculateOptimalWidth` of `player.cpp`. -/
def calculateOptimalWidth (termWidth termHeight videoWidth videoHeight : ℤ) : Option ℤ :=
  let maxAsciiWidth := min (termWidth - 1) videoWidth
  let maxAsciiHeight := min (termHeight - 1) videoHeight
  let terminalAspect :=
    Dbl.div (Dbl.ofInt maxAsciiHeight) (Dbl.mul (Dbl.ofInt maxAsciiWidth) (Dbl.fin (1 / 2)))
  let videoAspect := Dbl.div (Dbl.ofInt videoHeight) (Dbl.ofInt videoWidth)
  if Dbl.le videoAspect terminalAspect = true then some maxAsciiWidth
  else Dbl.toInt (Dbl.mul (Dbl.div (Dbl.ofInt maxAsciiHeight) videoAspect) (Dbl.fin 2))

/-- The `new_height` of `processFrame` (lines 225-226 of `ascii.cpp`) for a frame of
`frame_height` rows and `frame_width ≠ 0` columns:
`std::max(1, static_cast<int>(aspect * width * 0.5))`. -/
def newHeight (frame_height frame_width width : ℤ) : Option ℤ :=
  let aspect := roundDouble ((frame_height : ℚ) / frame_width)
  (castInt (roundDouble (roundDouble (aspect * width) * (1 / 2)))).map (max 1)

/-- A decoded frame (`cv::Mat`): its size and, abstractly, its pixels. -/
structure Mat where
  rows : ℕ
  cols : ℕ
  pixels : ℕ
  deriving DecidableEq

/-- Method `cv::Mat::empty()`: the matrix has no element. -/
def Mat.empty (m : Mat) : Bool := m.rows == 0 || m.cols == 0

/-- Library code the program calls and whose results it only passes on: the OpenCV resize and
colour conversion followed by the glyph generation (`renderPixels frame width height useColor`),
and the stream formatting of a double with `std::fixed << std::setprecision(1)`. -/
structure Library where
  renderPixels : Mat → ℤ → ℤ → Bool → String
  showFixed1 : ℚ → String

/-- Function `processFrame` of `ascii.cpp`: the empty string for an empty frame or a width that is
not positive, otherwise the text of the frame resized to `width × new_height`. -/
def processFrame (L : Library) (frame : Mat) (width : ℤ) (useColor : Bool) : Option String :=
  if frame.empty = true ∨ width ≤ 0 then some ""
  else if frame.cols = 0 then some ""
  else (newHeight frame.rows frame.cols width).map
    (fun new_height => L.renderPixels frame width new_height useColor)

/-! ## Progress bar -/

/-- Result of a call: a value, a C++ exception, or undefined behaviour. -/
inductive Outcome (α : Type) where
  | ok (a : α)
  | throws
  | undefined
  deriving DecidableEq

/-- Constructor `std::string(count, ch)` called with an `int` count: a negative count converts to
a `size_t` beyond `max_size()` and the constructor throws `std::length_error` (`none`). -/
def stdString (count : ℤ) (ch : Char) : Option String :=
  if 0 ≤ count then some (String.mk (List.replicate count.toNat ch)) else none

/-- Function `createProgressBar` of `player.cpp`. -/
def createProgressBar (L : Library) (current total width : ℤ) : Outcome String :=
  if total ≤ 0 then Outcome.ok "[未知进度]"
  else
    let progress := roundDouble ((current : ℚ) / total)
    match castInt (roundDouble (width * progress)) with
    | none => Outcome.undefined
    | some filledWidth =>
      match stdString filledWidth '#', stdString (width - filledWidth) '-' with
      | some bar, some empty =>
          Outcome.ok ("[" ++ bar ++ empty ++ "] " ++ L.showFixed1 (roundDouble (progress * 100))
            ++ "%")
      | _, _ => Outcome.throws

/-! ## Pacing -/

/-- Line 81: `fps > 0 ? 1.0 / fps : 1.0 / 30.0`. -/
def frameIntervalOf (fps : ℚ) : ℚ :=
  if 0 < fps then roundDouble (1 / fps) else roundDouble (1 / 30)

/-- The number `sleepTime.count()` of lines 191-193.  `startTime` and `now` are the tick counts
of two `steady_clock::time_point`s, whose period is the nanosecond (libstdc++, libc++ and the
Microsoft STL agree on it).  Adding the `duration<double>` of `frameCount * frameInterval` seconds
converts both operands to the common type `duration<double, std::nano>`, so the count of the
result is a number of nanoseconds. -/
def sleepTimeCount (startTime now frameCount : ℤ) (frameInterval : ℚ) : ℚ :=
  let seconds := roundDouble (frameCount * frameInterval)
  let targetTime := roundDouble (roundDouble startTime + roundDouble (seconds * 1000000000))
  roundDouble (targetTime - roundDouble now)

/-- What the consumer does after a frame was written. -/
inductive PacingAction where
  | sleepFor (nanoseconds : ℚ)
  | catchUp
  | proceed
  deriving DecidableEq

/-- The literal `0.001` of line 195: the double nearest to 1/1000, which is
`1152921504606847 / 2 ^ 60`. -/
def sleepThreshold : ℚ := 1152921504606847 / 1152921504606846976

/-- The literal `0.1` of line 197: the double nearest to 1/10, which is
`3602879701896397 / 2 ^ 55`. -/
def dropThreshold : ℚ := 3602879701896397 / 36028797018963968

/-- Lines 195-197: the two comparisons of `sleepTime.count()` with `0.001` and `-0.1`. -/
def pacingDecision (startTime now frameCount : ℤ) (frameInterval : ℚ) : PacingAction :=
  let count := sleepTimeCount startTime now frameCount frameInterval
  if sleepThreshold < count then PacingAction.sleepFor count
  else if count < -dropThreshold then PacingAction.catchUp
  else PacingAction.proceed

/-- The loop of lines 201-204; the first argument is the number of iterations left,
`framesToSkip - i`.  Returns the queue, `frameCount` and the frames discarded by `pop()`, oldest
first. -/
def catchUpLoop : ℕ → List String → ℤ → List String × ℤ × List String
  | 0, queue, frameCount => (queue, frameCount, [])
  | _ + 1, [], frameCount => ([], frameCount, [])
  | n + 1, f :: queue, frameCount =>
      let r := catchUpLoop n queue (frameCount + 1)
      (r.1, r.2.1, f :: r.2.2)

/-- Lines 199-204, executed under the queue mutex: drop up to three frames, at most half of the
queue. -/
def catchUp (queue : List String) (frameCount : ℤ) : List String × ℤ × List String :=
  let framesToSkip := min 3 (queue.length / 2)
  catchUpLoop framesToSkip queue frameCount

/-! ## The two threads of `playVideo` -/

/-- What `playVideo` reads once and never changes: the colour mode, the properties of the video,
the frame interval, the start time (line 137, in clock ticks) and the frame source, as the result
of the n-th execution of `cap >> frame`. -/
structure Config where
  useColor : Bool
  videoWidth : ℤ
  videoHeight : ℤ
  totalFrames : ℤ
  frameInterval : ℚ
  startTime : ℤ
  source : ℕ → Mat

/-- Line 90. -/
def BUFFER_SIZE (useColor : Bool) : ℕ := if useColor then 2 else 5

/-- Line 105. -/
def currentBufferSize (useColor : Bool) : ℕ :=
  if useColor then min 2 (BUFFER_SIZE useColor) else BUFFER_SIZE useColor

/-- Line 100. -/
def MAX_EMPTY_FRAMES : ℕ := 5

/-- Where the producer thread stands. -/
inductive ProducerPC where
  /-- Line 102, before the loop condition is evaluated. -/
  | loopHead
  /-- Lines 103-111, before the capacity check under the mutex. -/
  | capacityCheck
  /-- Lines 113-120, before `cap >> frame`. -/
  | readFrame
  /-- Line 121, before `processFrame`; carries the index of the read and the frame. -/
  | render (index : ℕ) (frame : Mat)
  /-- Lines 123-127, before the push under the mutex. -/
  | push (index : ℕ) (asciiFrame : String)
  /-- Lines 130-132, before `producerDone = true`. -/
  | markDone
  /-- The thread function has returned. -/
  | exited
  deriving DecidableEq

/-- Where the consumer (the thread of `playVideo`) stands. -/
inductive ConsumerPC where
  /-- Lines 141-149, before the loop condition and the resize check. -/
  | loopHead
  /-- Lines 152-168, before the wait and the pop under the mutex. -/
  | waitPop
  /-- Lines 170-189, with the value of the local `asciiFrame`. -/
  | gotFrame (asciiFrame : String)
  /-- Lines 191-205, after the frame was written. -/
  | pacing
  /-- Line 212, reached by the `break` of line 160 or a false loop condition. -/
  | shutdown
  /-- After line 212 on the normal path. -/
  | stopped
  /-- After the handler of lines 207-210 and line 212. -/
  | crashed
  deriving DecidableEq

/-- State of `playVideo`.  The fields `pushed`, `removed` and `written` are histories kept for the
statements only: the frames pushed with the index of the read they come from; the frames removed
from the queue in the order of their removal, marked `true` when popped for display and `false`
when discarded by the catch-up; and, for every write of line 189, the frame and the progress bar
that were written. -/
structure State where
  frameQueue : List String
  producerDone : Bool
  shouldStop : Bool
  asciiWidth : ℤ
  producer : ProducerPC
  consecutiveEmptyFrames : ℕ
  reads : ℕ
  consumer : ConsumerPC
  termWidth : ℤ
  termHeight : ℤ
  frameCount : ℤ
  pushed : List (ℕ × String)
  removed : List (String × Bool)
  written : List (String × String)
  deriving DecidableEq

/-- State after line 138, for the terminal size and the width computed at lines 87-88. -/
def initial (termWidth termHeight asciiWidth : ℤ) : State where
  frameQueue := []
  producerDone := false
  shouldStop := false
  asciiWidth := asciiWidth
  producer := ProducerPC.loopHead
  consecutiveEmptyFrames := 0
  reads := 0
  consumer := ConsumerPC.loopHead
  termWidth := termWidth
  termHeight := termHeight
  frameCount := 0
  pushed := []
  removed := []
  written := []

/-- One step of the producer lambda (lines 97-133); `none` when the thread has returned or the
behaviour is undefined. -/
def producerStep (L : Library) (cfg : Config) (s : State) : Option State :=
  match s.producer with
  | ProducerPC.loopHead =>
      if s.shouldStop = false ∧ s.consecutiveEmptyFrames < MAX_EMPTY_FRAMES then
        some { s with producer := ProducerPC.capacityCheck }
      else some { s with producer := ProducerPC.markDone }
  | ProducerPC.capacityCheck =>
      if s.frameQueue.length ≥ currentBufferSize cfg.useColor then
        some { s with producer := ProducerPC.loopHead }
      else some { s with producer := ProducerPC.readFrame }
  | ProducerPC.readFrame =>
      if (cfg.source s.reads).empty = true then
        some { s with reads := s.reads + 1,
                      consecutiveEmptyFrames := s.consecutiveEmptyFrames + 1,
                      producer := ProducerPC.loopHead }
      else
        some { s with reads := s.reads + 1,
                      consecutiveEmptyFrames := 0,
                      producer := ProducerPC.render s.reads (cfg.source s.reads) }
  | ProducerPC.render index frame =>
      match processFrame L frame s.asciiWidth cfg.useColor with
      | some asciiFrame => some { s with producer := ProducerPC.push index asciiFrame }
      | none => none
  | ProducerPC.push index asciiFrame =>
      some { s with frameQueue := s.frameQueue ++ [asciiFrame],
                    pushed := s.pushed ++ [(index, asciiFrame)],
                    producer := ProducerPC.loopHead }
  | ProducerPC.markDone =>
      some { s with producerDone := true, producer := ProducerPC.exited }
  | ProducerPC.exited => none

/-- One step of the consumer loop (lines 141-212).  `termSize` is what `getTerminalSize()`
returns, `now` what `steady_clock::now()` returns and `posFrames` what
`cap.get(cv::CAP_PROP_POS_FRAMES)` returns, should the step ask for them. -/
def consumerStep (L : Library) (cfg : Config) (termSize : ℤ × ℤ) (now posFrames : ℤ)
    (s : State) : Option State :=
  match s.consumer with
  | ConsumerPC.loopHead =>
      if s.shouldStop = true then some { s with consumer := ConsumerPC.shutdown }
      else if termSize.1 ≠ s.termWidth ∨ termSize.2 ≠ s.termHeight then
        match calculateOptimalWidth termSize.1 termSize.2 cfg.videoWidth cfg.videoHeight with
        | some w => some { s with termWidth := termSize.1, termHeight := termSize.2,
                                  asciiWidth := w, consumer := ConsumerPC.waitPop }
        | none => none
      else some { s with consumer := ConsumerPC.waitPop }
  | ConsumerPC.waitPop =>
      if s.frameQueue = [] ∧ s.producerDone = true then
        some { s with consumer := ConsumerPC.shutdown }
      else
        match s.frameQueue with
        | f :: queue =>
            some { s with frameQueue := queue, frameCount := s.frameCount + 1,
                          removed := s.removed ++ [(f, true)],
                          consumer := ConsumerPC.gotFrame f }
        | [] => some { s with consumer := ConsumerPC.gotFrame "" }
  | ConsumerPC.gotFrame asciiFrame =>
      if asciiFrame = "" then some { s with consumer := ConsumerPC.loopHead }
      else
        match createProgressBar L posFrames cfg.totalFrames (max 10 (Int.tdiv s.asciiWidth 2)) with
        | Outcome.ok progressBar =>
            some { s with written := s.written ++ [(asciiFrame, progressBar)],
                          consumer := ConsumerPC.pacing }
        | Outcome.throws => some { s with shouldStop := true, consumer := ConsumerPC.crashed }
        | Outcome.undefined => none
  | ConsumerPC.pacing =>
      match pacingDecision cfg.startTime now s.frameCount cfg.frameInterval with
      | PacingAction.catchUp =>
          some { s with frameQueue := (catchUp s.frameQueue s.frameCount).1,
                        frameCount := (catchUp s.frameQueue s.frameCount).2.1,
                        removed := s.removed ++
                          (catchUp s.frameQueue s.frameCount).2.2.map (fun f => (f, false)),
                        consumer := ConsumerPC.loopHead }
      | _ => some { s with consumer := ConsumerPC.loopHead }
  | ConsumerPC.shutdown => some { s with shouldStop := true, consumer := ConsumerPC.stopped }
  | ConsumerPC.stopped => none
  | ConsumerPC.crashed => none

/-- A scheduling choice: the producer or the consumer executes its next step; a consumer step
comes with the answers of the terminal, the clock and the capture device. -/
inductive Event where
  | producer
  | consumer (termSize : ℤ × ℤ) (now : ℤ) (posFrames : ℤ)
  deriving DecidableEq

/-- One step of the interleaved execution. -/
def step (L : Library) (cfg : Config) (ev : Event) (s : State) : Option State :=
  match ev with
  | Event.producer => producerStep L cfg s
  | Event.consumer termSize now posFrames => consumerStep L cfg termSize now posFrames s

/-- Execution of a schedule. -/
def run (L : Library) (cfg : Config) : List Event → State → Option State
  | [], s => some s
  | ev :: evs, s => (step L cfg ev s).bind (run L cfg evs)

/-- Function `playVideo` from line 87 on, executed along a schedule, for the terminal size found
at line 87. -/
def playVideo (L : Library) (cfg : Config) (termWidth termHeight : ℤ) (evs : List Event) :
    Option State :=
  (calculateOptimalWidth termWidth termHeight cfg.videoWidth cfg.videoHeight).bind
    (fun asciiWidth => run L cfg evs (initial termWidth termHeight asciiWidth))

/-- Requested length, in nanoseconds, of the suspension a step performs: the `sleep_for` of lines
108, 116 and 196 and the timeout of the `wait_for` of line 155 (which waits only while the queue
is empty and the producer is not done); zero when the step does not suspend. -/
def suspension (cfg : Config) (ev : Event) (s : State) : ℚ :=
  match ev with
  | Event.producer =>
      match s.producer with
      | ProducerPC.capacityCheck =>
          if s.frameQueue.length ≥ currentBufferSize cfg.useColor then 5000000 else 0
      | ProducerPC.readFrame => if (cfg.source s.reads).empty = true then 10000000 else 0
      | _ => 0
  | Event.consumer _ now _ =>
      match s.consumer with
      | ConsumerPC.waitPop =>
          if s.frameQueue = [] ∧ s.producerDone = false then 50000000 else 0
      | ConsumerPC.pacing =>
          match pacingDecision cfg.startTime now s.frameCount cfg.frameInterval with
          | PacingAction.sleepFor nanoseconds => nanoseconds
          | _ => 0
      | _ => 0

/-! ## Sample data for the examples -/

/-- A stand-in for the library code, used to run examples: every pixel renders as `#`, and a
number is printed with its tenths rounded to nearest (as written, for non-negative numbers). -/
def sampleLibrary : Library where
  renderPixels := fun _ width height _ =>
    String.join (List.replicate height.toNat
      (String.mk (List.replicate width.toNat '#') ++ "\n"))
  showFixed1 := fun q =>
    toString (roundHalfEven (q * 10) / 10) ++ "." ++ toString (roundHalfEven (q * 10) % 10)

/-- A source of `n` frames of 1920×1080 pixels followed by empty reads. -/
def framesThenEmpty (n : ℕ) : ℕ → Mat :=
  fun i => if i < n then { rows := 1080, cols := 1920, pixels := i } else { rows := 0, cols := 0, pixels := 0 }

/-- A grayscale playback of a 1920×1080 video of unknown length at 8 frames per second, started
at tick 0, from the given source. -/
def sampleConfig (source : ℕ → Mat) : Config where
  useColor := false
  videoWidth := 1920
  videoHeight := 1080
  totalFrames := 0
  frameInterval := 1 / 8
  startTime := 0
  source := source

/-- Control invariant: the stop flag is raised only by a consumer that has left its loop, the
producer is done only once its thread function has returned, the consumer leaves its loop
normally only with an empty queue and a finished producer, and the queue respects its capacity,
with room for one more frame while the producer is between its capacity check and its push. -/
structure ControlInv (cfg : Config) (s : State) : Prop where
  stop : s.shouldStop = true → s.consumer = ConsumerPC.stopped ∨ s.consumer = ConsumerPC.crashed
  done_exited : s.producerDone = true ↔ s.producer = ProducerPC.exited
  left : s.consumer = ConsumerPC.shutdown ∨ s.consumer = ConsumerPC.stopped →
    s.frameQueue = [] ∧ s.producerDone = true
  capacity : s.frameQueue.length ≤ currentBufferSize cfg.useColor
  room : (s.producer = ProducerPC.readFrame ∨ (∃ i f, s.producer = ProducerPC.render i f) ∨
    (∃ i t, s.producer = ProducerPC.push i t)) →
    s.frameQueue.length < currentBufferSize cfg.useColor

/-- The schedule in which the producer runs alone until the grayscale queue is full. -/
def producerFillsQueue : List Event := List.replicate 25 Event.producer

/-- A consumer about to pace with one frame counted and five frames queued. -/
def lateState : State :=
  { initial 120 40 119 with
    consumer := ConsumerPC.pacing
    frameQueue := ["f1", "f2", "f3", "f4", "f5"]
    frameCount := 1 }

/-! ## Histories: order of the frames and frame accounting -/

/-- The frames popped for display, in the order of their pop. -/
def poppedOf (removed : List (String × Bool)) : List String :=
  (removed.filter (fun r => r.2)).map (fun r => r.1)

/-- The frames discarded by catch-up corrections, in the order of their removal. -/
def droppedOf (removed : List (String × Bool)) : List String :=
  (removed.filter (fun r => !r.2)).map (fun r => r.1)

/-- The popped frame the consumer still holds and has not written yet. -/
def pendingOf (consumer : ConsumerPC) : List String :=
  match consumer with
  | ConsumerPC.gotFrame f => if f = "" then [] else [f]
  | _ => []

/-- History invariant: the frames pushed are, in order, the frames removed followed by the queue;
`frameCount` counts the removals; the non-empty popped frames are the written ones followed by
the one the consumer holds (or lost when the write threw). -/
structure HistoryInv (s : State) : Prop where
  fifo : s.pushed.map (fun p => p.2) = s.removed.map (fun r => r.1) ++ s.frameQueue
  count : s.frameCount = s.removed.length
  shown : s.consumer ≠ ConsumerPC.crashed →
    (poppedOf s.removed).filter (fun f => f ≠ "")
      = s.written.map (fun p => p.1) ++ pendingOf s.consumer
  lost : s.consumer = ConsumerPC.crashed →
    ∃ f, f ≠ "" ∧ (poppedOf s.removed).filter (fun f => f ≠ "")
      = s.written.map (fun p => p.1) ++ [f]

/-! ## A first frame on its way to the display -/

/-- The schedule in which the producer reads, renders and pushes one frame, and the consumer
then pops it and writes it. -/
def firstFrameSchedule (termSize : ℤ × ℤ) (now posFrames : ℤ) : List Event :=
  [Event.producer, Event.producer, Event.producer, Event.producer, Event.producer,
   Event.consumer termSize now posFrames, Event.consumer termSize now posFrames,
   Event.consumer termSize now posFrames]

/-- The sample playback for a video of `1 / 2 ^ k` frames per second: the frame interval is
`2 ^ k` seconds. -/
def slowVideo (k : ℕ) : Config :=
  { sampleConfig (framesThenEmpty 10) with frameInterval := 2 ^ k }

/-! ## Playback on a terminal of one cell -/

/-- The playback on a terminal that stays 1×1: the width is 0, every text rendered, queued, held
or popped is the empty string, and nothing was written. -/
structure BlankPlayback (s : State) : Prop where
  termWidth : s.termWidth = 1
  termHeight : s.termHeight = 1
  width : s.asciiWidth = 0
  written : s.written = []
  queue : ∀ f ∈ s.frameQueue, f = ""
  pushed : ∀ p ∈ s.pushed, p.2 = ""
  held : ∀ i t, s.producer = ProducerPC.push i t → t = ""
  popped : ∀ f, s.consumer = ConsumerPC.gotFrame f → f = ""

/-! ## Reading the source -/

/-- The index of the read whose frame the producer holds between its read and its push. -/
def heldIndex (producer : ProducerPC) : List ℕ :=
  match producer with
  | ProducerPC.render index _ => [index]
  | ProducerPC.push index _ => [index]
  | _ => []

/-- The reads `j, …, j + 4` are all empty. -/
def EmptyRun (source : ℕ → Mat) (j : ℕ) : Prop :=
  ∀ i, j ≤ i → i < j + 5 → (source i).empty = true

/-- Source invariant: `consecutiveEmptyFrames` is the length of the run of empty reads that ends
at the last read; the producer reads no further once that run has length 5, and a run of five
empty reads can only be the last five reads; the producer leaves its loop only after such a run,
unless the consumer has raised the stop flag in its exception handler; the frames pushed or held
are, in order, the non-empty reads, each rendered by `processFrame`. -/
structure SourceInv (L : Library) (cfg : Config) (s : State) : Prop where
  counter_le : s.consecutiveEmptyFrames ≤ 5
  counter_reads : s.consecutiveEmptyFrames ≤ s.reads
  trailing : ∀ i, s.reads - s.consecutiveEmptyFrames ≤ i → i < s.reads →
    (cfg.source i).empty = true
  maximal : s.consecutiveEmptyFrames < s.reads →
    (cfg.source (s.reads - s.consecutiveEmptyFrames - 1)).empty = false
  reading : s.consecutiveEmptyFrames = 5 →
    s.producer = ProducerPC.loopHead ∨ s.producer = ProducerPC.markDone ∨
      s.producer = ProducerPC.exited
  first : ∀ j, j + 5 ≤ s.reads → EmptyRun cfg.source j →
    j + 5 = s.reads ∧ s.consecutiveEmptyFrames = 5
  finished : s.producer = ProducerPC.markDone ∨ s.producer = ProducerPC.exited →
    s.consecutiveEmptyFrames = 5 ∨ s.consumer = ConsumerPC.crashed
  enqueued : s.pushed.map (fun p => p.1) ++ heldIndex s.producer
    = (List.range s.reads).filter (fun i => !(cfg.source i).empty)
  rendered : ∀ p ∈ s.pushed, ∃ width, processFrame L (cfg.source p.1) width cfg.useColor = some p.2
  held_frame : ∀ i f, s.producer = ProducerPC.render i f → f = cfg.source i
  held_text : ∀ i t, s.producer = ProducerPC.push i t →
    ∃ width, processFrame L (cfg.source i) width cfg.useColor = some t

/-! ## Progress: a schedule that plays the source to its end -/

/-- Both threads are at the head of their loops, the queue is empty, nothing has stopped and
`n` reads were made. -/
structure AtLoopHeads (tw th w : ℤ) (n : ℕ) (s : State) : Prop where
  producer : s.producer = ProducerPC.loopHead
  consumer : s.consumer = ConsumerPC.loopHead
  queue : s.frameQueue = []
  stop : s.shouldStop = false
  done : s.producerDone = false
  reads : s.reads = n
  width : s.asciiWidth = w
  termWidth : s.termWidth = tw
  termHeight : s.termHeight = th

/-! ## The width a frame is rendered at -/

/-- The pair `p` of a read index and a text was rendered during the schedule `evs` started in
`s0`: some producer step of the schedule was the call of line 121, made while the producer held
the frame of read `p.1`, and `processFrame` returned the text `p.2` for that frame at the value
that `asciiWidth` had when the step was made. -/
def RenderedDuring (L : Library) (cfg : Config) (s0 : State) (evs : List Event)
    (p : ℕ × String) : Prop :=
  ∃ (before after : List Event) (s' : State),
    evs = before ++ Event.producer :: after ∧ run L cfg before s0 = some s' ∧
    s'.producer = ProducerPC.render p.1 (cfg.source p.1) ∧
    processFrame L (cfg.source p.1) s'.asciiWidth cfg.useColor = some p.2

/-! ## C5: end of stream -/

/-- A schedule that plays a source of ten frames to its end on a 1×1 terminal: ten times the
producer reads, renders and pushes a frame and the consumer pops it; then the producer meets five
empty reads and marks itself done; then the consumer finds the queue empty and finishes. -/
def tenFrameSchedule : List Event :=
  (List.replicate 10 (List.replicate 5 Event.producer
      ++ List.replicate 3 (Event.consumer (1, 1) 0 0))).flatten
    ++ List.replicate 17 Event.producer ++ List.replicate 3 (Event.consumer (1, 1) 0 0)

/-! ## The palette and its lookup table -/

/-- The terminating character of a C string, also the value of a fresh `char` of a vector. -/
def NUL : Char := Char.ofNat 0

/-- The default palette, the initial value of `CURRENT_ASCII_CHARS`.  A palette is written as the
list of the `char`s of its string; the C string is that list followed by a terminating NUL. -/
def CURRENT_ASCII_CHARS : List Char := " .:-=+*#%@".toList

/-- `strlen`: the number of characters before the first NUL. -/
def strlen (chars : List Char) : ℕ := (chars.takeWhile (fun c => c != NUL)).length

/-- `getAsciiCharSetLength`: `strlen(CURRENT_ASCII_CHARS)` converted to `int` (the value modulo
2 ^ 32 in the range of `int`). -/
def getAsciiCharSetLength (chars : List Char) : ℤ :=
  ((strlen chars : ℤ) + 2147483648) % 4294967296 - 2147483648

/-- The index `i * charSetLen / 256` of `generateAsciiLookup`, in `int` arithmetic: the division
truncates, and an overflow of the product is undefined behaviour (`none`). -/
def paletteIndex (charSetLen i : ℤ) : Option ℤ :=
  if INT_MIN ≤ i * charSetLen ∧ i * charSetLen ≤ INT_MAX then
    some (Int.tdiv (i * charSetLen) 256)
  else none

/-- The read `CURRENT_ASCII_CHARS[k]`: a character of the string or its terminator; a read
outside of them is undefined behaviour (`none`). -/
def readChars (chars : List Char) (k : ℤ) : Option Char :=
  if 0 ≤ k then (chars ++ [NUL])[k.toNat]? else none

/-- `generateAsciiLookup`: a vector of 256 characters, filled for `i = 0 .. 255` with
`CURRENT_ASCII_CHARS[i * charSetLen / 256]`. -/
def generateAsciiLookup (chars : List Char) : Option (List Char) :=
  (List.range 256).foldlM
    (fun (lookup : List Char) (i : ℕ) =>
      (paletteIndex (getAsciiCharSetLength chars) (i : ℤ)).bind fun k =>
        (readChars chars k).map fun c => lookup.set i c)
    (List.replicate 256 NUL)

/-- `pixelToAscii`: the element `ASCII_LOOKUP[value]`; outside of the vector the read is undefined
behaviour (`none`). -/
def pixelToAscii (lookup : List Char) (value : ℤ) : Option Char :=
  if 0 ≤ value then lookup[value.toNat]? else none

/-! ## Properties of the rounding to `double` -/

theorem roundHalfEven_intCast (n : ℤ) : roundHalfEven (n : ℚ) = n := by
  simp [roundHalfEven]

theorem floor_le_roundHalfEven (x : ℚ) : ⌊x⌋ ≤ roundHalfEven x := by
  unfold roundHalfEven
  split_ifs <;> omega

theorem roundHalfEven_le_floor_add_one (x : ℚ) : roundHalfEven x ≤ ⌊x⌋ + 1 := by
  unfold roundHalfEven
  split_ifs <;> omega

theorem roundHalfEven_mono {x y : ℚ} (h : x ≤ y) : roundHalfEven x ≤ roundHalfEven y := by
  rcases lt_or_eq_of_le (Int.floor_mono h) with hlt | heq
  · calc roundHalfEven x ≤ ⌊x⌋ + 1 := roundHalfEven_le_floor_add_one x
      _ ≤ ⌊y⌋ := hlt
      _ ≤ roundHalfEven y := floor_le_roundHalfEven y
  · unfold roundHalfEven
    rw [heq]
    have hxy : x - (⌊y⌋ : ℚ) ≤ y - ⌊y⌋ := by linarith
    split_ifs <;> first | omega | (exfalso; linarith)

theorem abs_roundHalfEven_sub_le (x : ℚ) : |(roundHalfEven x : ℚ) - x| ≤ 1 / 2 := by
  have h1 := Int.floor_le x
  have h2 := Int.lt_floor_add_one x
  unfold roundHalfEven
  rw [abs_le]
  split_ifs <;> push_cast <;> constructor <;> linarith

theorem log_two_eq {r : ℚ} {e : ℤ} (h1 : (2 : ℚ) ^ e ≤ r) (h2 : r < (2 : ℚ) ^ (e + 1)) :
    Int.log 2 r = e := by
  have hr : 0 < r := lt_of_lt_of_le (by positivity) h1
  have a : e ≤ Int.log 2 r := (Int.zpow_le_iff_le_log (by norm_num) hr).mp (by exact_mod_cast h1)
  have b : Int.log 2 r < e + 1 := (Int.lt_zpow_iff_log_lt (by norm_num) hr).mp (by exact_mod_cast h2)
  omega

theorem log_two_bounds {x : ℚ} (hx : x ≠ 0) :
    (2 : ℚ) ^ Int.log 2 |x| ≤ |x| ∧ |x| < (2 : ℚ) ^ (Int.log 2 |x| + 1) := by
  have hpos : 0 < |x| := abs_pos.mpr hx
  constructor
  · exact_mod_cast Int.zpow_log_le_self (b := 2) (by norm_num) hpos
  · exact_mod_cast Int.lt_zpow_succ_log_self (b := 2) (by norm_num) |x|

theorem roundDouble_of_binade {x : ℚ} {e : ℤ} (h1 : (2 : ℚ) ^ e ≤ |x|)
    (h2 : |x| < (2 : ℚ) ^ (e + 1)) :
    roundDouble x = (roundHalfEven (x / (2 : ℚ) ^ (e - 52)) : ℚ) * (2 : ℚ) ^ (e - 52) := by
  have hx : x ≠ 0 := by
    intro h
    rw [h, abs_zero] at h1
    exact absurd h1 (not_le.mpr (by positivity))
  unfold roundDouble
  rw [if_neg hx, log_two_eq h1 h2]

theorem roundDouble_zero : roundDouble 0 = 0 := by simp [roundDouble]

theorem roundDouble_nonneg {x : ℚ} (hx : 0 ≤ x) : 0 ≤ roundDouble x := by
  unfold roundDouble
  split_ifs with h0
  · exact le_refl 0
  · have hu : (0 : ℚ) < (2 : ℚ) ^ (Int.log 2 |x| - 52) := by positivity
    have h : roundHalfEven ((0 : ℤ) : ℚ) ≤ roundHalfEven (x / (2 : ℚ) ^ (Int.log 2 |x| - 52)) :=
      roundHalfEven_mono (by push_cast; positivity)
    rw [roundHalfEven_intCast] at h
    have h' : (0 : ℚ) ≤ (roundHalfEven (x / (2 : ℚ) ^ (Int.log 2 |x| - 52)) : ℚ) := by
      exact_mod_cast h
    positivity

theorem roundDouble_nonpos {x : ℚ} (hx : x ≤ 0) : roundDouble x ≤ 0 := by
  unfold roundDouble
  split_ifs with h0
  · exact le_refl 0
  · have hu : (0 : ℚ) < (2 : ℚ) ^ (Int.log 2 |x| - 52) := by positivity
    have h : roundHalfEven (x / (2 : ℚ) ^ (Int.log 2 |x| - 52)) ≤ roundHalfEven ((0 : ℤ) : ℚ) :=
      roundHalfEven_mono (by push_cast; exact div_nonpos_of_nonpos_of_nonneg hx hu.le)
    rw [roundHalfEven_intCast] at h
    have h' : (roundHalfEven (x / (2 : ℚ) ^ (Int.log 2 |x| - 52)) : ℚ) ≤ 0 := by
      exact_mod_cast h
    exact mul_nonpos_of_nonpos_of_nonneg h' hu.le

theorem roundDouble_rel_err (x : ℚ) : |roundDouble x - x| ≤ |x| / 2 ^ 53 := by
  by_cases hx : x = 0
  · simp [hx, roundDouble_zero]
  · obtain ⟨h1, h2⟩ := log_two_bounds hx
    rw [roundDouble_of_binade h1 h2]
    set e := Int.log 2 |x|
    have hu : (0 : ℚ) < (2 : ℚ) ^ (e - 52) := by positivity
    have key : (roundHalfEven (x / (2 : ℚ) ^ (e - 52)) : ℚ) * (2 : ℚ) ^ (e - 52) - x
        = ((roundHalfEven (x / (2 : ℚ) ^ (e - 52)) : ℚ) - x / (2 : ℚ) ^ (e - 52))
          * (2 : ℚ) ^ (e - 52) := by
      field_simp
    rw [key, abs_mul, abs_of_pos hu]
    have h3 := abs_roundHalfEven_sub_le (x / (2 : ℚ) ^ (e - 52))
    have h4 : (2 : ℚ) ^ (e - 52) = (2 : ℚ) ^ e / 2 ^ 52 := by
      rw [zpow_sub₀ (by norm_num : (2 : ℚ) ≠ 0)]
      norm_num
    calc |(roundHalfEven (x / (2 : ℚ) ^ (e - 52)) : ℚ) - x / (2 : ℚ) ^ (e - 52)| * (2 : ℚ) ^ (e - 52)
        ≤ 1 / 2 * (2 : ℚ) ^ (e - 52) := mul_le_mul_of_nonneg_right h3 hu.le
      _ = (2 : ℚ) ^ e / 2 ^ 53 := by rw [h4]; ring
      _ ≤ |x| / 2 ^ 53 := div_le_div_of_nonneg_right h1 (by positivity)

theorem roundDouble_mul_two (x : ℚ) : roundDouble (x * 2) = roundDouble x * 2 := by
  by_cases hx : x = 0
  · simp [hx, roundDouble_zero]
  · obtain ⟨h1, h2⟩ := log_two_bounds hx
    set e := Int.log 2 |x|
    have two : (2 : ℚ) ≠ 0 := by norm_num
    have e1 : (2 : ℚ) ^ (e + 1) = (2 : ℚ) ^ e * 2 := by rw [zpow_add₀ two]; norm_num
    have e2 : (2 : ℚ) ^ (e + 1 + 1) = (2 : ℚ) ^ e * 2 * 2 := by rw [zpow_add₀ two, e1]; norm_num
    have e3 : (2 : ℚ) ^ (e + 1 - 52) = (2 : ℚ) ^ (e - 52) * 2 := by
      rw [show e + 1 - 52 = (e - 52) + 1 by ring, zpow_add₀ two]; norm_num
    have a1 : (2 : ℚ) ^ (e + 1) ≤ |x * 2| := by
      rw [abs_mul, e1]; norm_num; exact h1
    have a2 : |x * 2| < (2 : ℚ) ^ (e + 1 + 1) := by
      rw [abs_mul, e2, ← e1]; norm_num; exact h2
    rw [roundDouble_of_binade a1 a2, roundDouble_of_binade h1 h2, e3]
    have hu : (2 : ℚ) ^ (e - 52) ≠ 0 := by positivity
    have : x * 2 / ((2 : ℚ) ^ (e - 52) * 2) = x / (2 : ℚ) ^ (e - 52) := by
      field_simp
      ring
    rw [this]; ring

theorem roundDouble_div_two (x : ℚ) : roundDouble (x / 2) = roundDouble x / 2 := by
  have h := roundDouble_mul_two (x / 2)
  rw [show x / 2 * 2 = x by ring] at h
  rw [h]; ring

theorem two_pow_52_cast : ((2 : ℚ) ^ 52) = (((2 : ℤ) ^ 52 : ℤ) : ℚ) := by norm_num

/-- Within a binade the rounded significand lies between `2^52` and `2^53`. -/
theorem significand_bounds_pos {x : ℚ} {e : ℤ} (h1 : (2 : ℚ) ^ e ≤ x)
    (h2 : x < (2 : ℚ) ^ (e + 1)) :
    (2 : ℤ) ^ 52 ≤ roundHalfEven (x / (2 : ℚ) ^ (e - 52)) ∧
      roundHalfEven (x / (2 : ℚ) ^ (e - 52)) ≤ (2 : ℤ) ^ 53 := by
  have two : (2 : ℚ) ≠ 0 := by norm_num
  have hu : (0 : ℚ) < (2 : ℚ) ^ (e - 52) := by positivity
  have e1 : (2 : ℚ) ^ e = (2 : ℚ) ^ (e - 52) * 2 ^ 52 := by
    rw [show e = (e - 52) + 52 by ring, zpow_add₀ two]; norm_num
  have e2 : (2 : ℚ) ^ (e + 1) = (2 : ℚ) ^ (e - 52) * 2 ^ 53 := by
    rw [show e + 1 = (e - 52) + 53 by ring, zpow_add₀ two]; norm_num
  constructor
  · have : (((2 : ℤ) ^ 52 : ℤ) : ℚ) ≤ x / (2 : ℚ) ^ (e - 52) := by
      rw [le_div_iff₀ hu]; push_cast; rw [e1] at h1; linarith
    have h := roundHalfEven_mono this
    rwa [roundHalfEven_intCast] at h
  · have : x / (2 : ℚ) ^ (e - 52) ≤ (((2 : ℤ) ^ 53 : ℤ) : ℚ) := by
      rw [div_le_iff₀ hu]; push_cast; rw [e2] at h2; linarith
    have h := roundHalfEven_mono this
    rwa [roundHalfEven_intCast] at h

theorem significand_bounds_neg {x : ℚ} {e : ℤ} (h1 : (2 : ℚ) ^ e ≤ -x)
    (h2 : -x < (2 : ℚ) ^ (e + 1)) :
    -(2 : ℤ) ^ 53 ≤ roundHalfEven (x / (2 : ℚ) ^ (e - 52)) ∧
      roundHalfEven (x / (2 : ℚ) ^ (e - 52)) ≤ -(2 : ℤ) ^ 52 := by
  have two : (2 : ℚ) ≠ 0 := by norm_num
  have hu : (0 : ℚ) < (2 : ℚ) ^ (e - 52) := by positivity
  have e1 : (2 : ℚ) ^ e = (2 : ℚ) ^ (e - 52) * 2 ^ 52 := by
    rw [show e = (e - 52) + 52 by ring, zpow_add₀ two]; norm_num
  have e2 : (2 : ℚ) ^ (e + 1) = (2 : ℚ) ^ (e - 52) * 2 ^ 53 := by
    rw [show e + 1 = (e - 52) + 53 by ring, zpow_add₀ two]; norm_num
  constructor
  · have : ((-(2 : ℤ) ^ 53 : ℤ) : ℚ) ≤ x / (2 : ℚ) ^ (e - 52) := by
      rw [le_div_iff₀ hu]; push_cast; rw [e2] at h2; linarith
    have h := roundHalfEven_mono this
    rwa [roundHalfEven_intCast] at h
  · have : x / (2 : ℚ) ^ (e - 52) ≤ ((-(2 : ℤ) ^ 52 : ℤ) : ℚ) := by
      rw [div_le_iff₀ hu]; push_cast; rw [e1] at h1; linarith
    have h := roundHalfEven_mono this
    rwa [roundHalfEven_intCast] at h

theorem roundDouble_bounds_pos {x : ℚ} {e : ℤ} (hx : 0 < x) (h1 : (2 : ℚ) ^ e ≤ x)
    (h2 : x < (2 : ℚ) ^ (e + 1)) :
    (2 : ℚ) ^ e ≤ roundDouble x ∧ roundDouble x ≤ (2 : ℚ) ^ (e + 1) := by
  have two : (2 : ℚ) ≠ 0 := by norm_num
  have hu : (0 : ℚ) < (2 : ℚ) ^ (e - 52) := by positivity
  have e1 : (2 : ℚ) ^ e = 2 ^ 52 * (2 : ℚ) ^ (e - 52) := by
    rw [show e = 52 + (e - 52) by ring, zpow_add₀ two]; norm_num
  have e2 : (2 : ℚ) ^ (e + 1) = 2 ^ 53 * (2 : ℚ) ^ (e - 52) := by
    rw [show e + 1 = 53 + (e - 52) by ring, zpow_add₀ two]; norm_num
  obtain ⟨s1, s2⟩ := significand_bounds_pos h1 h2
  have s1' : ((2 : ℚ) ^ 52) ≤ (roundHalfEven (x / (2 : ℚ) ^ (e - 52)) : ℚ) := by exact_mod_cast s1
  have s2' : (roundHalfEven (x / (2 : ℚ) ^ (e - 52)) : ℚ) ≤ (2 : ℚ) ^ 53 := by exact_mod_cast s2
  rw [roundDouble_of_binade (by rwa [abs_of_pos hx]) (by rwa [abs_of_pos hx]), e1, e2]
  exact ⟨mul_le_mul_of_nonneg_right s1' hu.le, mul_le_mul_of_nonneg_right s2' hu.le⟩

theorem roundDouble_bounds_neg {x : ℚ} {e : ℤ} (hx : x < 0) (h1 : (2 : ℚ) ^ e ≤ -x)
    (h2 : -x < (2 : ℚ) ^ (e + 1)) :
    -(2 : ℚ) ^ (e + 1) ≤ roundDouble x ∧ roundDouble x ≤ -(2 : ℚ) ^ e := by
  have two : (2 : ℚ) ≠ 0 := by norm_num
  have hu : (0 : ℚ) < (2 : ℚ) ^ (e - 52) := by positivity
  have e1 : (2 : ℚ) ^ e = 2 ^ 52 * (2 : ℚ) ^ (e - 52) := by
    rw [show e = 52 + (e - 52) by ring, zpow_add₀ two]; norm_num
  have e2 : (2 : ℚ) ^ (e + 1) = 2 ^ 53 * (2 : ℚ) ^ (e - 52) := by
    rw [show e + 1 = 53 + (e - 52) by ring, zpow_add₀ two]; norm_num
  obtain ⟨s1, s2⟩ := significand_bounds_neg h1 h2
  have s1' : -((2 : ℚ) ^ 53) ≤ (roundHalfEven (x / (2 : ℚ) ^ (e - 52)) : ℚ) := by exact_mod_cast s1
  have s2' : (roundHalfEven (x / (2 : ℚ) ^ (e - 52)) : ℚ) ≤ -(2 : ℚ) ^ 52 := by exact_mod_cast s2
  rw [roundDouble_of_binade (by rwa [abs_of_neg hx]) (by rwa [abs_of_neg hx]), e1, e2]
  constructor
  · have := mul_le_mul_of_nonneg_right s1' hu.le
    linarith
  · have := mul_le_mul_of_nonneg_right s2' hu.le
    linarith

/-- Rounding to `double` is monotone. -/
theorem roundDouble_mono {x y : ℚ} (h : x ≤ y) : roundDouble x ≤ roundDouble y := by
  rcases le_or_lt x 0 with hx0 | hx0
  · rcases le_or_lt 0 y with hy0 | hy0
    · exact le_trans (roundDouble_nonpos hx0) (roundDouble_nonneg hy0)
    · -- both negative
      have hx : x < 0 := lt_of_le_of_lt h hy0
      obtain ⟨x1, x2⟩ := log_two_bounds hx.ne
      obtain ⟨y1, y2⟩ := log_two_bounds hy0.ne
      have hlog : Int.log 2 |y| ≤ Int.log 2 |x| :=
        Int.log_mono_right (abs_pos.mpr hy0.ne) (by rw [abs_of_neg hx, abs_of_neg hy0]; linarith)
      generalize Int.log 2 |x| = ex at x1 x2 hlog
      generalize Int.log 2 |y| = ey at y1 y2 hlog
      rcases lt_or_eq_of_le hlog with hlt | heq
      · rw [abs_of_neg hx] at x1 x2
        rw [abs_of_neg hy0] at y1 y2
        have bx := (roundDouble_bounds_neg hx x1 x2).2
        have by1 := (roundDouble_bounds_neg hy0 y1 y2).1
        have hz : (2 : ℚ) ^ (ey + 1) ≤ (2 : ℚ) ^ ex :=
          zpow_le_zpow_right₀ (by norm_num) (by omega)
        linarith
      · rw [roundDouble_of_binade x1 x2, roundDouble_of_binade y1 y2, heq]
        have hu : (0 : ℚ) < (2 : ℚ) ^ (ex - 52) := by positivity
        have hm := roundHalfEven_mono (div_le_div_of_nonneg_right h hu.le)
        have hm' : (roundHalfEven (x / (2 : ℚ) ^ (ex - 52)) : ℚ)
            ≤ (roundHalfEven (y / (2 : ℚ) ^ (ex - 52)) : ℚ) := by exact_mod_cast hm
        exact mul_le_mul_of_nonneg_right hm' hu.le
  · have hy0 : 0 < y := lt_of_lt_of_le hx0 h
    obtain ⟨x1, x2⟩ := log_two_bounds hx0.ne'
    obtain ⟨y1, y2⟩ := log_two_bounds hy0.ne'
    have hlog : Int.log 2 |x| ≤ Int.log 2 |y| :=
      Int.log_mono_right (abs_pos.mpr hx0.ne') (by rw [abs_of_pos hx0, abs_of_pos hy0]; exact h)
    generalize Int.log 2 |x| = ex at x1 x2 hlog
    generalize Int.log 2 |y| = ey at y1 y2 hlog
    rcases lt_or_eq_of_le hlog with hlt | heq
    · rw [abs_of_pos hx0] at x1 x2
      rw [abs_of_pos hy0] at y1 y2
      have bx := (roundDouble_bounds_pos hx0 x1 x2).2
      have by1 := (roundDouble_bounds_pos hy0 y1 y2).1
      have hz : (2 : ℚ) ^ (ex + 1) ≤ (2 : ℚ) ^ ey :=
        zpow_le_zpow_right₀ (by norm_num) (by omega)
      linarith
    · rw [roundDouble_of_binade x1 x2, roundDouble_of_binade y1 y2, heq]
      have hu : (0 : ℚ) < (2 : ℚ) ^ (ey - 52) := by positivity
      have hm := roundHalfEven_mono (div_le_div_of_nonneg_right h hu.le)
      have hm' : (roundHalfEven (x / (2 : ℚ) ^ (ey - 52)) : ℚ)
          ≤ (roundHalfEven (y / (2 : ℚ) ^ (ey - 52)) : ℚ) := by exact_mod_cast hm
      exact mul_le_mul_of_nonneg_right hm' hu.le

/-- Every `m * 2^k` with `|m| ≤ 2^53` is a `double` (exponent range aside) and rounds to itself. -/
theorem roundDouble_dyadic (n k : ℤ) (hn : |n| ≤ 2 ^ 53) :
    roundDouble ((n : ℚ) * (2 : ℚ) ^ k) = (n : ℚ) * (2 : ℚ) ^ k := by
  by_cases hn0 : n = 0
  · simp [hn0, roundDouble_zero]
  have two : (2 : ℚ) ≠ 0 := by norm_num
  have hk : (0 : ℚ) < (2 : ℚ) ^ k := by positivity
  have hx : (n : ℚ) * (2 : ℚ) ^ k ≠ 0 := mul_ne_zero (by exact_mod_cast hn0) hk.ne'
  obtain ⟨h1, h2⟩ := log_two_bounds hx
  generalize Int.log 2 |(n : ℚ) * (2 : ℚ) ^ k| = e at h1 h2
  have habs : |(n : ℚ) * (2 : ℚ) ^ k| = ((|n| : ℤ) : ℚ) * (2 : ℚ) ^ k := by
    rw [abs_mul, abs_of_pos hk, Int.cast_abs]
  have hn' : ((|n| : ℤ) : ℚ) ≤ (2 : ℚ) ^ (53 : ℤ) := by
    have : ((|n| : ℤ) : ℚ) ≤ (((2 : ℤ) ^ 53 : ℤ) : ℚ) := Int.cast_le.mpr hn
    rw [show ((2 : ℚ) ^ (53 : ℤ)) = (((2 : ℤ) ^ 53 : ℤ) : ℚ) by norm_num]
    exact this
  have he : e ≤ 53 + k := by
    have : (2 : ℚ) ^ e ≤ (2 : ℚ) ^ (53 + k) := by
      rw [zpow_add₀ two]
      calc (2 : ℚ) ^ e ≤ ((|n| : ℤ) : ℚ) * (2 : ℚ) ^ k := by rw [← habs]; exact h1
        _ ≤ (2 : ℚ) ^ (53 : ℤ) * (2 : ℚ) ^ k := mul_le_mul_of_nonneg_right hn' hk.le
    exact (zpow_le_zpow_iff_right₀ (by norm_num : (1 : ℚ) < 2)).mp this
  rw [roundDouble_of_binade h1 h2]
  rcases lt_or_eq_of_le he with hlt | heq
  · obtain ⟨j, hj⟩ := Int.eq_ofNat_of_zero_le (show 0 ≤ k - e + 52 by omega)
    have hdiv : (n : ℚ) * (2 : ℚ) ^ k / (2 : ℚ) ^ (e - 52) = ((n * 2 ^ j : ℤ) : ℚ) := by
      rw [mul_div_assoc, ← zpow_sub₀ two, show k - (e - 52) = (j : ℤ) by omega, zpow_natCast]
      push_cast
      ring
    rw [hdiv, roundHalfEven_intCast]
    push_cast
    rw [mul_assoc, ← zpow_natCast, ← zpow_add₀ two, show (j : ℤ) + (e - 52) = k by omega]
  · have hge : (2 : ℚ) ^ (53 : ℤ) ≤ ((|n| : ℤ) : ℚ) := by
      have h3 : (2 : ℚ) ^ (53 : ℤ) * (2 : ℚ) ^ k ≤ ((|n| : ℤ) : ℚ) * (2 : ℚ) ^ k := by
        rw [← habs, ← zpow_add₀ two, ← heq]
        exact h1
      exact le_of_mul_le_mul_right h3 hk
    have hge' : (2 : ℤ) ^ 53 ≤ |n| := by
      have : (((2 : ℤ) ^ 53 : ℤ) : ℚ) ≤ ((|n| : ℤ) : ℚ) := by
        rw [show (((2 : ℤ) ^ 53 : ℤ) : ℚ) = (2 : ℚ) ^ (53 : ℤ) by norm_num]
        exact hge
      exact Int.cast_le.mp this
    have habsn : |n| = 2 ^ 53 := le_antisymm hn hge'
    obtain ⟨m, hm⟩ : ∃ m : ℤ, n = 2 * m := by
      rcases abs_choice n with hc | hc
      · exact ⟨2 ^ 52, by rw [← hc, habsn]; norm_num⟩
      · exact ⟨-2 ^ 52, by
          have : n = -|n| := by rw [hc]; ring
          rw [this, habsn]; norm_num⟩
    have hdiv : (n : ℚ) * (2 : ℚ) ^ k / (2 : ℚ) ^ (e - 52) = ((m : ℤ) : ℚ) := by
      rw [mul_div_assoc, ← zpow_sub₀ two, show k - (e - 52) = -1 by omega, hm]
      push_cast
      norm_num
      ring
    rw [hdiv, roundHalfEven_intCast, show e - 52 = k + 1 by omega, zpow_add₀ two, hm]
    push_cast
    ring

/-- Integers of magnitude at most `2^53` are exactly representable. -/
theorem roundDouble_intCast (n : ℤ) (hn : |n| ≤ 2 ^ 53) : roundDouble (n : ℚ) = n := by
  have h := roundDouble_dyadic n 0 hn
  simpa using h

theorem significand_abs_le {x : ℚ} (hx : x ≠ 0) :
    |roundHalfEven (x / (2 : ℚ) ^ (Int.log 2 |x| - 52))| ≤ 2 ^ 53 := by
  obtain ⟨h1, h2⟩ := log_two_bounds hx
  rcases lt_or_gt_of_ne hx with hneg | hpos
  · rw [abs_of_neg hneg] at h1 h2
    obtain ⟨s1, s2⟩ := significand_bounds_neg h1 h2
    rw [abs_of_neg hneg, abs_le]
    constructor <;> omega
  · rw [abs_of_pos hpos] at h1 h2
    obtain ⟨s1, s2⟩ := significand_bounds_pos h1 h2
    rw [abs_of_pos hpos, abs_le]
    constructor <;> omega

/-- Rounding is idempotent: a rounded value is a `double`. -/
theorem roundDouble_idem (x : ℚ) : roundDouble (roundDouble x) = roundDouble x := by
  by_cases hx : x = 0
  · simp [hx, roundDouble_zero]
  · have h := roundDouble_dyadic _ (Int.log 2 |x| - 52) (significand_abs_le hx)
    have hdef : roundDouble x = (roundHalfEven (x / (2 : ℚ) ^ (Int.log 2 |x| - 52)) : ℚ)
        * (2 : ℚ) ^ (Int.log 2 |x| - 52) := by
      unfold roundDouble
      rw [if_neg hx]
    rw [hdef]
    exact h

theorem roundHalfEven_eq_of_near {x : ℚ} {m : ℤ} (h : |x - m| < 1 / 2) :
    roundHalfEven x = m := by
  rw [abs_lt] at h
  have h3 := abs_le.mp (abs_roundHalfEven_sub_le x)
  have a1 : ((roundHalfEven x - m : ℤ) : ℚ) < 1 := by push_cast; linarith
  have a2 : roundHalfEven x - m < 1 := by exact_mod_cast a1
  have b1 : (-1 : ℚ) < ((roundHalfEven x - m : ℤ) : ℚ) := by push_cast; linarith
  have b2 : -1 < roundHalfEven x - m := by exact_mod_cast b1
  omega

/-- Evaluation of `roundDouble`: in the binade `e`, the significand is the integer nearest to
`x / 2 ^ (e - 52)`. -/
theorem roundDouble_eq_of_near {x : ℚ} (e m : ℤ) (h1 : (2 : ℚ) ^ e ≤ |x|)
    (h2 : |x| < (2 : ℚ) ^ (e + 1)) (hm : |x / (2 : ℚ) ^ (e - 52) - m| < 1 / 2) :
    roundDouble x = m * (2 : ℚ) ^ (e - 52) := by
  rw [roundDouble_of_binade h1 h2, roundHalfEven_eq_of_near hm]

theorem sleepThreshold_eq : sleepThreshold = roundDouble (1 / 1000) := by
  rw [roundDouble_eq_of_near (-10) 4611686018427388 (by norm_num [abs_of_pos])
    (by norm_num [abs_of_pos]) (by norm_num [abs_lt])]
  norm_num [sleepThreshold]

theorem dropThreshold_eq : dropThreshold = roundDouble (1 / 10) := by
  rw [roundDouble_eq_of_near (-4) 7205759403792794 (by norm_num [abs_of_pos])
    (by norm_num [abs_of_pos]) (by norm_num [abs_lt])]
  norm_num [dropThreshold]

/-! ## Invariants of the interleaved execution -/

/-- A property kept by every step holds after every schedule. -/
theorem run_induction (L : Library) (cfg : Config) (P : State → Prop)
    (hstep : ∀ ev s s', P s → step L cfg ev s = some s' → P s') :
    ∀ (evs : List Event) (s s' : State), P s → run L cfg evs s = some s' → P s' := by
  intro evs
  induction evs with
  | nil =>
      intro s s' hs h
      simp only [run, Option.some.injEq] at h
      exact h ▸ hs
  | cons ev evs ih =>
      intro s s' hs h
      simp only [run] at h
      cases hst : step L cfg ev s with
      | none => rw [hst] at h; simp at h
      | some t =>
          rw [hst] at h
          exact ih t s' (hstep ev s t hs hst) h

theorem catchUpLoop_length (n : ℕ) (queue : List String) (frameCount : ℤ) :
    (catchUpLoop n queue frameCount).1.length ≤ queue.length := by
  induction n generalizing queue frameCount with
  | zero => simp [catchUpLoop]
  | succ n ih =>
      cases queue with
      | nil => simp [catchUpLoop]
      | cons f q =>
          simp only [catchUpLoop, List.length_cons]
          exact Nat.le_succ_of_le (ih q (frameCount + 1))

theorem catchUp_length (queue : List String) (frameCount : ℤ) :
    (catchUp queue frameCount).1.length ≤ queue.length :=
  catchUpLoop_length _ queue frameCount

theorem controlInv_initial (cfg : Config) (tw th w : ℤ) : ControlInv cfg (initial tw th w) := by
  constructor <;> simp [initial, currentBufferSize, BUFFER_SIZE]

theorem controlInv_producerStep (L : Library) (cfg : Config) (s s' : State)
    (hs : ControlInv cfg s) (h : producerStep L cfg s = some s') : ControlInv cfg s' := by
  obtain ⟨h1, h2, h3, h4, h5⟩ := hs
  unfold producerStep at h
  cases hp : s.producer with
  | loopHead =>
      rw [hp] at h
      dsimp only at h
      split_ifs at h <;> (cases h; constructor <;> simp_all)
  | capacityCheck =>
      rw [hp] at h
      dsimp only at h
      split_ifs at h <;> (cases h; constructor <;> simp_all)
  | readFrame =>
      rw [hp] at h
      dsimp only at h
      split_ifs at h <;> (cases h; constructor <;> simp_all)
  | render i f =>
      rw [hp] at h
      dsimp only at h
      cases hr : processFrame L f s.asciiWidth cfg.useColor with
      | none => rw [hr] at h; cases h
      | some t => rw [hr] at h; cases h; constructor <;> simp_all
  | push i t =>
      rw [hp] at h
      cases h; constructor <;> simp_all
      omega
  | markDone =>
      rw [hp] at h
      cases h; constructor <;> simp_all
  | exited =>
      rw [hp] at h
      cases h

theorem controlInv_consumerStep (L : Library) (cfg : Config) (termSize : ℤ × ℤ)
    (now posFrames : ℤ) (s s' : State)
    (hs : ControlInv cfg s) (h : consumerStep L cfg termSize now posFrames s = some s') :
    ControlInv cfg s' := by
  obtain ⟨h1, h2, h3, h4, h5⟩ := hs
  unfold consumerStep at h
  cases hc : s.consumer with
  | loopHead =>
      rw [hc] at h
      dsimp only at h
      split_ifs at h
      · cases h; constructor <;> simp_all
      · cases hw : calculateOptimalWidth termSize.1 termSize.2 cfg.videoWidth cfg.videoHeight with
        | none => rw [hw] at h; cases h
        | some w => rw [hw] at h; cases h; constructor <;> simp_all
      · cases h; constructor <;> simp_all
  | waitPop =>
      rw [hc] at h
      dsimp only at h
      split_ifs at h
      · cases h; constructor <;> simp_all
      · cases hq : s.frameQueue with
        | nil => rw [hq] at h; cases h; constructor <;> simp_all
        | cons f q =>
            rw [hq] at h; cases h
            rw [hq] at h4 h5
            simp only [List.length_cons] at h4 h5
            constructor <;> simp_all <;> omega
  | gotFrame f =>
      rw [hc] at h
      dsimp only at h
      split_ifs at h
      · cases h; constructor <;> simp_all
      · cases hb : createProgressBar L posFrames cfg.totalFrames
            (max 10 (Int.tdiv s.asciiWidth 2)) with
        | ok bar => rw [hb] at h; cases h; constructor <;> simp_all
        | throws => rw [hb] at h; cases h; constructor <;> simp_all
        | undefined => rw [hb] at h; cases h
  | pacing =>
      generalize pacingDecision cfg.startTime now s.frameCount cfg.frameInterval = d at h
      rw [hc] at h
      have hlen := catchUp_length s.frameQueue s.frameCount
      cases d with
      | sleepFor ns => cases h; constructor <;> simp_all
      | proceed => cases h; constructor <;> simp_all
      | catchUp =>
          cases h
          refine ⟨?_, ?_, ?_, ?_, ?_⟩
          · simp_all
          · simp_all
          · simp_all
          · exact le_trans hlen h4
          · intro hp
            exact lt_of_le_of_lt hlen (h5 hp)
  | shutdown =>
      rw [hc] at h
      cases h; constructor <;> simp_all
  | stopped => rw [hc] at h; cases h
  | crashed => rw [hc] at h; cases h

theorem controlInv_step (L : Library) (cfg : Config) (ev : Event) (s s' : State)
    (hs : ControlInv cfg s) (h : step L cfg ev s = some s') : ControlInv cfg s' := by
  cases ev with
  | producer => exact controlInv_producerStep L cfg s s' hs h
  | consumer termSize now posFrames =>
      exact controlInv_consumerStep L cfg termSize now posFrames s s' hs h

theorem controlInv_run (L : Library) (cfg : Config) (tw th w : ℤ) (evs : List Event) (s : State)
    (h : run L cfg evs (initial tw th w) = some s) : ControlInv cfg s :=
  run_induction L cfg (ControlInv cfg) (controlInv_step L cfg) evs _ s
    (controlInv_initial cfg tw th w) h

/-! ## C1: capacity of the frame queue -/

/-- C1. Queue capacity invariant: in every state reached by any interleaving of producer steps
(capacity check, read, render, push) and consumer steps (pop, catch-up drop), from any initial
terminal size and width, the length of the frame queue is between 0 and C, where C = 2 in colour
mode and C = 5 in grayscale mode. -/
theorem queue_capacity_invariant (L : Library) (cfg : Config) (termWidth termHeight w : ℤ)
    (evs : List Event) (s : State)
    (h : run L cfg evs (initial termWidth termHeight w) = some s) :
    0 ≤ s.frameQueue.length ∧ s.frameQueue.length ≤ (if cfg.useColor = true then 2 else 5) := by
  have hinv := (controlInv_run L cfg termWidth termHeight w evs s h).capacity
  refine ⟨Nat.zero_le _, ?_⟩
  cases hc : cfg.useColor <;> simpa [hc, currentBufferSize, BUFFER_SIZE] using hinv

/-- Witness for C1: after 25 producer steps on a 1×1 terminal the grayscale queue holds exactly
five frames, the capacity. -/
theorem queue_capacity_invariant_witness :
    ∃ s, run sampleLibrary (sampleConfig (framesThenEmpty 10)) producerFillsQueue (initial 1 1 0)
        = some s ∧ s.frameQueue.length = 5 ∧
      (0 ≤ s.frameQueue.length ∧ s.frameQueue.length ≤
        (if (sampleConfig (framesThenEmpty 10)).useColor = true then 2 else 5)) := by
  have hrun : (run sampleLibrary (sampleConfig (framesThenEmpty 10)) producerFillsQueue
      (initial 1 1 0)).map (fun s => s.frameQueue.length) = some 5 := by decide
  cases hs : run sampleLibrary (sampleConfig (framesThenEmpty 10)) producerFillsQueue
      (initial 1 1 0) with
  | none => rw [hs] at hrun; cases hrun
  | some s =>
      rw [hs] at hrun
      refine ⟨s, rfl, ?_, queue_capacity_invariant _ _ 1 1 0 producerFillsQueue s hs⟩
      simpa using hrun

/-! ## C3: the catch-up drop -/

theorem catchUpLoop_spec (n : ℕ) (queue : List String) (frameCount : ℤ) (hn : n ≤ queue.length) :
    catchUpLoop n queue frameCount = (queue.drop n, frameCount + n, queue.take n) := by
  induction n generalizing queue frameCount with
  | zero => simp [catchUpLoop]
  | succ n ih =>
      cases queue with
      | nil => simp at hn
      | cons f q =>
          simp only [List.length_cons, Nat.add_le_add_iff_right] at hn
          simp only [catchUpLoop, ih q (frameCount + 1) hn, List.drop_succ_cons,
            List.take_succ_cons, Nat.cast_add, Nat.cast_one]
          refine Prod.ext rfl (Prod.ext ?_ rfl)
          simp only
          ring

theorem catchUp_spec (queue : List String) (frameCount : ℤ) :
    catchUp queue frameCount =
      (queue.drop (min 3 (queue.length / 2)), frameCount + (min 3 (queue.length / 2) : ℕ),
        queue.take (min 3 (queue.length / 2))) := by
  unfold catchUp
  exact catchUpLoop_spec _ queue frameCount (by omega)

theorem threshold_sleep_bounds : 0 ≤ sleepThreshold ∧ sleepThreshold ≤ 1 := by
  unfold sleepThreshold
  constructor <;> norm_num

theorem threshold_drop_bounds : 0 ≤ dropThreshold ∧ dropThreshold ≤ 1 := by
  unfold dropThreshold
  constructor <;> norm_num

/-- Integers of magnitude at most `2^53`, written as rational numerals, round to themselves. -/
theorem roundDouble_int_of_eq {x : ℚ} (n : ℤ) (hx : x = n) (hn : |n| ≤ 2 ^ 53) :
    roundDouble x = x := by
  rw [hx]; exact roundDouble_intCast n hn

/-- The count of `sleepTime` when every operation is exact: the start time, the clock reading and
the target offset `frameCount * frameInterval * 10^9` are integers below `2^53`. -/
theorem sleepTimeCount_exact (startTime now frameCount : ℤ) (frameInterval : ℚ) (k : ℤ) (t : ℤ)
    (hsec : roundDouble (frameCount * frameInterval) = frameCount * frameInterval)
    (ht : (frameCount : ℚ) * frameInterval * 1000000000 = t)
    (h1 : |startTime| ≤ 2 ^ 53) (h2 : |t| ≤ 2 ^ 53) (h3 : |startTime + t| ≤ 2 ^ 53)
    (h4 : |now| ≤ 2 ^ 53) (hk : startTime + t - now = k) (h5 : |k| ≤ 2 ^ 53) :
    sleepTimeCount startTime now frameCount frameInterval = k := by
  unfold sleepTimeCount
  simp only [hsec, ht]
  rw [roundDouble_intCast startTime h1, roundDouble_intCast t h2, roundDouble_intCast now h4]
  rw [show (startTime : ℚ) + (t : ℚ) = ((startTime + t : ℤ) : ℚ) by push_cast; ring,
    roundDouble_intCast _ h3,
    show ((startTime + t : ℤ) : ℚ) - (now : ℚ) = ((startTime + t - now : ℤ) : ℚ) by
      push_cast; ring, hk]
  exact roundDouble_intCast k h5

theorem roundDouble_one_eighth : roundDouble (1 / 8) = 1 / 8 := by
  have h := roundDouble_dyadic 1 (-3) (by norm_num)
  norm_num at h
  exact h

/-- One second after the start, with one frame counted at 8 frames per second, the consumer is
875 ms late and runs the catch-up. -/
theorem pacingDecision_late : pacingDecision 0 1000000000 1 (1 / 8) = PacingAction.catchUp := by
  have hc : sleepTimeCount 0 1000000000 1 (1 / 8) = ((-875000000 : ℤ) : ℚ) := by
    apply sleepTimeCount_exact 0 1000000000 1 (1 / 8) (-875000000) 125000000
    · norm_num; exact roundDouble_one_eighth
    all_goals norm_num
  obtain ⟨a1, a2⟩ := threshold_sleep_bounds
  obtain ⟨b1, b2⟩ := threshold_drop_bounds
  unfold pacingDecision
  simp only [hc]
  rw [if_neg (by push_cast; linarith), if_pos (by push_cast; linarith)]

/-- C3. Catch-up bound: when the consumer runs a catch-up correction on a queue of length n, the
step removes exactly k = min(3, ⌊n/2⌋) frames (so at most 3), the removed frames are the k oldest
entries of the queue, the remaining queue is the untouched rest in its original order, and
`frameCount` grows by exactly k. -/
theorem catch_up_bound (L : Library) (cfg : Config) (termSize : ℤ × ℤ) (now posFrames : ℤ)
    (s : State) (hc : s.consumer = ConsumerPC.pacing)
    (hd : pacingDecision cfg.startTime now s.frameCount cfg.frameInterval
      = PacingAction.catchUp) :
    ∃ s', consumerStep L cfg termSize now posFrames s = some s' ∧
      min 3 (s.frameQueue.length / 2) ≤ 3 ∧
      s'.frameQueue.length + min 3 (s.frameQueue.length / 2) = s.frameQueue.length ∧
      s.frameQueue = s.frameQueue.take (min 3 (s.frameQueue.length / 2)) ++ s'.frameQueue ∧
      s'.frameQueue = s.frameQueue.drop (min 3 (s.frameQueue.length / 2)) ∧
      s'.removed = s.removed ++
        (s.frameQueue.take (min 3 (s.frameQueue.length / 2))).map (fun f => (f, false)) ∧
      s'.frameCount = s.frameCount + (min 3 (s.frameQueue.length / 2) : ℕ) := by
  unfold consumerStep
  rw [hd, hc]
  refine ⟨_, rfl, Nat.min_le_left _ _, ?_, ?_, ?_, ?_, ?_⟩
  · simp only [catchUp_spec, List.length_drop]
    omega
  · simp only [catchUp_spec, List.take_append_drop]
  · simp only [catchUp_spec]
  · simp only [catchUp_spec]
  · simp only [catchUp_spec]

/-- Witness for C3: five queued frames, 875 ms late: two frames are dropped. -/
theorem catch_up_bound_witness :
    ∃ s', consumerStep sampleLibrary (sampleConfig (framesThenEmpty 10)) (120, 40) 1000000000 0
        lateState = some s' ∧
      min 3 (lateState.frameQueue.length / 2) ≤ 3 ∧
      s'.frameQueue.length + min 3 (lateState.frameQueue.length / 2)
        = lateState.frameQueue.length ∧
      lateState.frameQueue
        = lateState.frameQueue.take (min 3 (lateState.frameQueue.length / 2)) ++ s'.frameQueue ∧
      s'.frameQueue = lateState.frameQueue.drop (min 3 (lateState.frameQueue.length / 2)) ∧
      s'.removed = lateState.removed ++
        (lateState.frameQueue.take (min 3 (lateState.frameQueue.length / 2))).map
          (fun f => (f, false)) ∧
      s'.frameCount = lateState.frameCount + (min 3 (lateState.frameQueue.length / 2) : ℕ) :=
  catch_up_bound sampleLibrary (sampleConfig (framesThenEmpty 10)) (120, 40) 1000000000 0
    lateState rfl pacingDecision_late

theorem historyInv_initial (tw th w : ℤ) : HistoryInv (initial tw th w) := by
  constructor <;> simp [initial, poppedOf, pendingOf]

theorem historyInv_producerStep (L : Library) (cfg : Config) (s s' : State)
    (hs : HistoryInv s) (h : producerStep L cfg s = some s') : HistoryInv s' := by
  obtain ⟨h1, h2, h3, h4⟩ := hs
  unfold producerStep at h
  cases hp : s.producer with
  | loopHead =>
      rw [hp] at h
      dsimp only at h
      split_ifs at h <;> (cases h; exact ⟨h1, h2, h3, h4⟩)
  | capacityCheck =>
      rw [hp] at h
      dsimp only at h
      split_ifs at h <;> (cases h; exact ⟨h1, h2, h3, h4⟩)
  | readFrame =>
      rw [hp] at h
      dsimp only at h
      split_ifs at h <;> (cases h; exact ⟨h1, h2, h3, h4⟩)
  | render i f =>
      rw [hp] at h
      dsimp only at h
      cases hr : processFrame L f s.asciiWidth cfg.useColor with
      | none => rw [hr] at h; cases h
      | some t => rw [hr] at h; cases h; exact ⟨h1, h2, h3, h4⟩
  | push i t =>
      rw [hp] at h
      cases h
      refine ⟨?_, h2, h3, h4⟩
      simp only [List.map_append, h1, List.map_cons, List.map_nil, List.append_assoc]
  | markDone =>
      rw [hp] at h
      cases h; exact ⟨h1, h2, h3, h4⟩
  | exited =>
      rw [hp] at h
      cases h

theorem poppedOf_append_dropped (removed : List (String × Bool)) (gone : List String) :
    poppedOf (removed ++ gone.map (fun f => (f, false))) = poppedOf removed := by
  unfold poppedOf
  rw [List.filter_append]
  have : (gone.map (fun f => (f, false))).filter (fun r => r.2) = [] := by
    induction gone with
    | nil => rfl
    | cons g gs ih => simp
  rw [this, List.append_nil]

theorem poppedOf_append_popped (removed : List (String × Bool)) (f : String) :
    poppedOf (removed ++ [(f, true)]) = poppedOf removed ++ [f] := by
  simp [poppedOf, List.filter_append]

theorem historyInv_consumerStep (L : Library) (cfg : Config) (termSize : ℤ × ℤ)
    (now posFrames : ℤ) (s s' : State)
    (hs : HistoryInv s) (h : consumerStep L cfg termSize now posFrames s = some s') :
    HistoryInv s' := by
  obtain ⟨h1, h2, h3, h4⟩ := hs
  unfold consumerStep at h
  generalize pacingDecision cfg.startTime now s.frameCount cfg.frameInterval = d at h
  cases hc : s.consumer with
  | loopHead =>
      rw [hc] at h h3
      dsimp only at h
      have h3' := h3 (by simp)
      split_ifs at h
      · cases h; exact ⟨h1, h2, fun _ => h3', by simp⟩
      · cases hw : calculateOptimalWidth termSize.1 termSize.2 cfg.videoWidth cfg.videoHeight with
        | none => rw [hw] at h; cases h
        | some w => rw [hw] at h; cases h; exact ⟨h1, h2, fun _ => h3', by simp⟩
      · cases h; exact ⟨h1, h2, fun _ => h3', by simp⟩
  | waitPop =>
      rw [hc] at h h3
      dsimp only at h
      have h3' := h3 (by simp)
      split_ifs at h
      · cases h; exact ⟨h1, h2, fun _ => h3', by simp⟩
      · cases hq : s.frameQueue with
        | nil =>
            rw [hq] at h; cases h
            exact ⟨by simpa [hq] using h1, h2, fun _ => by simpa [pendingOf] using h3', by simp⟩
        | cons f q =>
            rw [hq] at h; cases h
            rw [hq] at h1
            refine ⟨?_, ?_, fun _ => ?_, by simp⟩
            · simp [h1]
            · simp [h2]
            · simp only [poppedOf_append_popped, List.filter_append, h3', pendingOf]
              by_cases hf : f = "" <;> simp [hf]
  | gotFrame f =>
      rw [hc] at h h3
      dsimp only at h
      have h3' := h3 (by simp)
      simp only [pendingOf] at h3'
      split_ifs at h with hf
      · cases h
        rw [if_pos hf] at h3'
        exact ⟨h1, h2, fun _ => h3', by simp⟩
      · rw [if_neg hf] at h3'
        cases hb : createProgressBar L posFrames cfg.totalFrames
            (max 10 (Int.tdiv s.asciiWidth 2)) with
        | ok bar =>
            rw [hb] at h; cases h
            exact ⟨h1, h2, fun _ => by simpa [pendingOf] using h3', by simp⟩
        | throws =>
            rw [hb] at h; cases h
            exact ⟨h1, h2, fun hne => absurd rfl hne, fun _ => ⟨f, hf, h3'⟩⟩
        | undefined => rw [hb] at h; cases h
  | pacing =>
      rw [hc] at h h3
      have h3' := h3 (by simp)
      cases d with
      | sleepFor ns => cases h; exact ⟨h1, h2, fun _ => h3', by simp⟩
      | proceed => cases h; exact ⟨h1, h2, fun _ => h3', by simp⟩
      | catchUp =>
          cases h
          refine ⟨?_, ?_, fun _ => ?_, by simp⟩
          · simp only [catchUp_spec, List.map_append, List.map_map, List.append_assoc, h1]
            congr 1
            conv_lhs => rw [← List.take_append_drop (min 3 (s.frameQueue.length / 2)) s.frameQueue]
            congr 1
            simp [Function.comp_def]
          · have hmin : min (min 3 (s.frameQueue.length / 2)) s.frameQueue.length
                = min 3 (s.frameQueue.length / 2) := by omega
            simp only [catchUp_spec, List.length_append, List.length_map, List.length_take, hmin,
              h2, Nat.cast_add]
          · simp only [poppedOf_append_dropped]
            exact h3'
  | shutdown =>
      rw [hc] at h h3
      have h3' := h3 (by simp)
      cases h; exact ⟨h1, h2, fun _ => h3', by simp⟩
  | stopped => rw [hc] at h; cases h
  | crashed => rw [hc] at h; cases h

theorem historyInv_step (L : Library) (cfg : Config) (ev : Event) (s s' : State)
    (hs : HistoryInv s) (h : step L cfg ev s = some s') : HistoryInv s' := by
  cases ev with
  | producer => exact historyInv_producerStep L cfg s s' hs h
  | consumer termSize now posFrames =>
      exact historyInv_consumerStep L cfg termSize now posFrames s s' hs h

theorem historyInv_run (L : Library) (cfg : Config) (tw th w : ℤ) (evs : List Event) (s : State)
    (h : run L cfg evs (initial tw th w) = some s) : HistoryInv s :=
  run_induction L cfg HistoryInv (historyInv_step L cfg) evs _ s (historyInv_initial tw th w) h

/-! ## C4: order of the frames -/

theorem poppedOf_sublist (removed : List (String × Bool)) :
    (poppedOf removed).Sublist (removed.map (fun r => r.1)) :=
  List.Sublist.map _ (List.filter_sublist removed)

theorem length_poppedOf_add_droppedOf (removed : List (String × Bool)) :
    (poppedOf removed).length + (droppedOf removed).length = removed.length := by
  induction removed with
  | nil => rfl
  | cons r rs ih =>
      obtain ⟨f, b⟩ := r
      cases b <;> simp [poppedOf, droppedOf] at ih ⊢ <;> omega

/-- C4. FIFO order: after every interleaving, the frames removed from the queue so far (each one
either popped for display or discarded by a catch-up drop) are, in the order of their removal, an
initial segment of the frames pushed, and the rest of the pushed frames is the queue.  Hence the
frames popped for display are a subsequence of the frames pushed, in the same relative order, the
only pushed frames missing from it are the dropped and the queued ones, and every removal, catch-up
drops included, takes the oldest entries of the queue. -/
theorem fifo_order (L : Library) (cfg : Config) (termWidth termHeight w : ℤ)
    (evs : List Event) (s : State)
    (h : run L cfg evs (initial termWidth termHeight w) = some s) :
    s.pushed.map (fun p => p.2) = s.removed.map (fun r => r.1) ++ s.frameQueue ∧
    (poppedOf s.removed).Sublist (s.pushed.map (fun p => p.2)) ∧
    (poppedOf s.removed).length + (droppedOf s.removed).length + s.frameQueue.length
      = s.pushed.length := by
  have hinv := (historyInv_run L cfg termWidth termHeight w evs s h).fifo
  refine ⟨hinv, ?_, ?_⟩
  · rw [hinv]
    exact (poppedOf_sublist s.removed).trans (List.sublist_append_left _ _)
  · have hlen := congrArg List.length hinv
    simp only [List.length_map, List.length_append] at hlen
    rw [length_poppedOf_add_droppedOf, hlen]

/-- Witness for C4: the producer pushes two frames and the consumer pops the first one. -/
theorem fifo_order_witness :
    ∃ s, run sampleLibrary (sampleConfig (framesThenEmpty 10))
        (List.replicate 10 Event.producer ++ List.replicate 2 (Event.consumer (1, 1) 0 0))
        (initial 1 1 0) = some s ∧
      s.pushed.length = 2 ∧ s.removed.length = 1 ∧
      (s.pushed.map (fun p => p.2) = s.removed.map (fun r => r.1) ++ s.frameQueue ∧
        (poppedOf s.removed).Sublist (s.pushed.map (fun p => p.2)) ∧
        (poppedOf s.removed).length + (droppedOf s.removed).length + s.frameQueue.length
          = s.pushed.length) := by
  have hrun : (run sampleLibrary (sampleConfig (framesThenEmpty 10))
      (List.replicate 10 Event.producer ++ List.replicate 2 (Event.consumer (1, 1) 0 0))
      (initial 1 1 0)).map (fun s => (s.pushed.length, s.removed.length)) = some (2, 1) := by
    decide
  cases hs : run sampleLibrary (sampleConfig (framesThenEmpty 10))
      (List.replicate 10 Event.producer ++ List.replicate 2 (Event.consumer (1, 1) 0 0))
      (initial 1 1 0) with
  | none => rw [hs] at hrun; cases hrun
  | some s =>
      rw [hs] at hrun
      simp only [Option.map_some', Option.some.injEq, Prod.mk.injEq] at hrun
      exact ⟨s, rfl, hrun.1, hrun.2, fifo_order _ _ 1 1 0 _ s hs⟩

/-! ## Geometry -/

theorem roundDouble_pos {x : ℚ} (hx : 0 < x) : 0 < roundDouble x := by
  obtain ⟨h1, h2⟩ := log_two_bounds hx.ne'
  rw [abs_of_pos hx] at h1 h2
  exact lt_of_lt_of_le (by positivity) (roundDouble_bounds_pos hx h1 h2).1

theorem roundDouble_half (x : ℚ) : roundDouble (roundDouble x * (1 / 2)) = roundDouble x / 2 := by
  rw [show roundDouble x * (1 / 2) = roundDouble x / 2 by ring, roundDouble_div_two,
    roundDouble_idem]

theorem roundDouble_twice (x : ℚ) : roundDouble (roundDouble x * 2) = roundDouble x * 2 := by
  rw [roundDouble_mul_two, roundDouble_idem]

theorem roundDouble_le_int {x : ℚ} (n : ℤ) (hn : |n| ≤ 2 ^ 53) (hx : x ≤ n) :
    roundDouble x ≤ n := by
  have h := roundDouble_mono hx
  rwa [roundDouble_intCast n hn] at h

theorem roundDouble_le_mul {x : ℚ} (hx : 0 ≤ x) : roundDouble x ≤ x * (1 + 1 / 2 ^ 53) := by
  have h := (abs_le.mp (roundDouble_rel_err x)).2
  rw [abs_of_nonneg hx] at h
  linarith

theorem castInt_of_nonneg {q : ℚ} (h0 : 0 ≤ q) (h1 : ⌊q⌋ ≤ INT_MAX) :
    castInt q = some ⌊q⌋ := by
  have hf : 0 ≤ ⌊q⌋ := Int.floor_nonneg.mpr h0
  unfold castInt truncInt
  rw [if_pos h0, if_pos ⟨by unfold INT_MIN; omega, h1⟩]

theorem castInt_zero : castInt 0 = some 0 := by
  rw [castInt_of_nonneg (le_refl 0) (by simp [INT_MAX])]
  simp

/-- On a 1×1 terminal `calculateOptimalWidth` returns 0 for every video of positive size: both
maxima are 0, the terminal aspect is `0.0 / 0.0` (NaN), the comparison fails and the other branch
computes `(0 / videoAspect) * 2`. -/
theorem calculateOptimalWidth_one_by_one (videoWidth videoHeight : ℤ) (hw : 1 ≤ videoWidth)
    (hh : 1 ≤ videoHeight) : calculateOptimalWidth 1 1 videoWidth videoHeight = some 0 := by
  have hpos : 0 < roundDouble ((videoHeight : ℚ) / videoWidth) := by
    apply roundDouble_pos
    have h1 : (0 : ℚ) < videoWidth := by exact_mod_cast (by omega : 0 < videoWidth)
    have h2 : (0 : ℚ) < videoHeight := by exact_mod_cast (by omega : 0 < videoHeight)
    positivity
  have hw0 : (videoWidth : ℚ) ≠ 0 := by
    have : (0 : ℚ) < videoWidth := by exact_mod_cast (by omega : 0 < videoWidth)
    exact this.ne'
  unfold calculateOptimalWidth
  simp only [sub_self, min_eq_left (by omega : (0 : ℤ) ≤ videoWidth),
    min_eq_left (by omega : (0 : ℤ) ≤ videoHeight), Dbl.ofInt, Dbl.mul, Dbl.div, Int.cast_zero,
    zero_mul, roundDouble_zero, if_true, if_neg hw0, Dbl.le, if_neg hpos.ne', zero_div,
    Dbl.toInt, castInt_zero]
  simp

/-- The height computed by `processFrame`, when it is computed, is at least 1. -/
theorem one_le_newHeight (frame_height frame_width width h : ℤ)
    (hh : newHeight frame_height frame_width width = some h) : 1 ≤ h := by
  unfold newHeight at hh
  simp only [Option.map_eq_some'] at hh
  obtain ⟨t, _, ht⟩ := hh
  rw [← ht]
  exact le_max_left 1 t

/-- For a width that is not positive `processFrame` computes no height and returns the empty
frame. -/
theorem processFrame_of_width_le_zero (L : Library) (frame : Mat) (width : ℤ) (useColor : Bool)
    (hw : width ≤ 0) : processFrame L frame width useColor = some "" := by
  unfold processFrame
  rw [if_pos (Or.inr hw)]

/-! ## C7: the geometry fits the terminal -/

/-- The height of a frame whose scaled aspect `aspect * width` is below `2 * maxHeight + 1`. -/
theorem newHeight_le (aspect : ℚ) (width maxHeight : ℤ) (h0 : 0 ≤ aspect * width)
    (hm : 1 ≤ maxHeight) (hmax : maxHeight ≤ INT_MAX)
    (hlt : aspect * width ≤ 2 * maxHeight + 1) :
    ∃ h, (castInt (roundDouble (roundDouble (aspect * width) * (1 / 2)))).map (max 1) = some h ∧
      h ≤ maxHeight := by
  have hM : |2 * maxHeight + 1| ≤ 2 ^ 53 := by
    unfold INT_MAX at hmax
    rw [abs_le]; constructor <;> omega
  have hr : roundDouble (aspect * width) ≤ ((2 * maxHeight + 1 : ℤ) : ℚ) :=
    roundDouble_le_int _ hM (by push_cast; exact hlt)
  have hr0 : 0 ≤ roundDouble (aspect * width) := roundDouble_nonneg h0
  rw [roundDouble_half]
  have hfl : ⌊roundDouble (aspect * width) / 2⌋ ≤ maxHeight := by
    have : roundDouble (aspect * width) / 2 < ((maxHeight + 1 : ℤ) : ℚ) := by
      push_cast at hr ⊢; linarith
    have := Int.floor_lt.mpr this
    omega
  rw [castInt_of_nonneg (by positivity) (le_trans hfl hmax)]
  exact ⟨_, rfl, max_le hm hfl⟩

theorem two_mul_le_add_one (m : ℤ) (hm : 0 ≤ m) (hmax : m ≤ INT_MAX) :
    2 * (m : ℚ) * (1 + 1 / 2 ^ 53) ≤ 2 * m + 1 := by
  have h1 : (m : ℚ) ≤ 2147483647 := by
    have : m ≤ 2147483647 := hmax
    exact_mod_cast this
  have h0 : (0 : ℚ) ≤ m := by exact_mod_cast hm
  norm_num
  linarith

/-- C7 for all terminals and videos: the width fits the columns and the height fits the rows. -/
theorem geometry_fits_general (cols rows videoWidth videoHeight : ℤ)
    (hc : 2 ≤ cols) (hr : 2 ≤ rows) (hw : 1 ≤ videoWidth) (hh : 1 ≤ videoHeight)
    (hcm : cols ≤ INT_MAX) (hrm : rows ≤ INT_MAX) :
    ∃ asciiWidth asciiHeight,
      calculateOptimalWidth cols rows videoWidth videoHeight = some asciiWidth ∧
      newHeight videoHeight videoWidth asciiWidth = some asciiHeight ∧
      asciiWidth ≤ cols - 1 ∧ asciiHeight ≤ rows - 1 := by
  -- the two maxima
  obtain ⟨maxW, hmaxW⟩ : ∃ m, m = min (cols - 1) videoWidth := ⟨_, rfl⟩
  obtain ⟨maxH, hmaxH⟩ : ∃ m, m = min (rows - 1) videoHeight := ⟨_, rfl⟩
  have hW1 : 1 ≤ maxW := by rw [hmaxW]; exact le_min (by omega) hw
  have hH1 : 1 ≤ maxH := by rw [hmaxH]; exact le_min (by omega) hh
  have hWc : maxW ≤ cols - 1 := by rw [hmaxW]; exact min_le_left _ _
  have hHr : maxH ≤ rows - 1 := by rw [hmaxH]; exact min_le_left _ _
  have hWm : maxW ≤ INT_MAX := by omega
  have hHm : maxH ≤ INT_MAX := by omega
  have qW : (0 : ℚ) < maxW := by exact_mod_cast (by omega : 0 < maxW)
  have qH : (0 : ℚ) < maxH := by exact_mod_cast (by omega : 0 < maxH)
  have qvw : (0 : ℚ) < videoWidth := by exact_mod_cast (by omega : 0 < videoWidth)
  have qvh : (0 : ℚ) < videoHeight := by exact_mod_cast (by omega : 0 < videoHeight)
  -- the aspect ratios
  obtain ⟨va, hva⟩ : ∃ a, a = roundDouble ((videoHeight : ℚ) / videoWidth) := ⟨_, rfl⟩
  have hvapos : 0 < va := by rw [hva]; exact roundDouble_pos (by positivity)
  obtain ⟨y, hy⟩ : ∃ y : ℚ, y = maxH / (maxW / 2) := ⟨_, rfl⟩
  have hypos : 0 < y := by rw [hy]; positivity
  have hhalf : roundDouble ((maxW : ℚ) * (1 / 2)) = maxW / 2 := by
    rw [show (maxW : ℚ) * (1 / 2) = (maxW : ℚ) / 2 by ring, roundDouble_div_two,
      roundDouble_intCast maxW (by unfold INT_MAX at hWm; rw [abs_le]; constructor <;> omega)]
  have hbound := two_mul_le_add_one maxH (by omega) hHm
  have hyW : y * maxW = 2 * maxH := by rw [hy]; field_simp; ring
  unfold calculateOptimalWidth newHeight
  simp only [← hmaxW, ← hmaxH, Dbl.ofInt, Dbl.mul, Dbl.div, hhalf, if_neg qvw.ne',
    if_neg (by positivity : (maxW : ℚ) / 2 ≠ 0), ← hva, ← hy, Dbl.le, decide_eq_true_eq]
  by_cases hle : va ≤ roundDouble y
  · -- the video is flatter than the terminal: full width
    rw [if_pos hle]
    have hX : va * maxW ≤ 2 * maxH + 1 := by
      have h1 : roundDouble y ≤ y * (1 + 1 / 2 ^ 53) := roundDouble_le_mul hypos.le
      calc va * maxW ≤ (y * (1 + 1 / 2 ^ 53)) * maxW :=
            mul_le_mul_of_nonneg_right (le_trans hle h1) qW.le
        _ = 2 * maxH * (1 + 1 / 2 ^ 53) := by rw [mul_right_comm, hyW]
        _ ≤ 2 * maxH + 1 := hbound
    obtain ⟨h, hh1, hh2⟩ := newHeight_le va maxW maxH (by positivity) hH1 hHm hX
    exact ⟨maxW, h, rfl, hh1, hWc, le_trans hh2 hHr⟩
  · -- the video is taller: the width follows from the height
    rw [if_neg hle, if_neg hvapos.ne']
    simp only [Dbl.toInt]
    have hvay : y < va := by
      by_contra hcon
      have h1 := roundDouble_mono (not_lt.mp hcon)
      rw [hva, roundDouble_idem, ← hva] at h1
      exact hle h1
    rw [roundDouble_twice]
    have ht0 : 0 ≤ roundDouble ((maxH : ℚ) / va) := roundDouble_nonneg (by positivity)
    have ht1 : roundDouble ((maxH : ℚ) / va) ≤ maxW / 2 := by
      have h1 : (maxH : ℚ) / va ≤ maxW / 2 := by
        rw [div_le_iff₀ hvapos]
        have : (maxH : ℚ) = y * (maxW / 2) := by rw [hy]; field_simp
        rw [this, mul_comm ((maxW : ℚ) / 2) va]
        exact mul_le_mul_of_nonneg_right hvay.le (by positivity)
      have h2 := roundDouble_mono h1
      rwa [roundDouble_div_two,
        roundDouble_intCast maxW (by unfold INT_MAX at hWm; rw [abs_le]; constructor <;> omega)]
        at h2
    have hfl : ⌊roundDouble ((maxH : ℚ) / va) * 2⌋ ≤ maxW := by
      have : roundDouble ((maxH : ℚ) / va) * 2 < ((maxW + 1 : ℤ) : ℚ) := by
        push_cast; linarith
      have := Int.floor_lt.mpr this
      omega
    rw [castInt_of_nonneg (by positivity) (le_trans hfl hWm)]
    have hw0 : 0 ≤ ⌊roundDouble ((maxH : ℚ) / va) * 2⌋ := Int.floor_nonneg.mpr (by positivity)
    have hX : va * (⌊roundDouble ((maxH : ℚ) / va) * 2⌋ : ℤ) ≤ 2 * maxH + 1 := by
      have h1 : ((⌊roundDouble ((maxH : ℚ) / va) * 2⌋ : ℤ) : ℚ)
          ≤ roundDouble ((maxH : ℚ) / va) * 2 := Int.floor_le _
      have h2 : roundDouble ((maxH : ℚ) / va) ≤ (maxH : ℚ) / va * (1 + 1 / 2 ^ 53) :=
        roundDouble_le_mul (by positivity)
      calc va * ((⌊roundDouble ((maxH : ℚ) / va) * 2⌋ : ℤ) : ℚ)
          ≤ va * ((maxH : ℚ) / va * (1 + 1 / 2 ^ 53) * 2) :=
            mul_le_mul_of_nonneg_left (by linarith) hvapos.le
        _ = 2 * maxH * (1 + 1 / 2 ^ 53) := by field_simp; ring
        _ ≤ 2 * maxH + 1 := hbound
    have hq0 : (0 : ℚ) ≤ ((⌊roundDouble ((maxH : ℚ) / va) * 2⌋ : ℤ) : ℚ) := by exact_mod_cast hw0
    obtain ⟨h, hh1, hh2⟩ := newHeight_le va _ maxH (by positivity) hH1 hHm hX
    exact ⟨_, h, rfl, hh1, le_trans hfl hWc, le_trans hh2 hHr⟩

theorem roundDouble_of_dyadic {x : ℚ} (n k : ℤ) (hx : x = n * (2 : ℚ) ^ k) (hn : |n| ≤ 2 ^ 53) :
    roundDouble x = x := by
  rw [hx]; exact roundDouble_dyadic n k hn

/-- The example of the geometry property: terminal 120×40, video 1920×1080. -/
theorem geometry_example :
    calculateOptimalWidth 120 40 1920 1080 = some 119 ∧ newHeight 1080 1920 119 = some 33 := by
  have hva : roundDouble ((1080 : ℚ) / 1920) = 9 / 16 := by
    rw [show (1080 : ℚ) / 1920 = 9 / 16 by norm_num]
    exact roundDouble_of_dyadic 9 (-4) (by norm_num) (by norm_num)
  constructor
  · have hva2 : roundDouble (9 / 16) = 9 / 16 :=
      roundDouble_of_dyadic 9 (-4) (by norm_num) (by norm_num)
    have hhalf : roundDouble (119 / 2) = 119 / 2 :=
      roundDouble_of_dyadic 119 (-1) (by norm_num) (by norm_num)
    have hle : ¬ roundDouble (78 / 119) < 9 / 16 := by
      have h := roundDouble_mono (show (9 / 16 : ℚ) ≤ 78 / 119 by norm_num)
      rw [hva2] at h
      exact not_lt.mpr h
    unfold calculateOptimalWidth
    norm_num [Dbl.ofInt, Dbl.mul, Dbl.div, Dbl.le, hhalf, hva2, hle]
  · have h1 : roundDouble ((9 / 16 : ℚ) * 119) = 1071 / 16 := by
      rw [show (9 / 16 : ℚ) * 119 = 1071 / 16 by norm_num]
      exact roundDouble_of_dyadic 1071 (-4) (by norm_num) (by norm_num)
    have h2 : roundDouble ((1071 / 16 : ℚ) * (1 / 2)) = 1071 / 32 := by
      rw [show (1071 / 16 : ℚ) * (1 / 2) = 1071 / 32 by norm_num]
      exact roundDouble_of_dyadic 1071 (-5) (by norm_num) (by norm_num)
    have hfl : ⌊(1071 / 32 : ℚ)⌋ = 33 := by
      rw [Int.floor_eq_iff]; norm_num
    unfold newHeight
    simp only [Int.cast_ofNat, hva, h1, h2]
    rw [castInt_of_nonneg (by norm_num) (by rw [hfl]; simp [INT_MAX]), hfl]
    rfl

/-- C7. Geometry fits the terminal: for every terminal with cols ≥ 2 and rows ≥ 2 and every video
with width ≥ 1 and height ≥ 1 (all of them values of `int`), `calculateOptimalWidth`
returns a width asciiWidth ≤ cols − 1, and the height max(1, ⌊(videoHeight / videoWidth) ×
asciiWidth × 0.5⌋) that `processFrame` computes from it satisfies asciiHeight ≤ rows − 1.  For
terminal 120×40 and video 1920×1080 the result is 119 and 33, within one row of the exact
aspect-scaled height 119 × (1080/1920) × 0.5. -/
theorem geometry_fits (cols rows videoWidth videoHeight : ℤ)
    (hc : 2 ≤ cols) (hr : 2 ≤ rows) (hw : 1 ≤ videoWidth) (hh : 1 ≤ videoHeight)
    (hcm : cols ≤ INT_MAX) (hrm : rows ≤ INT_MAX) :
    (∃ asciiWidth asciiHeight,
      calculateOptimalWidth cols rows videoWidth videoHeight = some asciiWidth ∧
      newHeight videoHeight videoWidth asciiWidth = some asciiHeight ∧
      asciiWidth ≤ cols - 1 ∧ asciiHeight ≤ rows - 1) ∧
    (calculateOptimalWidth 120 40 1920 1080 = some 119 ∧ newHeight 1080 1920 119 = some 33 ∧
      |(33 : ℚ) - 119 * (1080 / 1920) * (1 / 2)| < 1) :=
  ⟨geometry_fits_general cols rows videoWidth videoHeight hc hr hw hh hcm hrm,
    geometry_example.1, geometry_example.2, by norm_num [abs_lt]⟩

/-- Witness for C7: the terminal 120×40 and the video 1920×1080. -/
theorem geometry_fits_witness :
    (∃ asciiWidth asciiHeight,
      calculateOptimalWidth 120 40 1920 1080 = some asciiWidth ∧
      newHeight 1080 1920 asciiWidth = some asciiHeight ∧
      asciiWidth ≤ 120 - 1 ∧ asciiHeight ≤ 40 - 1) ∧
    (calculateOptimalWidth 120 40 1920 1080 = some 119 ∧ newHeight 1080 1920 119 = some 33 ∧
      |(33 : ℚ) - 119 * (1080 / 1920) * (1 / 2)| < 1) :=
  geometry_fits 120 40 1920 1080 (by decide) (by decide) (by decide) (by decide)
    (by decide) (by decide)

/-! ## C2: the pacing thresholds -/

theorem roundDouble_one_over_32 : roundDouble (1 / 32) = 1 / 32 :=
  roundDouble_of_dyadic 1 (-5) (by norm_num) (by norm_num)

/-- C2, evaluation at a failing input.  At 32 frames per second the frame interval is 31.25 ms;
with one frame counted and the clock 81.25 ms after the start, the slack is −50 ms, that is
`sleepTime.count() = -50000000` nanoseconds.  The claim asks for neither a sleep nor a drop between
−100 ms and 1 ms; the code compares the nanosecond count with `-0.1` and runs the catch-up.
Likewise a slack of +0.5 ms (count `500000`) exceeds `0.001` and the consumer sleeps. -/
theorem pacing_thresholds_are_nanoseconds :
    frameIntervalOf 32 = 1 / 32 ∧
    sleepTimeCount 0 81250000 1 (1 / 32) = -50000000 ∧
    pacingDecision 0 81250000 1 (1 / 32) = PacingAction.catchUp ∧
    sleepTimeCount 0 30750000 1 (1 / 32) = 500000 ∧
    pacingDecision 0 30750000 1 (1 / 32) = PacingAction.sleepFor 500000 := by
  have hi : roundDouble (((1 : ℤ) : ℚ) * (1 / 32)) = ((1 : ℤ) : ℚ) * (1 / 32) := by
    norm_num; exact roundDouble_one_over_32
  have hc1 : sleepTimeCount 0 81250000 1 (1 / 32) = ((-50000000 : ℤ) : ℚ) :=
    sleepTimeCount_exact 0 81250000 1 (1 / 32) (-50000000) 31250000 hi (by norm_num)
      (by norm_num) (by norm_num) (by norm_num) (by norm_num) (by norm_num) (by norm_num)
  have hc2 : sleepTimeCount 0 30750000 1 (1 / 32) = ((500000 : ℤ) : ℚ) :=
    sleepTimeCount_exact 0 30750000 1 (1 / 32) 500000 31250000 hi (by norm_num)
      (by norm_num) (by norm_num) (by norm_num) (by norm_num) (by norm_num) (by norm_num)
  obtain ⟨a1, a2⟩ := threshold_sleep_bounds
  obtain ⟨b1, b2⟩ := threshold_drop_bounds
  refine ⟨?_, by rw [hc1]; norm_num, ?_, by rw [hc2]; norm_num, ?_⟩
  · unfold frameIntervalOf
    rw [if_pos (by norm_num)]
    exact roundDouble_one_over_32
  · unfold pacingDecision
    simp only [hc1]
    rw [if_neg (by push_cast; linarith), if_pos (by push_cast; linarith)]
  · unfold pacingDecision
    simp only [hc2]
    rw [if_pos (by push_cast; linarith)]
    norm_num

/-- After `firstFrameSchedule` the consumer is about to pace with one frame counted. -/
theorem run_firstFrameSchedule (L : Library) (cfg : Config) (tw th w now posFrames : ℤ)
    (t bar : String) (hne : (cfg.source 0).empty = false)
    (hpf : processFrame L (cfg.source 0) w cfg.useColor = some t) (ht : t ≠ "")
    (hbar : createProgressBar L posFrames cfg.totalFrames (max 10 (Int.tdiv w 2))
      = Outcome.ok bar) :
    run L cfg (firstFrameSchedule (tw, th) now posFrames) (initial tw th w) =
      some { initial tw th w with
        reads := 1
        pushed := [(0, t)]
        removed := [(t, true)]
        written := [(t, bar)]
        frameCount := 1
        consumer := ConsumerPC.pacing } := by
  have hcap : ¬ (0 ≥ currentBufferSize cfg.useColor) := by
    unfold currentBufferSize BUFFER_SIZE
    cases cfg.useColor <;> simp
  simp [firstFrameSchedule, run, step, producerStep, consumerStep, initial, MAX_EMPTY_FRAMES,
    hcap, hne, hpf, ht, hbar]

/-- The first frame of the sample video on the 120×40 terminal renders to a non-empty text. -/
theorem processFrame_sample :
    processFrame sampleLibrary ((sampleConfig (framesThenEmpty 10)).source 0) 119
        (sampleConfig (framesThenEmpty 10)).useColor
      = some (sampleLibrary.renderPixels { rows := 1080, cols := 1920, pixels := 0 } 119 33 false)
      ∧ sampleLibrary.renderPixels { rows := 1080, cols := 1920, pixels := 0 } 119 33 false ≠ ""
    := by
  constructor
  · have h := geometry_example.2
    simp only [processFrame, sampleConfig, framesThenEmpty, Mat.empty]
    norm_num [h]
  · decide

/-! ## C9: length of the suspensions -/

/-- The suspension of a pacing step. -/
theorem suspension_pacing (cfg : Config) (s : State) (termSize : ℤ × ℤ) (now posFrames : ℤ)
    (hc : s.consumer = ConsumerPC.pacing) :
    suspension cfg (Event.consumer termSize now posFrames) s =
      match pacingDecision cfg.startTime now s.frameCount cfg.frameInterval with
      | PacingAction.sleepFor nanoseconds => nanoseconds
      | _ => 0 := by
  unfold suspension
  dsimp only
  generalize pacingDecision cfg.startTime now s.frameCount cfg.frameInterval = d
  cases d <;> simp only [hc]

/-- C9, counterexample.  A video of 8 frames per second (frame interval 125 ms) on a 120×40
terminal: the first frame is written, and with the clock 1 ms after the start the consumer sleeps
for the whole slack of 124 ms, more than 50 ms. -/
theorem bounded_suspensions_counterexample :
    frameIntervalOf 8 = (sampleConfig (framesThenEmpty 10)).frameInterval ∧
    ∃ s, playVideo sampleLibrary (sampleConfig (framesThenEmpty 10)) 120 40
        (firstFrameSchedule (120, 40) 0 0) = some s ∧
      s.consumer = ConsumerPC.pacing ∧
      suspension (sampleConfig (framesThenEmpty 10)) (Event.consumer (120, 40) 1000000 0) s
        = 124000000 ∧
      (50000000 : ℚ) < 124000000 := by
  constructor
  · unfold frameIntervalOf
    rw [if_pos (by norm_num)]
    exact roundDouble_one_eighth
  · have hrun := run_firstFrameSchedule sampleLibrary (sampleConfig (framesThenEmpty 10))
      120 40 119 0 0 _ "[未知进度]" rfl processFrame_sample.1 processFrame_sample.2 rfl
    have hc : sleepTimeCount 0 1000000 1 (1 / 8) = ((124000000 : ℤ) : ℚ) := by
      apply sleepTimeCount_exact 0 1000000 1 (1 / 8) 124000000 125000000
      · norm_num; exact roundDouble_one_eighth
      all_goals norm_num
    have hd : pacingDecision 0 1000000 1 (1 / 8) = PacingAction.sleepFor 124000000 := by
      obtain ⟨a1, a2⟩ := threshold_sleep_bounds
      unfold pacingDecision
      simp only [hc]
      rw [if_pos (by push_cast; linarith)]
      norm_num
    have hd' : pacingDecision (sampleConfig (framesThenEmpty 10)).startTime 1000000
        ({ initial 120 40 119 with
            reads := 1
            pushed := [(0, sampleLibrary.renderPixels
              { rows := 1080, cols := 1920, pixels := 0 } 119 33 false)]
            removed := [(sampleLibrary.renderPixels
              { rows := 1080, cols := 1920, pixels := 0 } 119 33 false, true)]
            written := [(sampleLibrary.renderPixels
              { rows := 1080, cols := 1920, pixels := 0 } 119 33 false, "[未知进度]")]
            frameCount := 1
            consumer := ConsumerPC.pacing } : State).frameCount
        (sampleConfig (framesThenEmpty 10)).frameInterval
        = PacingAction.sleepFor 124000000 := hd
    have hw : calculateOptimalWidth 120 40 (sampleConfig (framesThenEmpty 10)).videoWidth
        (sampleConfig (framesThenEmpty 10)).videoHeight = some 119 := geometry_example.1
    refine ⟨_, (by unfold playVideo; rw [hw, Option.some_bind]; exact hrun), rfl, ?_,
      by norm_num⟩
    rw [suspension_pacing _ _ _ _ _ rfl, hd']

/-- A frame rate of `1 / 2 ^ k` frames per second gives the frame interval `2 ^ k`. -/
theorem frameIntervalOf_slow (k : ℕ) : frameIntervalOf (1 / 2 ^ k) = 2 ^ k := by
  unfold frameIntervalOf
  rw [if_pos (by positivity), one_div_one_div]
  have h := roundDouble_dyadic 1 (k : ℤ) (by norm_num)
  simpa using h

/-- At the start time, with one frame counted and a frame interval of `2 ^ k` seconds, the count
of `sleepTime` is `2 ^ k` seconds in nanoseconds, every operation being exact. -/
theorem sleepTimeCount_slow (k : ℕ) :
    sleepTimeCount 0 0 1 (2 ^ k) = 1000000000 * 2 ^ k := by
  have h1 : roundDouble ((2 : ℚ) ^ k) = 2 ^ k := by
    have h := roundDouble_dyadic 1 (k : ℤ) (by norm_num)
    simpa using h
  have h2 : roundDouble ((2 : ℚ) ^ k * 1000000000) = 2 ^ k * 1000000000 := by
    have h := roundDouble_dyadic 1953125 ((k : ℤ) + 9) (by norm_num)
    have e : ((1953125 : ℤ) : ℚ) * (2 : ℚ) ^ ((k : ℤ) + 9) = 2 ^ k * 1000000000 := by
      rw [zpow_add₀ (by norm_num : (2 : ℚ) ≠ 0), zpow_natCast]
      norm_num
      ring
    rw [e] at h
    exact h
  unfold sleepTimeCount
  simp only [Int.cast_one, one_mul, Int.cast_zero, roundDouble_zero, zero_add, sub_zero, h1, h2]
  rw [mul_comm]

/-- The suspension of the capacity check. -/
theorem suspension_capacityCheck (cfg : Config) (s : State)
    (hp : s.producer = ProducerPC.capacityCheck) :
    suspension cfg Event.producer s =
      if s.frameQueue.length ≥ currentBufferSize cfg.useColor then 5000000 else 0 := by
  unfold suspension
  simp only [hp]

/-- The suspension of a read. -/
theorem suspension_readFrame (cfg : Config) (s : State)
    (hp : s.producer = ProducerPC.readFrame) :
    suspension cfg Event.producer s =
      if (cfg.source s.reads).empty = true then 10000000 else 0 := by
  unfold suspension
  simp only [hp]

/-- The other steps of the producer do not suspend. -/
theorem suspension_producer_other (cfg : Config) (s : State)
    (h1 : s.producer ≠ ProducerPC.capacityCheck) (h2 : s.producer ≠ ProducerPC.readFrame) :
    suspension cfg Event.producer s = 0 := by
  unfold suspension
  cases hp : s.producer with
  | capacityCheck => exact absurd hp h1
  | readFrame => exact absurd hp h2
  | loopHead => rfl
  | render i f => rfl
  | push i t => rfl
  | markDone => rfl
  | exited => rfl

/-- The suspension of the wait for a frame. -/
theorem suspension_waitPop (cfg : Config) (s : State) (termSize : ℤ × ℤ) (now posFrames : ℤ)
    (hc : s.consumer = ConsumerPC.waitPop) :
    suspension cfg (Event.consumer termSize now posFrames) s =
      if s.frameQueue = [] ∧ s.producerDone = false then 50000000 else 0 := by
  unfold suspension
  dsimp only
  generalize pacingDecision cfg.startTime now s.frameCount cfg.frameInterval = d
  rw [hc]

/-- Outside of the wait and the pacing the consumer does not suspend. -/
theorem suspension_consumer_other (cfg : Config) (s : State) (termSize : ℤ × ℤ)
    (now posFrames : ℤ) (h1 : s.consumer ≠ ConsumerPC.waitPop)
    (h2 : s.consumer ≠ ConsumerPC.pacing) :
    suspension cfg (Event.consumer termSize now posFrames) s = 0 := by
  unfold suspension
  dsimp only
  generalize pacingDecision cfg.startTime now s.frameCount cfg.frameInterval = d
  cases hc : s.consumer with
  | waitPop => exact absurd hc h1
  | pacing => exact absurd hc h2
  | loopHead => rfl
  | gotFrame f => rfl
  | shutdown => rfl
  | stopped => rfl
  | crashed => rfl

/-- The capacity check as a step. -/
theorem producerStep_capacityCheck (L : Library) (cfg : Config) (s : State)
    (hp : s.producer = ProducerPC.capacityCheck) :
    producerStep L cfg s =
      if s.frameQueue.length ≥ currentBufferSize cfg.useColor then
        some { s with producer := ProducerPC.loopHead }
      else some { s with producer := ProducerPC.readFrame } := by
  unfold producerStep
  simp only [hp]

/-- The read as a step. -/
theorem producerStep_readFrame (L : Library) (cfg : Config) (s : State)
    (hp : s.producer = ProducerPC.readFrame) :
    producerStep L cfg s =
      if (cfg.source s.reads).empty = true then
        some { s with reads := s.reads + 1,
                      consecutiveEmptyFrames := s.consecutiveEmptyFrames + 1,
                      producer := ProducerPC.loopHead }
      else
        some { s with reads := s.reads + 1,
                      consecutiveEmptyFrames := 0,
                      producer := ProducerPC.render s.reads (cfg.source s.reads) } := by
  unfold producerStep
  simp only [hp]

/-- The wait that times out: the queue is empty and the producer is not done. -/
theorem consumerStep_wait_timeout (L : Library) (cfg : Config) (termSize : ℤ × ℤ)
    (now posFrames : ℤ) (s : State) (hc : s.consumer = ConsumerPC.waitPop)
    (hq : s.frameQueue = []) (hd : s.producerDone = false) :
    consumerStep L cfg termSize now posFrames s
      = some { s with consumer := ConsumerPC.gotFrame "" } := by
  unfold consumerStep
  generalize pacingDecision cfg.startTime now s.frameCount cfg.frameInterval = d
  rw [hc]
  dsimp only
  rw [if_neg (by rw [hd]; simp), hq]

/-- A wait that does not time out leaves the loop or takes a frame from the queue: its result is
not the state of the timeout. -/
theorem consumerStep_wait_other (L : Library) (cfg : Config) (termSize : ℤ × ℤ)
    (now posFrames : ℤ) (s : State) (hc : s.consumer = ConsumerPC.waitPop)
    (hwait : ¬ (s.frameQueue = [] ∧ s.producerDone = false)) :
    consumerStep L cfg termSize now posFrames s
      ≠ some { s with consumer := ConsumerPC.gotFrame "" } := by
  intro hstep
  unfold consumerStep at hstep
  generalize pacingDecision cfg.startTime now s.frameCount cfg.frameInterval = d at hstep
  rw [hc] at hstep
  dsimp only at hstep
  split_ifs at hstep with h1
  · have := congrArg State.consumer (Option.some.inj hstep)
    cases this
  · cases hqq : s.frameQueue with
    | nil =>
        apply hwait
        refine ⟨hqq, ?_⟩
        cases hd : s.producerDone with
        | false => rfl
        | true => exact absurd ⟨hqq, hd⟩ h1
    | cons f q =>
        rw [hqq] at hstep
        have := congrArg State.frameQueue (Option.some.inj hstep)
        have hlen := congrArg List.length this
        simp at hlen

/-- C9, amended.  (1) A suspension of the producer lasts 5 ms or 10 ms, so at most 50 ms: 5 ms
exactly in the capacity check that finds the queue full (the step goes back to the head of the
loop), 10 ms exactly in the read that finds no frame (the step counts it and goes back to the
head of the loop).  (2) Outside of the pacing the consumer suspends only in the wait for a frame
that times out without a frame, for 50 ms.  (3) The pacing sleep: whenever the count of
`sleepTime` exceeds `0.001` the consumer sleeps for exactly `sleepTime`, and otherwise it does
not sleep.  (4) That sleep has no bound: for every bound there are a frame rate, a reachable
state of the playback and a clock value whose pacing sleep is longer. -/
theorem bounded_suspensions (L : Library) (cfg : Config) (s : State) (termSize : ℤ × ℤ)
    (now posFrames : ℤ) :
    ((suspension cfg Event.producer s = 0 ∨ suspension cfg Event.producer s = 5000000 ∨
        suspension cfg Event.producer s = 10000000) ∧
      suspension cfg Event.producer s ≤ 50000000 ∧
      (suspension cfg Event.producer s = 5000000 ↔
        s.producer = ProducerPC.capacityCheck ∧
        producerStep L cfg s = some { s with producer := ProducerPC.loopHead }) ∧
      (suspension cfg Event.producer s = 10000000 ↔
        s.producer = ProducerPC.readFrame ∧
        producerStep L cfg s = some { s with reads := s.reads + 1,
                                             consecutiveEmptyFrames := s.consecutiveEmptyFrames + 1,
                                             producer := ProducerPC.loopHead })) ∧
    (s.consumer ≠ ConsumerPC.pacing →
      (suspension cfg (Event.consumer termSize now posFrames) s = 0 ∨
        suspension cfg (Event.consumer termSize now posFrames) s = 50000000) ∧
      suspension cfg (Event.consumer termSize now posFrames) s ≤ 50000000 ∧
      (suspension cfg (Event.consumer termSize now posFrames) s = 50000000 ↔
        s.consumer = ConsumerPC.waitPop ∧
        consumerStep L cfg termSize now posFrames s
          = some { s with consumer := ConsumerPC.gotFrame "" })) ∧
    (s.consumer = ConsumerPC.pacing →
      (sleepThreshold < sleepTimeCount cfg.startTime now s.frameCount cfg.frameInterval →
        suspension cfg (Event.consumer termSize now posFrames) s
          = sleepTimeCount cfg.startTime now s.frameCount cfg.frameInterval ∧
        consumerStep L cfg termSize now posFrames s
          = some { s with consumer := ConsumerPC.loopHead }) ∧
      (¬ sleepThreshold < sleepTimeCount cfg.startTime now s.frameCount cfg.frameInterval →
        suspension cfg (Event.consumer termSize now posFrames) s = 0)) ∧
    (∀ bound : ℚ, ∃ (k : ℕ) (s' : State),
      frameIntervalOf (1 / 2 ^ k) = (slowVideo k).frameInterval ∧
      playVideo sampleLibrary (slowVideo k) 120 40 (firstFrameSchedule (120, 40) 0 0) = some s' ∧
      s'.consumer = ConsumerPC.pacing ∧
      bound < suspension (slowVideo k) (Event.consumer (120, 40) 0 0) s') := by
  refine ⟨?_, ?_, ?_, ?_⟩
  · -- the producer
    by_cases hcap : s.producer = ProducerPC.capacityCheck
    · have hnr : s.producer ≠ ProducerPC.readFrame := by rw [hcap]; simp
      rw [suspension_capacityCheck cfg s hcap, producerStep_capacityCheck L cfg s hcap]
      by_cases hfull : s.frameQueue.length ≥ currentBufferSize cfg.useColor
      · rw [if_pos hfull, if_pos hfull]
        exact ⟨Or.inr (Or.inl rfl), by norm_num, ⟨fun _ => ⟨hcap, rfl⟩, fun _ => rfl⟩,
          ⟨fun h => absurd h (by norm_num), fun h => absurd h.1 hnr⟩⟩
      · rw [if_neg hfull, if_neg hfull]
        refine ⟨Or.inl rfl, by norm_num, ⟨fun h => absurd h (by norm_num), fun h => ?_⟩,
          ⟨fun h => absurd h (by norm_num), fun h => absurd h.1 hnr⟩⟩
        have := congrArg State.producer (Option.some.inj h.2)
        cases this
    · by_cases hread : s.producer = ProducerPC.readFrame
      · rw [suspension_readFrame cfg s hread, producerStep_readFrame L cfg s hread]
        by_cases hempty : (cfg.source s.reads).empty = true
        · rw [if_pos hempty, if_pos hempty]
          exact ⟨Or.inr (Or.inr rfl), by norm_num,
            ⟨fun h => absurd h (by norm_num), fun h => absurd h.1 hcap⟩,
            ⟨fun _ => ⟨hread, rfl⟩, fun _ => rfl⟩⟩
        · rw [if_neg hempty, if_neg hempty]
          refine ⟨Or.inl rfl, by norm_num,
            ⟨fun h => absurd h (by norm_num), fun h => absurd h.1 hcap⟩,
            ⟨fun h => absurd h (by norm_num), fun h => ?_⟩⟩
          have := congrArg State.producer (Option.some.inj h.2)
          cases this
      · rw [suspension_producer_other cfg s hcap hread]
        exact ⟨Or.inl rfl, by norm_num,
          ⟨fun h => absurd h (by norm_num), fun h => absurd h.1 hcap⟩,
          ⟨fun h => absurd h (by norm_num), fun h => absurd h.1 hread⟩⟩
  · -- the consumer outside of the pacing
    intro hnp
    by_cases hw : s.consumer = ConsumerPC.waitPop
    · rw [suspension_waitPop cfg s termSize now posFrames hw]
      by_cases hwait : s.frameQueue = [] ∧ s.producerDone = false
      · rw [if_pos hwait]
        exact ⟨Or.inr rfl, by norm_num, fun _ => ⟨hw, consumerStep_wait_timeout L cfg termSize now
          posFrames s hw hwait.1 hwait.2⟩, fun _ => rfl⟩
      · rw [if_neg hwait]
        exact ⟨Or.inl rfl, by norm_num, fun h => absurd h (by norm_num), fun h =>
          absurd h.2 (consumerStep_wait_other L cfg termSize now posFrames s hw hwait)⟩
    · rw [suspension_consumer_other cfg s termSize now posFrames hw hnp]
      exact ⟨Or.inl rfl, by norm_num, fun h => absurd h (by norm_num), fun h => absurd h.1 hw⟩
  · -- the pacing
    intro hc
    rw [suspension_pacing cfg s termSize now posFrames hc]
    constructor
    · intro hgt
      have hd : pacingDecision cfg.startTime now s.frameCount cfg.frameInterval
          = PacingAction.sleepFor
            (sleepTimeCount cfg.startTime now s.frameCount cfg.frameInterval) := by
        unfold pacingDecision
        exact if_pos hgt
      constructor
      · rw [hd]
      · unfold consumerStep
        rw [hd, hc]
    · intro hle
      unfold pacingDecision
      dsimp only
      rw [if_neg hle]
      split_ifs <;> rfl
  · -- no bound
    intro bound
    obtain ⟨k, hk⟩ := pow_unbounded_of_one_lt bound (by norm_num : (1 : ℚ) < 2)
    have hrun := run_firstFrameSchedule sampleLibrary (slowVideo k)
      120 40 119 0 0 _ "[未知进度]" rfl processFrame_sample.1 processFrame_sample.2 rfl
    have hw : calculateOptimalWidth 120 40 (slowVideo k).videoWidth
        (slowVideo k).videoHeight = some 119 := geometry_example.1
    have hd : pacingDecision 0 0 1 (2 ^ k) = PacingAction.sleepFor (1000000000 * 2 ^ k) := by
      obtain ⟨a1, a2⟩ := threshold_sleep_bounds
      have hpow : (1 : ℚ) ≤ 2 ^ k := one_le_pow₀ (by norm_num)
      unfold pacingDecision
      simp only [sleepTimeCount_slow]
      rw [if_pos (by nlinarith)]
    have hplay : playVideo sampleLibrary (slowVideo k) 120 40 (firstFrameSchedule (120, 40) 0 0)
        = run sampleLibrary (slowVideo k) (firstFrameSchedule (120, 40) 0 0)
          (initial 120 40 119) := by
      unfold playVideo
      rw [hw, Option.some_bind]
    refine ⟨k, _, frameIntervalOf_slow k, hplay.trans hrun, rfl, ?_⟩
    rw [suspension_pacing _ _ _ _ _ rfl]
    have hd' : pacingDecision (slowVideo k).startTime 0
        ({ initial 120 40 119 with
            reads := 1
            pushed := [(0, sampleLibrary.renderPixels
              { rows := 1080, cols := 1920, pixels := 0 } 119 33 false)]
            removed := [(sampleLibrary.renderPixels
              { rows := 1080, cols := 1920, pixels := 0 } 119 33 false, true)]
            written := [(sampleLibrary.renderPixels
              { rows := 1080, cols := 1920, pixels := 0 } 119 33 false, "[未知进度]")]
            frameCount := 1
            consumer := ConsumerPC.pacing } : State).frameCount
        (slowVideo k).frameInterval
        = PacingAction.sleepFor (1000000000 * 2 ^ k) := hd
    rw [hd']
    have hpow : (0 : ℚ) < 2 ^ k := by positivity
    show bound < 1000000000 * 2 ^ k
    nlinarith

/-- Witness for the amended C9: the pacing step after the first frame of the sample video, 1 ms
after the start, sleeps for the count of `sleepTime`, which is 124 ms in nanoseconds. -/
theorem bounded_suspensions_witness :
    ∃ s, playVideo sampleLibrary (sampleConfig (framesThenEmpty 10)) 120 40
        (firstFrameSchedule (120, 40) 0 0) = some s ∧
      s.consumer = ConsumerPC.pacing ∧
      sleepThreshold < sleepTimeCount 0 1000000 1 (1 / 8) ∧
      sleepTimeCount 0 1000000 1 (1 / 8) = 124000000 ∧
      suspension (sampleConfig (framesThenEmpty 10)) (Event.consumer (120, 40) 1000000 0) s
        = sleepTimeCount 0 1000000 1 (1 / 8) ∧
      consumerStep sampleLibrary (sampleConfig (framesThenEmpty 10)) (120, 40) 1000000 0 s
        = some { s with consumer := ConsumerPC.loopHead } := by
  have hrun := run_firstFrameSchedule sampleLibrary (sampleConfig (framesThenEmpty 10))
    120 40 119 0 0 _ "[未知进度]" rfl processFrame_sample.1 processFrame_sample.2 rfl
  have hw : calculateOptimalWidth 120 40 (sampleConfig (framesThenEmpty 10)).videoWidth
      (sampleConfig (framesThenEmpty 10)).videoHeight = some 119 := geometry_example.1
  have hplay : playVideo sampleLibrary (sampleConfig (framesThenEmpty 10)) 120 40
      (firstFrameSchedule (120, 40) 0 0)
      = run sampleLibrary (sampleConfig (framesThenEmpty 10)) (firstFrameSchedule (120, 40) 0 0)
        (initial 120 40 119) := by
    unfold playVideo
    rw [hw, Option.some_bind]
  have hc : sleepTimeCount 0 1000000 1 (1 / 8) = 124000000 := by
    have h := sleepTimeCount_exact 0 1000000 1 (1 / 8) 124000000 125000000
      (by norm_num; exact roundDouble_one_eighth) (by norm_num) (by norm_num) (by norm_num)
      (by norm_num) (by norm_num) (by norm_num) (by norm_num)
    rw [h]
    norm_num
  have hgt : sleepThreshold < sleepTimeCount 0 1000000 1 (1 / 8) := by
    obtain ⟨a1, a2⟩ := threshold_sleep_bounds
    rw [hc]
    linarith
  have hthm := bounded_suspensions sampleLibrary (sampleConfig (framesThenEmpty 10))
    { initial 120 40 119 with
        reads := 1
        pushed := [(0, sampleLibrary.renderPixels
          { rows := 1080, cols := 1920, pixels := 0 } 119 33 false)]
        removed := [(sampleLibrary.renderPixels
          { rows := 1080, cols := 1920, pixels := 0 } 119 33 false, true)]
        written := [(sampleLibrary.renderPixels
          { rows := 1080, cols := 1920, pixels := 0 } 119 33 false, "[未知进度]")]
        frameCount := 1
        consumer := ConsumerPC.pacing }
    (120, 40) 1000000 0
  obtain ⟨_, _, hpace, _⟩ := hthm
  obtain ⟨hsleep, hstep⟩ := (hpace rfl).1 hgt
  exact ⟨_, hplay.trans hrun, rfl, hgt, hc, hsleep, hstep⟩

theorem blankPlayback_initial : BlankPlayback (initial 1 1 0) := by
  constructor <;> simp [initial]

theorem blankPlayback_producerStep (L : Library) (cfg : Config) (s s' : State)
    (hs : BlankPlayback s) (h : producerStep L cfg s = some s') : BlankPlayback s' := by
  obtain ⟨b1, b2, b3, b4, b5, b6, b7, b8⟩ := hs
  unfold producerStep at h
  cases hp : s.producer with
  | loopHead =>
      rw [hp] at h
      dsimp only at h
      split_ifs at h
      · cases h; exact ⟨b1, b2, b3, b4, b5, b6, fun i t hm => (by cases hm), b8⟩
      · cases h; exact ⟨b1, b2, b3, b4, b5, b6, fun i t hm => (by cases hm), b8⟩
  | capacityCheck =>
      rw [hp] at h
      dsimp only at h
      split_ifs at h
      · cases h; exact ⟨b1, b2, b3, b4, b5, b6, fun i t hm => (by cases hm), b8⟩
      · cases h; exact ⟨b1, b2, b3, b4, b5, b6, fun i t hm => (by cases hm), b8⟩
  | readFrame =>
      rw [hp] at h
      dsimp only at h
      split_ifs at h
      · cases h; exact ⟨b1, b2, b3, b4, b5, b6, fun i t hm => (by cases hm), b8⟩
      · cases h; exact ⟨b1, b2, b3, b4, b5, b6, fun i t hm => (by cases hm), b8⟩
  | render index frame =>
      have hpf := processFrame_of_width_le_zero L frame s.asciiWidth cfg.useColor (le_of_eq b3)
      rw [hp] at h
      dsimp only at h
      rw [hpf] at h
      cases h
      refine ⟨b1, b2, b3, b4, b5, b6, fun i t hm => ?_, b8⟩
      cases hm
      rfl
  | push index text =>
      have ht : text = "" := b7 index text hp
      rw [hp] at h
      cases h
      refine ⟨b1, b2, b3, b4, fun f hm => ?_, fun p hm => ?_, fun i t hm => (by cases hm), b8⟩
      · rcases List.mem_append.mp hm with hm | hm
        · exact b5 f hm
        · rw [List.mem_singleton] at hm
          rw [hm, ht]
      · rcases List.mem_append.mp hm with hm | hm
        · exact b6 p hm
        · rw [List.mem_singleton] at hm
          rw [hm]
          exact ht
  | markDone =>
      rw [hp] at h
      cases h; exact ⟨b1, b2, b3, b4, b5, b6, fun i t hm => (by cases hm), b8⟩
  | exited => rw [hp] at h; cases h

theorem blankPlayback_consumerStep (L : Library) (cfg : Config) (now posFrames : ℤ)
    (s s' : State) (hs : BlankPlayback s)
    (h : consumerStep L cfg (1, 1) now posFrames s = some s') : BlankPlayback s' := by
  obtain ⟨b1, b2, b3, b4, b5, b6, b7, b8⟩ := hs
  unfold consumerStep at h
  generalize pacingDecision cfg.startTime now s.frameCount cfg.frameInterval = d at h
  cases hc : s.consumer with
  | loopHead =>
      rw [hc] at h
      dsimp only at h
      split_ifs at h with h1 h2
      · cases h; exact ⟨b1, b2, b3, b4, b5, b6, b7, fun f hm => (by cases hm)⟩
      · rw [b1, b2] at h2
        simp at h2
      · cases h; exact ⟨b1, b2, b3, b4, b5, b6, b7, fun f hm => (by cases hm)⟩
  | waitPop =>
      rw [hc] at h
      dsimp only at h
      split_ifs at h
      · cases h; exact ⟨b1, b2, b3, b4, b5, b6, b7, fun f hm => (by cases hm)⟩
      · cases hq : s.frameQueue with
        | nil =>
            rw [hq] at h
            cases h
            refine ⟨b1, b2, b3, b4, fun f hm => (by cases hm), b6, b7, fun f hm => ?_⟩
            cases hm
            rfl
        | cons f q =>
            rw [hq] at h b5
            cases h
            refine ⟨b1, b2, b3, b4, fun g hm => b5 g (List.mem_cons_of_mem f hm), b6, b7,
              fun g hm => ?_⟩
            cases hm
            exact b5 f (List.mem_cons_self f q)
  | gotFrame f =>
      have hf : f = "" := b8 f hc
      rw [hc] at h
      dsimp only at h
      rw [if_pos hf] at h
      cases h
      exact ⟨b1, b2, b3, b4, b5, b6, b7, fun f hm => (by cases hm)⟩
  | pacing =>
      rw [hc] at h
      cases d with
      | sleepFor ns => cases h; exact ⟨b1, b2, b3, b4, b5, b6, b7, fun f hm => (by cases hm)⟩
      | proceed => cases h; exact ⟨b1, b2, b3, b4, b5, b6, b7, fun f hm => (by cases hm)⟩
      | catchUp =>
          cases h
          refine ⟨b1, b2, b3, b4, fun f hm => ?_, b6, b7, fun f hm => (by cases hm)⟩
          have hm' : f ∈ (catchUp s.frameQueue s.frameCount).1 := hm
          rw [catchUp_spec] at hm'
          exact b5 f (List.mem_of_mem_drop hm')
  | shutdown =>
      rw [hc] at h
      cases h; exact ⟨b1, b2, b3, b4, b5, b6, b7, fun f hm => (by cases hm)⟩
  | stopped => rw [hc] at h; cases h
  | crashed => rw [hc] at h; cases h

/-- While the terminal reports the size 1×1 the playback stays blank. -/
theorem blankPlayback_run (L : Library) (cfg : Config) (evs : List Event) :
    ∀ s s', (∀ termSize now posFrames, Event.consumer termSize now posFrames ∈ evs →
        termSize = (1, 1)) →
      BlankPlayback s → run L cfg evs s = some s' → BlankPlayback s' := by
  induction evs with
  | nil =>
      intro s s' _ hs h
      simp only [run, Option.some.injEq] at h
      exact h ▸ hs
  | cons ev evs ih =>
      intro s s' hev hs h
      simp only [run] at h
      cases hst : step L cfg ev s with
      | none => rw [hst] at h; cases h
      | some t =>
          rw [hst, Option.some_bind] at h
          refine ih t s' (fun ts now pf hm => hev ts now pf (List.mem_cons_of_mem _ hm)) ?_ h
          cases ev with
          | producer => exact blankPlayback_producerStep L cfg s t hs hst
          | consumer termSize now posFrames =>
              have hts := hev termSize now posFrames (List.mem_cons_self _ _)
              subst hts
              exact blankPlayback_consumerStep L cfg now posFrames s t hs hst

/-- A step writes no empty frame. -/
theorem written_nonempty_step (L : Library) (cfg : Config) (ev : Event) (s s' : State)
    (hs : ∀ p ∈ s.written, p.1 ≠ "") (h : step L cfg ev s = some s') :
    ∀ p ∈ s'.written, p.1 ≠ "" := by
  cases ev with
  | producer =>
      have hw : s'.written = s.written := by
        change producerStep L cfg s = some s' at h
        unfold producerStep at h
        cases hp : s.producer with
        | loopHead => rw [hp] at h; dsimp only at h; split_ifs at h <;> cases h <;> rfl
        | capacityCheck => rw [hp] at h; dsimp only at h; split_ifs at h <;> cases h <;> rfl
        | readFrame => rw [hp] at h; dsimp only at h; split_ifs at h <;> cases h <;> rfl
        | render index frame =>
            rw [hp] at h
            dsimp only at h
            cases hpf : processFrame L frame s.asciiWidth cfg.useColor with
            | none => rw [hpf] at h; cases h
            | some text => rw [hpf] at h; cases h; rfl
        | push index text => rw [hp] at h; cases h; rfl
        | markDone => rw [hp] at h; cases h; rfl
        | exited => rw [hp] at h; cases h
      rw [hw]
      exact hs
  | consumer termSize now posFrames =>
      change consumerStep L cfg termSize now posFrames s = some s' at h
      unfold consumerStep at h
      generalize pacingDecision cfg.startTime now s.frameCount cfg.frameInterval = d at h
      cases hc : s.consumer with
      | loopHead =>
          rw [hc] at h
          dsimp only at h
          split_ifs at h
          · cases h; exact hs
          · cases hw : calculateOptimalWidth termSize.1 termSize.2 cfg.videoWidth
                cfg.videoHeight with
            | none => rw [hw] at h; cases h
            | some w => rw [hw] at h; cases h; exact hs
          · cases h; exact hs
      | waitPop =>
          rw [hc] at h
          dsimp only at h
          split_ifs at h
          · cases h; exact hs
          · cases hq : s.frameQueue with
            | nil => rw [hq] at h; cases h; exact hs
            | cons f q => rw [hq] at h; cases h; exact hs
      | gotFrame f =>
          rw [hc] at h
          dsimp only at h
          split_ifs at h with hf
          · cases h; exact hs
          · cases hb : createProgressBar L posFrames cfg.totalFrames
                (max 10 (Int.tdiv s.asciiWidth 2)) with
            | ok bar =>
                rw [hb] at h
                cases h
                intro p hm
                rcases List.mem_append.mp hm with hm | hm
                · exact hs p hm
                · rw [List.mem_singleton] at hm
                  rw [hm]
                  exact hf
            | throws => rw [hb] at h; cases h; exact hs
            | undefined => rw [hb] at h; cases h
      | pacing =>
          rw [hc] at h
          cases d with
          | sleepFor ns => cases h; exact hs
          | proceed => cases h; exact hs
          | catchUp => cases h; exact hs
      | shutdown =>
          rw [hc] at h
          cases h; exact hs
      | stopped => rw [hc] at h; cases h
      | crashed => rw [hc] at h; cases h

/-! ## C6: degenerate geometry -/

/-- C6, counterexample: on a 1×1 terminal the width computed for a 1920×1080 video is 0, not 1,
and `processFrame` then returns the empty frame without computing a height. -/
theorem degenerate_geometry_counterexample :
    calculateOptimalWidth 1 1 1920 1080 = some 0 ∧
      processFrame sampleLibrary { rows := 1080, cols := 1920, pixels := 0 } 0 false = some "" :=
  ⟨calculateOptimalWidth_one_by_one 1920 1080 (by decide) (by decide),
    processFrame_of_width_le_zero _ _ 0 false (le_refl 0)⟩

/-- C6, amended.  (1) For a 1×1 terminal and every video of positive width and height
`calculateOptimalWidth` returns 0: the width is not clamped.  (2) For a width that is not positive
`processFrame` computes no height and returns the empty frame.  (3) The height that `processFrame`
computes is at least 1.  (4) At such a width the producer's call of line 121 yields the empty
frame, which is pushed.  (5) The playback loop skips an empty frame: the step after the pop goes
back to the head of the loop without a write and without pacing.  (6) In every reachable state no
frame written to the display is empty.  (7) While the terminal reports 1×1, the playback of the
video keeps the width 0, pushes only empty frames and writes nothing. -/
theorem degenerate_geometry (videoWidth videoHeight : ℤ) (hw : 1 ≤ videoWidth)
    (hh : 1 ≤ videoHeight) :
    calculateOptimalWidth 1 1 videoWidth videoHeight = some 0 ∧
    (∀ (L : Library) (frame : Mat) (width : ℤ) (useColor : Bool), width ≤ 0 →
      processFrame L frame width useColor = some "") ∧
    (∀ frame_height frame_width width asciiHeight : ℤ,
      newHeight frame_height frame_width width = some asciiHeight → 1 ≤ asciiHeight) ∧
    (∀ (L : Library) (cfg : Config) (s : State) (index : ℕ) (frame : Mat),
      s.producer = ProducerPC.render index frame → s.asciiWidth ≤ 0 →
      producerStep L cfg s = some { s with producer := ProducerPC.push index "" }) ∧
    (∀ (L : Library) (cfg : Config) (termSize : ℤ × ℤ) (now posFrames : ℤ) (s : State),
      s.consumer = ConsumerPC.gotFrame "" →
      consumerStep L cfg termSize now posFrames s
        = some { s with consumer := ConsumerPC.loopHead }) ∧
    (∀ (L : Library) (cfg : Config) (termWidth termHeight w : ℤ) (evs : List Event) (s : State),
      run L cfg evs (initial termWidth termHeight w) = some s → ∀ p ∈ s.written, p.1 ≠ "") ∧
    (∀ (L : Library) (cfg : Config) (evs : List Event) (s : State),
      cfg.videoWidth = videoWidth → cfg.videoHeight = videoHeight →
      (∀ termSize now posFrames, Event.consumer termSize now posFrames ∈ evs →
        termSize = (1, 1)) →
      playVideo L cfg 1 1 evs = some s →
      s.asciiWidth = 0 ∧ s.written = [] ∧ ∀ p ∈ s.pushed, p.2 = "") := by
  refine ⟨calculateOptimalWidth_one_by_one videoWidth videoHeight hw hh,
    processFrame_of_width_le_zero, one_le_newHeight, ?_, ?_, ?_, ?_⟩
  · intro L cfg s index frame hp hwidth
    unfold producerStep
    rw [hp]
    dsimp only
    rw [processFrame_of_width_le_zero L frame s.asciiWidth cfg.useColor hwidth]
  · intro L cfg termSize now posFrames s hc
    unfold consumerStep
    generalize pacingDecision cfg.startTime now s.frameCount cfg.frameInterval = d
    rw [hc]
    dsimp only
    rw [if_pos rfl]
  · intro L cfg termWidth termHeight w evs s h
    exact run_induction L cfg (fun s => ∀ p ∈ s.written, p.1 ≠ "")
      (fun ev s s' hs hst => written_nonempty_step L cfg ev s s' hs hst) evs
      (initial termWidth termHeight w) s (fun p hm => (by cases hm)) h
  · intro L cfg evs s hvw hvh hev h
    unfold playVideo at h
    rw [hvw, hvh, calculateOptimalWidth_one_by_one videoWidth videoHeight hw hh,
      Option.some_bind] at h
    have hb := blankPlayback_run L cfg evs (initial 1 1 0) s hev blankPlayback_initial h
    exact ⟨hb.width, hb.written, hb.pushed⟩

/-- Witness for the amended C6: the 1920×1080 video of the sample playback.  On the 1×1 terminal
its first frame is rendered to the empty string, pushed, popped and skipped: nothing is written;
on the 120×40 terminal a height is computed. -/
theorem degenerate_geometry_witness :
    calculateOptimalWidth 1 1 1920 1080 = some 0 ∧
    newHeight 1080 1920 119 = some 33 ∧
    (∃ s, playVideo sampleLibrary (sampleConfig (framesThenEmpty 10)) 1 1
        (firstFrameSchedule (1, 1) 0 0) = some s ∧
      s.asciiWidth = 0 ∧ s.pushed = [(0, "")] ∧ s.removed = [("", true)] ∧ s.written = [] ∧
      s.consumer = ConsumerPC.loopHead) := by
  have hthm := degenerate_geometry 1920 1080 (by decide) (by decide)
  obtain ⟨h1, _, _, _, _, _, h7⟩ := hthm
  have hw : calculateOptimalWidth 1 1 (sampleConfig (framesThenEmpty 10)).videoWidth
      (sampleConfig (framesThenEmpty 10)).videoHeight = some 0 := h1
  have hrun : run sampleLibrary (sampleConfig (framesThenEmpty 10))
      (firstFrameSchedule (1, 1) 0 0) (initial 1 1 0)
      = some { initial 1 1 0 with
          reads := 1
          pushed := [(0, "")]
          removed := [("", true)]
          frameCount := 1 } := by decide
  have hplay : playVideo sampleLibrary (sampleConfig (framesThenEmpty 10)) 1 1
      (firstFrameSchedule (1, 1) 0 0)
      = run sampleLibrary (sampleConfig (framesThenEmpty 10))
        (firstFrameSchedule (1, 1) 0 0) (initial 1 1 0) := by
    unfold playVideo
    rw [hw, Option.some_bind]
  have hblank := h7 sampleLibrary (sampleConfig (framesThenEmpty 10))
    (firstFrameSchedule (1, 1) 0 0) _ rfl rfl
    (by
      intro termSize now posFrames hm
      simp only [firstFrameSchedule, List.mem_cons, Event.consumer.injEq, List.mem_singleton,
        reduceCtorEq, false_or, List.not_mem_nil, or_false, or_self] at hm
      exact hm.1)
    (hplay.trans hrun)
  exact ⟨h1, geometry_example.2, _, hplay.trans hrun, hblank.1, rfl, rfl, hblank.2.1, rfl⟩

/-! ## C8: the progress bar -/

theorem roundDouble_ge_mul {x : ℚ} (hx : 0 ≤ x) : x * (1 - 1 / 2 ^ 53) ≤ roundDouble x := by
  have h := (abs_le.mp (roundDouble_rel_err x)).1
  rw [abs_of_nonneg hx] at h
  linarith

theorem createProgressBar_unknown (L : Library) (current total width : ℤ) (ht : total ≤ 0) :
    createProgressBar L current total width = Outcome.ok "[未知进度]" := by
  unfold createProgressBar
  rw [if_pos ht]

/-- The body of `createProgressBar` once the number of filled cells is known. -/
theorem createProgressBar_of_filled (L : Library) (current total width filled : ℤ)
    (ht : 0 < total)
    (hcast : castInt (roundDouble (width * roundDouble ((current : ℚ) / total))) = some filled)
    (h0 : 0 ≤ filled) (h1 : filled ≤ width) :
    createProgressBar L current total width =
      Outcome.ok ("[" ++ String.mk (List.replicate filled.toNat '#')
        ++ String.mk (List.replicate (width - filled).toNat '-') ++ "] "
        ++ L.showFixed1 (roundDouble (roundDouble ((current : ℚ) / total) * 100)) ++ "%") := by
  unfold createProgressBar
  rw [if_neg (by omega)]
  simp only [hcast, stdString]
  rw [if_pos h0, if_pos (by omega)]

theorem createProgressBar_throws (L : Library) (current total width filled : ℤ)
    (ht : 0 < total)
    (hcast : castInt (roundDouble (width * roundDouble ((current : ℚ) / total))) = some filled)
    (h1 : width < filled) :
    createProgressBar L current total width = Outcome.throws := by
  unfold createProgressBar
  rw [if_neg (by omega)]
  simp only [hcast, stdString]
  rw [if_neg (by omega : ¬ (0 ≤ width - filled))]
  split
  · rename_i heq
    cases heq
  · rfl

/-- Within the range of its arguments the filled width lies between 0 and the width and within
one cell of the exact quotient. -/
theorem filledWidth_bounds (current total width : ℤ) (ht : 0 < total) (hc0 : 0 ≤ current)
    (hct : current ≤ total) (hw0 : 0 ≤ width) (hwm : width ≤ INT_MAX) :
    ∃ filled : ℤ,
      castInt (roundDouble (width * roundDouble ((current : ℚ) / total))) = some filled ∧
      0 ≤ filled ∧ filled ≤ width ∧
      ⌊(width : ℚ) * current / total⌋ - 1 ≤ filled ∧
      filled ≤ ⌊(width : ℚ) * current / total⌋ + 1 ∧
      (width ≤ 1048576 → total ≤ INT_MAX → filled ≤ ⌊(width : ℚ) * current / total⌋) := by
  have qt : (0 : ℚ) < total := by exact_mod_cast ht
  have qc : (0 : ℚ) ≤ current := by exact_mod_cast hc0
  have qct : (current : ℚ) ≤ total := by exact_mod_cast hct
  have qw : (0 : ℚ) ≤ width := by exact_mod_cast hw0
  have qwm : (width : ℚ) ≤ 2147483647 := by
    have : width ≤ 2147483647 := hwm
    exact_mod_cast this
  obtain ⟨r, hr⟩ : ∃ r : ℚ, r = (current : ℚ) / total := ⟨_, rfl⟩
  have hr0 : 0 ≤ r := by rw [hr]; positivity
  have hr1 : r ≤ 1 := by rw [hr]; exact (div_le_one qt).mpr qct
  obtain ⟨p, hp⟩ : ∃ p : ℚ, p = roundDouble r := ⟨_, rfl⟩
  have hp0 : 0 ≤ p := by rw [hp]; exact roundDouble_nonneg hr0
  have hp1 : p ≤ 1 := by
    have h := roundDouble_le_int 1 (by norm_num) (show r ≤ ((1 : ℤ) : ℚ) by simpa using hr1)
    rw [hp]; simpa using h
  have hpu : p ≤ r * (1 + 1 / 2 ^ 53) := by rw [hp]; exact roundDouble_le_mul hr0
  have hpl : r * (1 - 1 / 2 ^ 53) ≤ p := by rw [hp]; exact roundDouble_ge_mul hr0
  obtain ⟨X, hX⟩ : ∃ X : ℚ, X = roundDouble (width * p) := ⟨_, rfl⟩
  have hwp0 : 0 ≤ (width : ℚ) * p := by positivity
  have hX0 : 0 ≤ X := by rw [hX]; exact roundDouble_nonneg hwp0
  have hXw : X ≤ width := by
    rw [hX]
    exact roundDouble_le_int width
      (by unfold INT_MAX at hwm; rw [abs_le]; constructor <;> omega)
      (by nlinarith)
  have hXu : X ≤ (width : ℚ) * p * (1 + 1 / 2 ^ 53) := by rw [hX]; exact roundDouble_le_mul hwp0
  have hXl : (width : ℚ) * p * (1 - 1 / 2 ^ 53) ≤ X := by rw [hX]; exact roundDouble_ge_mul hwp0
  obtain ⟨E, hE⟩ : ∃ E : ℚ, E = (width : ℚ) * current / total := ⟨_, rfl⟩
  have hEr : E = width * r := by rw [hE, hr]; ring
  have hE0 : 0 ≤ E := by rw [hEr]; positivity
  have hEw : E ≤ 2147483647 := by
    rw [hEr]; nlinarith
  -- the rounded product is within one of the exact quotient
  have hup : X < E + 1 := by
    have h1 : (width : ℚ) * p ≤ E * (1 + 1 / 2 ^ 53) := by
      rw [hEr, mul_assoc]; exact mul_le_mul_of_nonneg_left hpu qw
    have h2 : X ≤ E * (1 + 1 / 2 ^ 53) * (1 + 1 / 2 ^ 53) :=
      le_trans hXu (mul_le_mul_of_nonneg_right h1 (by norm_num))
    have h3 : E * (1 + 1 / 2 ^ 53) * (1 + 1 / 2 ^ 53) < E + 1 := by
      norm_num
      nlinarith
    linarith
  have hlow : E - 1 < X := by
    have h1 : E * (1 - 1 / 2 ^ 53) ≤ (width : ℚ) * p := by
      rw [hEr, mul_assoc]; exact mul_le_mul_of_nonneg_left hpl qw
    have h2 : E * (1 - 1 / 2 ^ 53) * (1 - 1 / 2 ^ 53) ≤ X :=
      le_trans (mul_le_mul_of_nonneg_right h1 (by norm_num)) hXl
    have h3 : E - 1 < E * (1 - 1 / 2 ^ 53) * (1 - 1 / 2 ^ 53) := by
      norm_num
      nlinarith
    linarith
  have hfl0 : 0 ≤ ⌊X⌋ := Int.floor_nonneg.mpr hX0
  have hflw : ⌊X⌋ ≤ width := by
    have : X < ((width + 1 : ℤ) : ℚ) := by push_cast; linarith
    have := Int.floor_lt.mpr this
    omega
  refine ⟨⌊X⌋, ?_, hfl0, hflw, ?_, ?_, ?_⟩
  · rw [← hr, ← hp, ← hX]
    exact castInt_of_nonneg hX0 (le_trans hflw hwm)
  · rw [← hE]
    have h1 : ((⌊E⌋ : ℤ) : ℚ) < X + 1 := by
      have := Int.floor_le E
      linarith
    have h2 : X < ((⌊X⌋ + 1 : ℤ) : ℚ) := by
      have := Int.lt_floor_add_one X
      push_cast; linarith
    have h3 : ((⌊E⌋ : ℤ) : ℚ) < ((⌊X⌋ + 1 + 1 : ℤ) : ℚ) := by
      push_cast at h2 ⊢; linarith
    have h4 : ⌊E⌋ < ⌊X⌋ + 1 + 1 := by exact_mod_cast h3
    omega
  · rw [← hE]
    have h1 : ((⌊X⌋ : ℤ) : ℚ) ≤ X := Int.floor_le X
    have h2 : E < ((⌊E⌋ + 1 : ℤ) : ℚ) := by
      have := Int.lt_floor_add_one E
      push_cast; linarith
    have h3 : ((⌊X⌋ : ℤ) : ℚ) < ((⌊E⌋ + 1 + 1 : ℤ) : ℚ) := by
      push_cast at h2 ⊢; linarith
    have h4 : ⌊X⌋ < ⌊E⌋ + 1 + 1 := by exact_mod_cast h3
    omega
  · intro hw20 htm
    rw [← hE]
    have qw20 : (width : ℚ) ≤ 1048576 := by exact_mod_cast hw20
    have qcm : (current : ℚ) ≤ 2147483647 := by
      have : current ≤ 2147483647 := le_trans hct htm
      exact_mod_cast this
    -- the exact quotient is at least 1 / total below the next integer
    obtain ⟨k, hk⟩ : ∃ k : ℤ, k = ⌊E⌋ := ⟨_, rfl⟩
    have hEt : E * total = width * current := by rw [hE]; field_simp
    have hgap : E + 1 / total ≤ (k : ℚ) + 1 := by
      have h1 : E < (k : ℚ) + 1 := by rw [hk]; exact Int.lt_floor_add_one E
      have h2 : ((width * current : ℤ) : ℚ) < (((k + 1) * total : ℤ) : ℚ) := by
        push_cast
        rw [← hEt]
        exact mul_lt_mul_of_pos_right h1 qt
      have h3 : width * current < (k + 1) * total := by exact_mod_cast h2
      have h4 : ((width * current + 1 : ℤ) : ℚ) ≤ (((k + 1) * total : ℤ) : ℚ) :=
        Int.cast_le.mpr (by omega)
      have h5 : E + 1 / total = ((width : ℚ) * current + 1) / total := by
        rw [hE]; field_simp
      rw [h5, div_le_iff₀ qt]
      push_cast at h4
      exact h4
    have ha : (width : ℚ) * current ≤ 1048576 * 2147483647 :=
      mul_le_mul qw20 qcm qc (by norm_num)
    have hsmall : E * (1 + 1 / 2 ^ 53) * (1 + 1 / 2 ^ 53) < E + 1 / total := by
      have h1 : E * (1 + 1 / 2 ^ 53) * (1 + 1 / 2 ^ 53) - E = E * (2 / 2 ^ 53 + 1 / 2 ^ 106) := by
        ring
      have h2 : E * (2 / 2 ^ 53 + 1 / 2 ^ 106) * total < 1 := by
        rw [mul_right_comm, hEt]
        have : (width : ℚ) * current * (2 / 2 ^ 53 + 1 / 2 ^ 106)
            ≤ 1048576 * 2147483647 * (2 / 2 ^ 53 + 1 / 2 ^ 106) :=
          mul_le_mul_of_nonneg_right ha (by norm_num)
        refine lt_of_le_of_lt this ?_
        norm_num
      have h3 : E * (2 / 2 ^ 53 + 1 / 2 ^ 106) < 1 / total := by
        rw [lt_div_iff₀ qt]; exact h2
      linarith
    have hXE : X ≤ E * (1 + 1 / 2 ^ 53) * (1 + 1 / 2 ^ 53) := by
      have h1 : (width : ℚ) * p ≤ E * (1 + 1 / 2 ^ 53) := by
        rw [hEr, mul_assoc]; exact mul_le_mul_of_nonneg_left hpu qw
      exact le_trans hXu (mul_le_mul_of_nonneg_right h1 (by norm_num))
    have h5 : ((⌊X⌋ : ℤ) : ℚ) < ((k + 1 : ℤ) : ℚ) :=
      lt_of_le_of_lt (Int.floor_le X) (by push_cast; linarith)
    have h6 : ⌊X⌋ < k + 1 := by exact_mod_cast h5
    omega

theorem castInt_intCast (n : ℤ) (h0 : 0 ≤ n) (h1 : n ≤ INT_MAX) : castInt (n : ℚ) = some n := by
  rw [castInt_of_nonneg (by exact_mod_cast h0) (by simpa using h1)]
  simp

/-- The filled width for `current = 2`, `total = 1`, `width = 10` is 20. -/
theorem filledWidth_two_of_one :
    castInt (roundDouble (((10 : ℤ) : ℚ) * roundDouble (((2 : ℤ) : ℚ) / ((1 : ℤ) : ℚ))))
      = some 20 := by
  have h1 : roundDouble (((2 : ℤ) : ℚ) / ((1 : ℤ) : ℚ)) = 2 := by
    rw [roundDouble_int_of_eq 2 (by norm_num) (by norm_num)]
    norm_num
  have h2 : roundDouble (((10 : ℤ) : ℚ) * 2) = ((20 : ℤ) : ℚ) := by
    rw [roundDouble_int_of_eq 20 (by norm_num) (by norm_num)]
    norm_num
  rw [h1, h2]
  exact castInt_intCast 20 (by norm_num) (by simp [INT_MAX])

/-- In double arithmetic `49 * (1 / 49)` is `1 - 2 ^ (-53)`, so the filled width for
`current = 1`, `total = 49`, `width = 49` is 0. -/
theorem filledWidth_one_of_49 :
    castInt (roundDouble (((49 : ℤ) : ℚ) * roundDouble (((1 : ℤ) : ℚ) / ((49 : ℤ) : ℚ))))
      = some 0 := by
  have h1 : roundDouble (((1 : ℤ) : ℚ) / ((49 : ℤ) : ℚ))
      = 5882252574524729 / 288230376151711744 := by
    rw [roundDouble_eq_of_near (-6) 5882252574524729 (by norm_num [abs_of_pos])
      (by norm_num [abs_of_pos]) (by norm_num [abs_lt])]
    norm_num
  have h2 : roundDouble (((49 : ℤ) : ℚ) * (5882252574524729 / 288230376151711744))
      = 9007199254740991 / 9007199254740992 := by
    rw [roundDouble_eq_of_near (-1) 9007199254740991 (by norm_num [abs_of_pos])
      (by norm_num [abs_of_pos]) (by norm_num [abs_lt])]
    norm_num
  rw [h1, h2, castInt_of_nonneg (by norm_num)]
  · congr 1
    rw [Int.floor_eq_iff]; norm_num
  · have : ⌊(9007199254740991 / 9007199254740992 : ℚ)⌋ = 0 := by
      rw [Int.floor_eq_iff]; norm_num
    rw [this]; simp [INT_MAX]

/-- What the consumer writes for a non-empty frame: the frame and the progress bar computed by
`createProgressBar` for the width `max(10, asciiWidth / 2)`. -/
theorem display_step (L : Library) (cfg : Config) (termSize : ℤ × ℤ) (now posFrames : ℤ)
    (s s' : State) (f : String) (hc : s.consumer = ConsumerPC.gotFrame f) (hf : f ≠ "")
    (h : consumerStep L cfg termSize now posFrames s = some s')
    (hp : s'.consumer = ConsumerPC.pacing) :
    ∃ bar, createProgressBar L posFrames cfg.totalFrames (max 10 (Int.tdiv s.asciiWidth 2))
        = Outcome.ok bar ∧ s'.written = s.written ++ [(f, bar)] := by
  unfold consumerStep at h
  generalize pacingDecision cfg.startTime now s.frameCount cfg.frameInterval = d at h
  rw [hc] at h
  dsimp only at h
  rw [if_neg hf] at h
  cases hb : createProgressBar L posFrames cfg.totalFrames (max 10 (Int.tdiv s.asciiWidth 2)) with
  | ok bar =>
      rw [hb] at h; cases h
      exact ⟨bar, rfl, rfl⟩
  | throws =>
      rw [hb] at h; cases h
      cases hp
  | undefined => rw [hb] at h; cases h

/-- C8, counterexample.  For `current = 2 > total = 1` the bar would need 20 filled cells out of
10 and the construction of the string of `10 - 20` cells throws; for `current = 1`,
`total = 49`, `width = 49` the bar has no filled cell although ⌊49 × 1 / 49⌋ = 1. -/
theorem progress_bar_counterexample :
    createProgressBar sampleLibrary 2 1 10 = Outcome.throws ∧
    (∃ percent, createProgressBar sampleLibrary 1 49 49
      = Outcome.ok ("[" ++ String.mk (List.replicate 0 '#')
          ++ String.mk (List.replicate 49 '-') ++ "] " ++ percent ++ "%")) ∧
    ⌊((49 : ℤ) : ℚ) * (1 : ℤ) / (49 : ℤ)⌋ = 1 := by
  refine ⟨?_, ?_, ?_⟩
  · exact createProgressBar_throws sampleLibrary 2 1 10 20 (by norm_num)
      filledWidth_two_of_one (by norm_num)
  · exact ⟨_, createProgressBar_of_filled sampleLibrary 1 49 49 0 (by norm_num)
      filledWidth_one_of_49 (by norm_num) (by norm_num)⟩
  · rw [Int.floor_eq_iff]; norm_num

/-- C8, amended.  For every total > 0, every current with 0 ≤ current ≤ total and every width
with 0 ≤ width (within `int`), `createProgressBar` returns a bar of exactly `width` cells between
'[' and ']', of which the first `filledWidth` are '#' and the rest '-', followed by the
percentage; `filledWidth` is the double product `width × (current / total)` truncated, which lies
between 0 and `width` and within one cell of ⌊width × current / total⌋: it is that number or one
less for every width up to 2 ^ 20.  For every total ≤ 0 it returns the unknown-progress marker.  The playback loop calls it with
width = max(10, asciiWidth / 2). -/
theorem progress_bar (L : Library) (current total width : ℤ) (ht : 0 < total)
    (hc0 : 0 ≤ current) (hct : current ≤ total) (hw0 : 0 ≤ width) (hwm : width ≤ INT_MAX) :
    (∃ filledWidth : ℤ, 0 ≤ filledWidth ∧ filledWidth ≤ width ∧
      ⌊(width : ℚ) * current / total⌋ - 1 ≤ filledWidth ∧
      filledWidth ≤ ⌊(width : ℚ) * current / total⌋ + 1 ∧
      (width ≤ 1048576 → total ≤ INT_MAX → filledWidth ≤ ⌊(width : ℚ) * current / total⌋) ∧
      createProgressBar L current total width =
        Outcome.ok ("[" ++ String.mk (List.replicate filledWidth.toNat '#')
          ++ String.mk (List.replicate (width - filledWidth).toNat '-') ++ "] "
          ++ L.showFixed1 (roundDouble (roundDouble ((current : ℚ) / total) * 100)) ++ "%") ∧
      (List.replicate filledWidth.toNat '#'
        ++ List.replicate (width - filledWidth).toNat '-').length = width.toNat) ∧
    (∀ c t w : ℤ, t ≤ 0 → createProgressBar L c t w = Outcome.ok "[未知进度]") ∧
    (∀ (cfg : Config) (termSize : ℤ × ℤ) (now posFrames : ℤ) (s s' : State) (f : String),
      s.consumer = ConsumerPC.gotFrame f → f ≠ "" →
      consumerStep L cfg termSize now posFrames s = some s' →
      s'.consumer = ConsumerPC.pacing →
      ∃ bar, createProgressBar L posFrames cfg.totalFrames (max 10 (Int.tdiv s.asciiWidth 2))
        = Outcome.ok bar ∧ s'.written = s.written ++ [(f, bar)] ∧
        10 ≤ max 10 (Int.tdiv s.asciiWidth 2)) := by
  refine ⟨?_, fun c t w h => createProgressBar_unknown L c t w h, ?_⟩
  · obtain ⟨filled, hcast, h0, h1, h2, h3, h4⟩ :=
      filledWidth_bounds current total width ht hc0 hct hw0 hwm
    refine ⟨filled, h0, h1, h2, h3, h4,
      createProgressBar_of_filled L current total width filled ht hcast h0 h1, ?_⟩
    simp only [List.length_append, List.length_replicate]
    omega
  · intro cfg termSize now posFrames s s' f hc hf h hp
    obtain ⟨bar, hb, hw⟩ := display_step L cfg termSize now posFrames s s' f hc hf h hp
    exact ⟨bar, hb, hw, le_max_left _ _⟩

/-- Witness for the amended C8: frame 50 of 100 on a bar of 10 cells. -/
theorem progress_bar_witness :
    (∃ filledWidth : ℤ, 0 ≤ filledWidth ∧ filledWidth ≤ (10 : ℤ) ∧
      ⌊((10 : ℤ) : ℚ) * (50 : ℤ) / (100 : ℤ)⌋ - 1 ≤ filledWidth ∧
      filledWidth ≤ ⌊((10 : ℤ) : ℚ) * (50 : ℤ) / (100 : ℤ)⌋ + 1 ∧
      ((10 : ℤ) ≤ 1048576 → (100 : ℤ) ≤ INT_MAX →
        filledWidth ≤ ⌊((10 : ℤ) : ℚ) * (50 : ℤ) / (100 : ℤ)⌋) ∧
      createProgressBar sampleLibrary 50 100 10 =
        Outcome.ok ("[" ++ String.mk (List.replicate filledWidth.toNat '#')
          ++ String.mk (List.replicate (10 - filledWidth).toNat '-') ++ "] "
          ++ sampleLibrary.showFixed1
            (roundDouble (roundDouble (((50 : ℤ) : ℚ) / (100 : ℤ)) * 100)) ++ "%") ∧
      (List.replicate filledWidth.toNat '#'
        ++ List.replicate (10 - filledWidth).toNat '-').length = (10 : ℤ).toNat) ∧
    (∀ c t w : ℤ, t ≤ 0 → createProgressBar sampleLibrary c t w = Outcome.ok "[未知进度]") ∧
    (∀ (cfg : Config) (termSize : ℤ × ℤ) (now posFrames : ℤ) (s s' : State) (f : String),
      s.consumer = ConsumerPC.gotFrame f → f ≠ "" →
      consumerStep sampleLibrary cfg termSize now posFrames s = some s' →
      s'.consumer = ConsumerPC.pacing →
      ∃ bar, createProgressBar sampleLibrary posFrames cfg.totalFrames
          (max 10 (Int.tdiv s.asciiWidth 2))
        = Outcome.ok bar ∧ s'.written = s.written ++ [(f, bar)] ∧
        10 ≤ max 10 (Int.tdiv s.asciiWidth 2)) :=
  progress_bar sampleLibrary 50 100 10 (by decide) (by decide) (by decide) (by decide)
    (by decide)

/-! ## C10: frame accounting -/

theorem length_filter_empty_add (l : List String) :
    l.length = (l.filter (fun f => f ≠ "")).length + (l.filter (fun f => f = "")).length := by
  induction l with
  | nil => rfl
  | cons a l ih =>
      by_cases ha : a = "" <;> simp [ha] at ih ⊢ <;> omega

/-- C10, counterexample.  On a 1×1 terminal the width is 0 and `processFrame` returns the empty
string; the consumer pops that frame, counts it and skips the write: back at the head of its loop
`frameCount` is 1 although nothing was written and nothing was dropped. -/
theorem frame_accounting_counterexample :
    (playVideo sampleLibrary (sampleConfig (framesThenEmpty 10)) 1 1
      (List.replicate 5 Event.producer ++ List.replicate 3 (Event.consumer (1, 1) 0 0))).map
      (fun s => (s.frameCount, s.written.length, (droppedOf s.removed).length, s.consumer))
    = some (1, 0, 0, ConsumerPC.loopHead) := by
  have hw : calculateOptimalWidth 1 1 (sampleConfig (framesThenEmpty 10)).videoWidth
      (sampleConfig (framesThenEmpty 10)).videoHeight = some 0 :=
    calculateOptimalWidth_one_by_one 1920 1080 (by decide) (by decide)
  unfold playVideo
  rw [hw, Option.some_bind]
  decide

/-- C10, amended.  In every reachable state `frameCount` equals the number of frames written to
the display, plus the number of frames removed by catch-up drops, plus the number of popped frames
that were empty (they are counted and skipped without a write), plus the one popped frame that
the consumer may hold between its pop and its write (or have lost when the write threw); that
last term is zero whenever the consumer is at the head of its loop, waiting, pacing or
finished. -/
theorem frame_accounting (L : Library) (cfg : Config) (termWidth termHeight w : ℤ)
    (evs : List Event) (s : State)
    (h : run L cfg evs (initial termWidth termHeight w) = some s) :
    ∃ inFlight : ℕ, inFlight ≤ 1 ∧
      (s.consumer = ConsumerPC.loopHead ∨ s.consumer = ConsumerPC.waitPop ∨
        s.consumer = ConsumerPC.pacing ∨ s.consumer = ConsumerPC.shutdown ∨
        s.consumer = ConsumerPC.stopped → inFlight = 0) ∧
      s.frameCount = s.written.length + (droppedOf s.removed).length
        + ((poppedOf s.removed).filter (fun f => f = "")).length + inFlight := by
  obtain ⟨_, hcount, hshown, hlost⟩ := historyInv_run L cfg termWidth termHeight w evs s h
  have hsplit := length_poppedOf_add_droppedOf s.removed
  have hpart := length_filter_empty_add (poppedOf s.removed)
  by_cases hcr : s.consumer = ConsumerPC.crashed
  · obtain ⟨f, _, hf⟩ := hlost hcr
    refine ⟨1, le_refl 1, ?_, ?_⟩
    · rw [hcr]; simp
    · have hlen := congrArg List.length hf
      simp only [List.length_append, List.length_map, List.length_singleton] at hlen
      rw [hcount]
      push_cast
      omega
  · have hlen := congrArg List.length (hshown hcr)
    simp only [List.length_append, List.length_map] at hlen
    refine ⟨(pendingOf s.consumer).length, ?_, ?_, ?_⟩
    · unfold pendingOf
      split
      · split <;> simp
      · simp
    · intro hc
      rcases hc with hc | hc | hc | hc | hc <;> rw [hc] <;> rfl
    · rw [hcount]
      omega

/-- Witness for the amended C10: the run of the counterexample. -/
theorem frame_accounting_witness :
    ∃ s, run sampleLibrary (sampleConfig (framesThenEmpty 10))
        (List.replicate 5 Event.producer ++ List.replicate 3 (Event.consumer (1, 1) 0 0))
        (initial 1 1 0) = some s ∧
      ∃ inFlight : ℕ, inFlight ≤ 1 ∧
        (s.consumer = ConsumerPC.loopHead ∨ s.consumer = ConsumerPC.waitPop ∨
          s.consumer = ConsumerPC.pacing ∨ s.consumer = ConsumerPC.shutdown ∨
          s.consumer = ConsumerPC.stopped → inFlight = 0) ∧
        s.frameCount = s.written.length + (droppedOf s.removed).length
          + ((poppedOf s.removed).filter (fun f => f = "")).length + inFlight := by
  have hrun : (run sampleLibrary (sampleConfig (framesThenEmpty 10))
      (List.replicate 5 Event.producer ++ List.replicate 3 (Event.consumer (1, 1) 0 0))
      (initial 1 1 0)).isSome = true := by decide
  obtain ⟨s, hs⟩ := Option.isSome_iff_exists.mp hrun
  exact ⟨s, hs, frame_accounting _ _ 1 1 0 _ s hs⟩

theorem sourceInv_initial (L : Library) (cfg : Config) (tw th w : ℤ) :
    SourceInv L cfg (initial tw th w) := by
  constructor <;> simp [initial, heldIndex]

/-- The steps that leave the producer's variables and the push history alone keep the
invariant. -/
theorem SourceInv.of_eq {L : Library} {cfg : Config} {s s' : State} (hs : SourceInv L cfg s)
    (h1 : s'.consecutiveEmptyFrames = s.consecutiveEmptyFrames) (h2 : s'.reads = s.reads)
    (h3 : s'.producer = s.producer) (h4 : s'.pushed = s.pushed)
    (h5 : s.consumer = ConsumerPC.crashed → s'.consumer = ConsumerPC.crashed) :
    SourceInv L cfg s' := by
  obtain ⟨a1, a2, a3, a4, a5, a6, a7, a8, a9, a10, a11⟩ := hs
  constructor
  · rw [h1]; exact a1
  · rw [h1, h2]; exact a2
  · rw [h1, h2]; exact a3
  · rw [h1, h2]; exact a4
  · rw [h1, h3]; exact a5
  · rw [h1, h2]; exact a6
  · rw [h1, h3]
    intro hp
    exact (a7 hp).imp id h5
  · rw [h2, h3, h4]; exact a8
  · rw [h4]; exact a9
  · rw [h3]; exact a10
  · rw [h3]; exact a11

theorem sourceInv_consumerStep (L : Library) (cfg : Config) (termSize : ℤ × ℤ)
    (now posFrames : ℤ) (s s' : State)
    (hs : SourceInv L cfg s) (h : consumerStep L cfg termSize now posFrames s = some s') :
    SourceInv L cfg s' := by
  unfold consumerStep at h
  generalize pacingDecision cfg.startTime now s.frameCount cfg.frameInterval = d at h
  cases hc : s.consumer with
  | loopHead =>
      rw [hc] at h
      dsimp only at h
      split_ifs at h
      · cases h; exact hs.of_eq rfl rfl rfl rfl (by simp [hc])
      · cases hw : calculateOptimalWidth termSize.1 termSize.2 cfg.videoWidth cfg.videoHeight with
        | none => rw [hw] at h; cases h
        | some w => rw [hw] at h; cases h; exact hs.of_eq rfl rfl rfl rfl (by simp [hc])
      · cases h; exact hs.of_eq rfl rfl rfl rfl (by simp [hc])
  | waitPop =>
      rw [hc] at h
      dsimp only at h
      split_ifs at h
      · cases h; exact hs.of_eq rfl rfl rfl rfl (by simp [hc])
      · cases hq : s.frameQueue with
        | nil => rw [hq] at h; cases h; exact hs.of_eq rfl rfl rfl rfl (by simp [hc])
        | cons f q => rw [hq] at h; cases h; exact hs.of_eq rfl rfl rfl rfl (by simp [hc])
  | gotFrame f =>
      rw [hc] at h
      dsimp only at h
      split_ifs at h with hf
      · cases h; exact hs.of_eq rfl rfl rfl rfl (by simp [hc])
      · cases hb : createProgressBar L posFrames cfg.totalFrames
            (max 10 (Int.tdiv s.asciiWidth 2)) with
        | ok bar => rw [hb] at h; cases h; exact hs.of_eq rfl rfl rfl rfl (by simp [hc])
        | throws => rw [hb] at h; cases h; exact hs.of_eq rfl rfl rfl rfl (by simp)
        | undefined => rw [hb] at h; cases h
  | pacing =>
      rw [hc] at h
      cases d with
      | sleepFor ns => cases h; exact hs.of_eq rfl rfl rfl rfl (by simp [hc])
      | proceed => cases h; exact hs.of_eq rfl rfl rfl rfl (by simp [hc])
      | catchUp => cases h; exact hs.of_eq rfl rfl rfl rfl (by simp [hc])
  | shutdown =>
      rw [hc] at h
      cases h; exact hs.of_eq rfl rfl rfl rfl (by simp [hc])
  | stopped => rw [hc] at h; cases h
  | crashed => rw [hc] at h; cases h

theorem filter_range_succ (source : ℕ → Mat) (n : ℕ) :
    (List.range (n + 1)).filter (fun i => !(source i).empty)
      = (List.range n).filter (fun i => !(source i).empty)
        ++ (if (source n).empty = true then [] else [n]) := by
  rw [List.range_succ, List.filter_append]
  congr 1
  by_cases h : (source n).empty = true <;> simp [h]

theorem sourceInv_producerStep (L : Library) (cfg : Config) (s s' : State)
    (hc : ControlInv cfg s) (hs : SourceInv L cfg s) (h : producerStep L cfg s = some s') :
    SourceInv L cfg s' := by
  have hs0 := hs
  obtain ⟨a1, a2, a3, a4, a5, a6, a7, a8, a9, a10, a11⟩ := hs
  unfold producerStep at h
  cases hp : s.producer with
  | loopHead =>
      rw [hp] at h a5 a7 a8 a10 a11
      dsimp only at h
      split_ifs at h with hcond
      · cases h
        refine ⟨a1, a2, a3, a4, ?_, a6, ?_, a8, a9, ?_, ?_⟩
        · intro h5
          dsimp only at h5
          unfold MAX_EMPTY_FRAMES at hcond
          omega
        · intro hm; simp at hm
        · intro i f hm; simp at hm
        · intro i t hm; simp at hm
      · cases h
        refine ⟨a1, a2, a3, a4, fun _ => Or.inr (Or.inl rfl), a6, ?_, a8, a9, ?_, ?_⟩
        · intro _
          by_cases hstop : s.shouldStop = false
          · left
            unfold MAX_EMPTY_FRAMES at hcond
            have : ¬ s.consecutiveEmptyFrames < 5 := fun hlt => hcond ⟨hstop, hlt⟩
            show s.consecutiveEmptyFrames = 5
            omega
          · right
            have hst : s.shouldStop = true := by simpa using hstop
            rcases hc.stop hst with hcs | hcs
            · have hdone := (hc.left (Or.inr hcs)).2
              have := hc.done_exited.mp hdone
              rw [hp] at this
              cases this
            · exact hcs
        · intro i f hm; simp at hm
        · intro i t hm; simp at hm
  | capacityCheck =>
      rw [hp] at h a5 a7 a8 a10 a11
      dsimp only at h
      have hne : s.consecutiveEmptyFrames ≠ 5 := by
        intro h5
        rcases a5 h5 with hx | hx | hx <;> cases hx
      split_ifs at h
      · cases h
        refine ⟨a1, a2, a3, a4, fun _ => Or.inl rfl, a6, ?_, a8, a9, ?_, ?_⟩
        · intro hm; simp at hm
        · intro i f hm; simp at hm
        · intro i t hm; simp at hm
      · cases h
        refine ⟨a1, a2, a3, a4, fun h5 => absurd h5 hne, a6, ?_, a8, a9, ?_, ?_⟩
        · intro hm; simp at hm
        · intro i f hm; simp at hm
        · intro i t hm; simp at hm
  | readFrame =>
      rw [hp] at h a5 a7 a8 a10 a11
      dsimp only at h
      have hne : s.consecutiveEmptyFrames ≠ 5 := by
        intro h5
        rcases a5 h5 with hx | hx | hx <;> cases hx
      simp only [heldIndex, List.append_nil] at a8
      split_ifs at h with hempty
      · cases h
        refine ⟨?_, ?_, ?_, ?_, fun _ => Or.inl rfl, ?_, ?_, ?_, a9, ?_, ?_⟩
        · show s.consecutiveEmptyFrames + 1 ≤ 5
          omega
        · show s.consecutiveEmptyFrames + 1 ≤ s.reads + 1
          omega
        · intro i hi1 hi2
          dsimp only at hi1 hi2
          by_cases hlast : i = s.reads
          · rw [hlast]; exact hempty
          · exact a3 i (by omega) (by omega)
        · intro hlt
          dsimp only at hlt ⊢
          have := a4 (by omega)
          rw [show s.reads + 1 - (s.consecutiveEmptyFrames + 1) - 1
            = s.reads - s.consecutiveEmptyFrames - 1 by omega]
          exact this
        · intro j hj hrun
          dsimp only at hj ⊢
          by_cases hjr : j + 5 ≤ s.reads
          · exact absurd (a6 j hjr hrun).2 hne
          · refine ⟨by omega, ?_⟩
            by_contra hcnt
            by_cases hall : s.consecutiveEmptyFrames < s.reads
            · have hnon := a4 hall
              have hemp := hrun (s.reads - s.consecutiveEmptyFrames - 1) (by omega) (by omega)
              rw [hemp] at hnon
              cases hnon
            · omega
        · intro hm; simp at hm
        · simp only [heldIndex, List.append_nil]
          rw [filter_range_succ, if_pos hempty, List.append_nil]
          exact a8
        · intro i f hm; simp at hm
        · intro i t hm; simp at hm
      · cases h
        have hnon : (cfg.source s.reads).empty = false := by simpa using hempty
        refine ⟨Nat.zero_le _, Nat.zero_le _, ?_, ?_, ?_, ?_, ?_, ?_, a9, ?_, ?_⟩
        · intro i hi1 hi2
          dsimp only at hi1 hi2
          omega
        · intro _
          dsimp only
          rw [show s.reads + 1 - 0 - 1 = s.reads by omega]
          exact hnon
        · intro h5
          dsimp only at h5
          omega
        · intro j hj hrun
          dsimp only at hj ⊢
          by_cases hjr : j + 5 ≤ s.reads
          · exact absurd (a6 j hjr hrun).2 hne
          · have hemp := hrun s.reads (by omega) (by omega)
            rw [hemp] at hnon
            cases hnon
        · intro hm; simp at hm
        · simp only [heldIndex]
          rw [filter_range_succ, if_neg hempty, a8]
        · intro i f hm
          simp only [ProducerPC.render.injEq] at hm
          rw [← hm.1, ← hm.2]
        · intro i t hm; simp at hm
  | render i f =>
      rw [hp] at h a5 a7 a8 a10 a11
      dsimp only at h
      have hne : s.consecutiveEmptyFrames ≠ 5 := by
        intro h5
        rcases a5 h5 with hx | hx | hx <;> cases hx
      cases hr : processFrame L f s.asciiWidth cfg.useColor with
      | none => rw [hr] at h; cases h
      | some t =>
          rw [hr] at h; cases h
          refine ⟨a1, a2, a3, a4, fun h5 => absurd h5 hne, a6, ?_, a8, a9, ?_, ?_⟩
          · intro hm; simp at hm
          · intro i' f' hm; simp at hm
          · intro i' t' hm
            simp only [ProducerPC.push.injEq] at hm
            rw [← hm.1, ← hm.2, ← a10 i f rfl]
            exact ⟨s.asciiWidth, hr⟩
  | push i t =>
      rw [hp] at h a5 a7 a8 a10 a11
      have hne : s.consecutiveEmptyFrames ≠ 5 := by
        intro h5
        rcases a5 h5 with hx | hx | hx <;> cases hx
      cases h
      refine ⟨a1, a2, a3, a4, fun _ => Or.inl rfl, a6, ?_, ?_, ?_, ?_, ?_⟩
      · intro hm; simp at hm
      · simp only [heldIndex, List.map_append, List.map_cons, List.map_nil, List.append_nil]
        exact a8
      · intro p hpm
        simp only [List.mem_append, List.mem_singleton] at hpm
        rcases hpm with hpm | hpm
        · exact a9 p hpm
        · rw [hpm]
          exact a11 i t rfl
      · intro i' f' hm; simp at hm
      · intro i' t' hm; simp at hm
  | markDone =>
      rw [hp] at h a5 a7 a8 a10 a11
      cases h
      refine ⟨a1, a2, a3, a4, fun _ => Or.inr (Or.inr rfl), a6, ?_, a8, a9, ?_, ?_⟩
      · intro _
        exact a7 (Or.inl rfl)
      · intro i' f' hm; simp at hm
      · intro i' t' hm; simp at hm
  | exited =>
      rw [hp] at h
      cases h

/-- Both invariants together are kept by every step. -/
theorem sourceInv_step (L : Library) (cfg : Config) (ev : Event) (s s' : State)
    (hs : ControlInv cfg s ∧ SourceInv L cfg s) (h : step L cfg ev s = some s') :
    ControlInv cfg s' ∧ SourceInv L cfg s' := by
  refine ⟨controlInv_step L cfg ev s s' hs.1 h, ?_⟩
  cases ev with
  | producer => exact sourceInv_producerStep L cfg s s' hs.1 hs.2 h
  | consumer termSize now posFrames =>
      exact sourceInv_consumerStep L cfg termSize now posFrames s s' hs.2 h

theorem sourceInv_run (L : Library) (cfg : Config) (tw th w : ℤ) (evs : List Event) (s : State)
    (h : run L cfg evs (initial tw th w) = some s) : SourceInv L cfg s :=
  (run_induction L cfg (fun s => ControlInv cfg s ∧ SourceInv L cfg s) (sourceInv_step L cfg)
    evs _ s ⟨controlInv_initial cfg tw th w, sourceInv_initial L cfg tw th w⟩ h).2

theorem run_append (L : Library) (cfg : Config) (evs evs' : List Event) (s : State) :
    run L cfg (evs ++ evs') s = (run L cfg evs s).bind (run L cfg evs') := by
  induction evs generalizing s with
  | nil => rfl
  | cons ev evs ih =>
      simp only [List.cons_append, run]
      cases step L cfg ev s with
      | none => rfl
      | some t => exact ih t

theorem currentBufferSize_pos (useColor : Bool) : 0 < currentBufferSize useColor := by
  unfold currentBufferSize BUFFER_SIZE
  cases useColor <;> simp

/-- An empty read: three producer steps. -/
theorem round_empty (L : Library) (cfg : Config) (tw th w : ℤ) (n : ℕ) (s : State)
    (hs : AtLoopHeads tw th w n s) (hcnt : s.consecutiveEmptyFrames < 5)
    (hempty : (cfg.source n).empty = true) :
    ∃ s', run L cfg [Event.producer, Event.producer, Event.producer] s = some s' ∧
      AtLoopHeads tw th w (n + 1) s' := by
  obtain ⟨h1, h2, h3, h4, h5, h6, h7, h8, h9⟩ := hs
  have hcap : ¬ (0 ≥ currentBufferSize cfg.useColor) := by
    have := currentBufferSize_pos cfg.useColor
    omega
  refine ⟨{ s with reads := s.reads + 1
                   consecutiveEmptyFrames := s.consecutiveEmptyFrames + 1
                   producer := ProducerPC.loopHead }, ?_, ?_⟩
  · simp [run, step, producerStep, h1, h3, h4, h6, hcnt, hcap, hempty, MAX_EMPTY_FRAMES]
  · constructor <;> simp [h2, h3, h4, h5, h6, h7, h8, h9]

/-- For the frame index 0 the progress bar is always produced. -/
theorem createProgressBar_zero (L : Library) (total width : ℤ) (hw : 0 ≤ width) :
    ∃ bar, createProgressBar L 0 total width = Outcome.ok bar := by
  by_cases ht : total ≤ 0
  · exact ⟨_, createProgressBar_unknown L 0 total width ht⟩
  · have hcast : castInt (roundDouble (width * roundDouble (((0 : ℤ) : ℚ) / total))) = some 0 := by
      simp only [Int.cast_zero, zero_div, roundDouble_zero, mul_zero]
      exact castInt_zero
    exact ⟨_, createProgressBar_of_filled L 0 total width 0 (by omega) hcast (le_refl 0) hw⟩

/-- The pacing step on an empty queue leads back to the head of the loop, whatever the clock. -/
theorem pacing_step_atLoopHeads (L : Library) (cfg : Config) (tw th w now posFrames : ℤ)
    (n : ℕ) (s : State) (hc : s.consumer = ConsumerPC.pacing)
    (hp : s.producer = ProducerPC.loopHead) (hq : s.frameQueue = [])
    (hstop : s.shouldStop = false) (hdone : s.producerDone = false) (hr : s.reads = n)
    (hw : s.asciiWidth = w) (htw : s.termWidth = tw) (hth : s.termHeight = th) :
    ∃ s', consumerStep L cfg (tw, th) now posFrames s = some s' ∧ AtLoopHeads tw th w n s' := by
  unfold consumerStep
  generalize pacingDecision cfg.startTime now s.frameCount cfg.frameInterval = d
  rw [hc]
  cases d with
  | sleepFor ns => exact ⟨_, rfl, ⟨hp, rfl, hq, hstop, hdone, hr, hw, htw, hth⟩⟩
  | proceed => exact ⟨_, rfl, ⟨hp, rfl, hq, hstop, hdone, hr, hw, htw, hth⟩⟩
  | catchUp =>
      refine ⟨_, rfl, ⟨hp, rfl, ?_, hstop, hdone, hr, hw, htw, hth⟩⟩
      show (catchUp s.frameQueue s.frameCount).1 = []
      rw [hq]
      rfl

/-- A non-empty read: the producer renders and pushes the frame, the consumer pops it, writes it
unless it is the empty string, and paces. -/
theorem round_frame (L : Library) (cfg : Config) (tw th w : ℤ) (n : ℕ) (s : State)
    (hs : AtLoopHeads tw th w n s) (hcnt : s.consecutiveEmptyFrames < 5)
    (hne : (cfg.source n).empty = false) (t : String)
    (hpf : processFrame L (cfg.source n) w cfg.useColor = some t) :
    ∃ evs s', run L cfg evs s = some s' ∧ AtLoopHeads tw th w (n + 1) s' := by
  obtain ⟨h1, h2, h3, h4, h5, h6, h7, h8, h9⟩ := hs
  have hcap : ¬ (0 ≥ currentBufferSize cfg.useColor) := by
    have := currentBufferSize_pos cfg.useColor
    omega
  by_cases ht : t = ""
  · refine ⟨[Event.producer, Event.producer, Event.producer, Event.producer, Event.producer,
      Event.consumer (tw, th) 0 0, Event.consumer (tw, th) 0 0, Event.consumer (tw, th) 0 0],
      { s with reads := s.reads + 1
               consecutiveEmptyFrames := 0
               producer := ProducerPC.loopHead
               pushed := s.pushed ++ [(s.reads, t)]
               removed := s.removed ++ [(t, true)]
               frameCount := s.frameCount + 1
               consumer := ConsumerPC.loopHead }, ?_, ?_⟩
    · simp [run, step, producerStep, consumerStep, h1, h2, h3, h4, h5, h6, h7, h8, h9, hcnt, hcap,
        hne, hpf, ht, MAX_EMPTY_FRAMES]
    · constructor <;> simp [h3, h4, h5, h6, h7, h8, h9]
  · obtain ⟨bar, hbar⟩ := createProgressBar_zero L cfg.totalFrames (max 10 (Int.tdiv w 2))
      (le_trans (by norm_num) (le_max_left _ _))
    have hrun : run L cfg [Event.producer, Event.producer, Event.producer, Event.producer,
        Event.producer, Event.consumer (tw, th) 0 0, Event.consumer (tw, th) 0 0,
        Event.consumer (tw, th) 0 0] s
        = some { s with reads := s.reads + 1
                        consecutiveEmptyFrames := 0
                        producer := ProducerPC.loopHead
                        pushed := s.pushed ++ [(s.reads, t)]
                        removed := s.removed ++ [(t, true)]
                        written := s.written ++ [(t, bar)]
                        frameCount := s.frameCount + 1
                        consumer := ConsumerPC.pacing } := by
      simp [run, step, producerStep, consumerStep, h1, h2, h3, h4, h5, h6, h7, h8, h9, hcnt, hcap,
        hne, hpf, ht, hbar, MAX_EMPTY_FRAMES]
    obtain ⟨s', hstep, hshape⟩ := pacing_step_atLoopHeads L cfg tw th w 0 0 (n + 1)
      { s with reads := s.reads + 1
               consecutiveEmptyFrames := 0
               producer := ProducerPC.loopHead
               pushed := s.pushed ++ [(s.reads, t)]
               removed := s.removed ++ [(t, true)]
               written := s.written ++ [(t, bar)]
               frameCount := s.frameCount + 1
               consumer := ConsumerPC.pacing }
      rfl rfl h3 h4 h5 (by simp [h6]) h7 h8 h9
    refine ⟨[Event.producer, Event.producer, Event.producer, Event.producer,
        Event.producer, Event.consumer (tw, th) 0 0, Event.consumer (tw, th) 0 0,
        Event.consumer (tw, th) 0 0] ++ [Event.consumer (tw, th) 0 0], s', ?_, hshape⟩
    rw [run_append, hrun, Option.some_bind]
    simp only [run, step, hstep, Option.some_bind]

/-- After the fifth empty read the producer marks itself done and the consumer finishes. -/
theorem round_finish (L : Library) (cfg : Config) (tw th w : ℤ) (n : ℕ) (s : State)
    (hs : AtLoopHeads tw th w n s) (hcnt : s.consecutiveEmptyFrames = 5) :
    ∃ s', run L cfg [Event.producer, Event.producer, Event.consumer (tw, th) 0 0,
        Event.consumer (tw, th) 0 0, Event.consumer (tw, th) 0 0] s = some s' ∧
      s'.producerDone = true ∧ s'.consumer = ConsumerPC.stopped ∧ s'.reads = n := by
  obtain ⟨h1, h2, h3, h4, h5, h6, h7, h8, h9⟩ := hs
  refine ⟨{ s with producerDone := true
                   producer := ProducerPC.exited
                   shouldStop := true
                   consumer := ConsumerPC.stopped }, ?_, rfl, rfl, h6⟩
  simp [run, step, producerStep, consumerStep, h1, h2, h3, h4, h5, h8, h9, hcnt, MAX_EMPTY_FRAMES]

theorem atLoopHeads_initial (tw th w : ℤ) : AtLoopHeads tw th w 0 (initial tw th w) := by
  constructor <;> rfl

/-- Every number of reads up to the end of the first run of five empty reads is reached, with
both threads at the head of their loops. -/
theorem reach_loop_heads (L : Library) (cfg : Config) (tw th w : ℤ)
    (hdef : ∀ i, ∃ t, processFrame L (cfg.source i) w cfg.useColor = some t) (p : ℕ)
    (hfirst : ∀ j, j + 5 ≤ p → EmptyRun cfg.source j → j + 5 = p) :
    ∀ n, n ≤ p → ∃ evs s, run L cfg evs (initial tw th w) = some s ∧ AtLoopHeads tw th w n s := by
  intro n
  induction n with
  | zero => exact fun _ => ⟨[], _, rfl, atLoopHeads_initial tw th w⟩
  | succ n ih =>
      intro hn
      obtain ⟨evs, s, hrun, hshape⟩ := ih (by omega)
      have hsrc := sourceInv_run L cfg tw th w evs s hrun
      have hreads := hshape.reads
      have hcnt : s.consecutiveEmptyFrames < 5 := by
        by_contra hge
        have h5 : s.consecutiveEmptyFrames = 5 := by
          have := hsrc.counter_le
          omega
        have hcr := hsrc.counter_reads
        have hrun5 : EmptyRun cfg.source (n - 5) := by
          intro i hi1 hi2
          exact hsrc.trailing i (by omega) (by omega)
        have := hfirst (n - 5) (by omega) hrun5
        omega
      by_cases hempty : (cfg.source n).empty = true
      · obtain ⟨s', hrun', hshape'⟩ := round_empty L cfg tw th w n s hshape hcnt hempty
        exact ⟨evs ++ [Event.producer, Event.producer, Event.producer], s',
          by rw [run_append, hrun, Option.some_bind, hrun'], hshape'⟩
      · obtain ⟨t, ht⟩ := hdef n
        obtain ⟨evs', s', hrun', hshape'⟩ := round_frame L cfg tw th w n s hshape hcnt
          (by simpa using hempty) t ht
        exact ⟨evs ++ evs', s', by rw [run_append, hrun, Option.some_bind, hrun'], hshape'⟩

/-- Progress: if the reads `p - 5, …, p - 1` are the first five consecutive empty reads of the
source and every frame can be rendered at the initial width, some schedule lets the producer make
exactly `p` reads and mark itself done, and the consumer finish. -/
theorem producer_finishes (L : Library) (cfg : Config) (tw th w : ℤ)
    (hdef : ∀ i, ∃ t, processFrame L (cfg.source i) w cfg.useColor = some t) (p : ℕ)
    (hp : 5 ≤ p) (hrun5 : EmptyRun cfg.source (p - 5))
    (hfirst : ∀ j, j + 5 ≤ p → EmptyRun cfg.source j → j + 5 = p) :
    ∃ evs s, run L cfg evs (initial tw th w) = some s ∧ s.producerDone = true ∧
      s.consumer = ConsumerPC.stopped ∧ s.reads = p := by
  obtain ⟨evs, s, hrun, hshape⟩ := reach_loop_heads L cfg tw th w hdef p hfirst p (le_refl p)
  have hsrc := sourceInv_run L cfg tw th w evs s hrun
  have hreads := hshape.reads
  have hcnt : s.consecutiveEmptyFrames = 5 := by
    by_contra hne
    have hle := hsrc.counter_le
    have hnon := hsrc.maximal (by omega)
    have hemp := hrun5 (s.reads - s.consecutiveEmptyFrames - 1) (by omega) (by omega)
    rw [hemp] at hnon
    cases hnon
  obtain ⟨s', hrun', hd, hc, hr⟩ := round_finish L cfg tw th w p s hshape hcnt
  exact ⟨_, s', by rw [run_append, hrun, Option.some_bind, hrun'], hd, hc, hr⟩

/-- What was rendered during a schedule was rendered during every longer schedule. -/
theorem RenderedDuring.append {L : Library} {cfg : Config} {s0 : State} {evs : List Event}
    {p : ℕ × String} (h : RenderedDuring L cfg s0 evs p) (more : List Event) :
    RenderedDuring L cfg s0 (evs ++ more) p := by
  obtain ⟨before, after, s', he, hr, hp, hf⟩ := h
  exact ⟨before, after ++ more, s', by rw [he, List.append_assoc, List.cons_append], hr, hp, hf⟩

/-- The consumer touches neither the producer's position nor the history of the pushes. -/
theorem consumerStep_producer (L : Library) (cfg : Config) (termSize : ℤ × ℤ)
    (now posFrames : ℤ) (s s' : State)
    (h : consumerStep L cfg termSize now posFrames s = some s') :
    s'.producer = s.producer ∧ s'.pushed = s.pushed := by
  unfold consumerStep at h
  generalize pacingDecision cfg.startTime now s.frameCount cfg.frameInterval = d at h
  cases hc : s.consumer with
  | loopHead =>
      rw [hc] at h
      dsimp only at h
      split_ifs at h
      · cases h; exact ⟨rfl, rfl⟩
      · cases hw : calculateOptimalWidth termSize.1 termSize.2 cfg.videoWidth cfg.videoHeight with
        | none => rw [hw] at h; cases h
        | some w => rw [hw] at h; cases h; exact ⟨rfl, rfl⟩
      · cases h; exact ⟨rfl, rfl⟩
  | waitPop =>
      rw [hc] at h
      dsimp only at h
      split_ifs at h
      · cases h; exact ⟨rfl, rfl⟩
      · cases hq : s.frameQueue with
        | nil => rw [hq] at h; cases h; exact ⟨rfl, rfl⟩
        | cons f q => rw [hq] at h; cases h; exact ⟨rfl, rfl⟩
  | gotFrame f =>
      rw [hc] at h
      dsimp only at h
      split_ifs at h with hf
      · cases h; exact ⟨rfl, rfl⟩
      · cases hb : createProgressBar L posFrames cfg.totalFrames
            (max 10 (Int.tdiv s.asciiWidth 2)) with
        | ok bar => rw [hb] at h; cases h; exact ⟨rfl, rfl⟩
        | throws => rw [hb] at h; cases h; exact ⟨rfl, rfl⟩
        | undefined => rw [hb] at h; cases h
  | pacing =>
      rw [hc] at h
      cases d with
      | sleepFor ns => cases h; exact ⟨rfl, rfl⟩
      | proceed => cases h; exact ⟨rfl, rfl⟩
      | catchUp => cases h; exact ⟨rfl, rfl⟩
  | shutdown =>
      rw [hc] at h
      cases h; exact ⟨rfl, rfl⟩
  | stopped => rw [hc] at h; cases h
  | crashed => rw [hc] at h; cases h

/-- A producer step pushes only the text it holds, and holds a text only as the result of
`processFrame` on the frame it held, at the width of that moment. -/
theorem producerStep_rendered (L : Library) (cfg : Config) (s s' : State)
    (h : producerStep L cfg s = some s') :
    (∀ p ∈ s'.pushed, p ∈ s.pushed ∨ s.producer = ProducerPC.push p.1 p.2) ∧
    (∀ i t, s'.producer = ProducerPC.push i t →
      ∃ f, s.producer = ProducerPC.render i f ∧
        processFrame L f s.asciiWidth cfg.useColor = some t) := by
  unfold producerStep at h
  cases hp : s.producer with
  | loopHead =>
      rw [hp] at h
      dsimp only at h
      split_ifs at h
      · cases h; exact ⟨fun p hm => Or.inl hm, fun i t hm => by cases hm⟩
      · cases h; exact ⟨fun p hm => Or.inl hm, fun i t hm => by cases hm⟩
  | capacityCheck =>
      rw [hp] at h
      dsimp only at h
      split_ifs at h
      · cases h; exact ⟨fun p hm => Or.inl hm, fun i t hm => by cases hm⟩
      · cases h; exact ⟨fun p hm => Or.inl hm, fun i t hm => by cases hm⟩
  | readFrame =>
      rw [hp] at h
      dsimp only at h
      split_ifs at h
      · cases h; exact ⟨fun p hm => Or.inl hm, fun i t hm => by cases hm⟩
      · cases h; exact ⟨fun p hm => Or.inl hm, fun i t hm => by cases hm⟩
  | render index frame =>
      rw [hp] at h
      dsimp only at h
      cases hpf : processFrame L frame s.asciiWidth cfg.useColor with
      | none => rw [hpf] at h; cases h
      | some text =>
          rw [hpf] at h
          cases h
          refine ⟨fun p hm => Or.inl hm, fun i t hm => ?_⟩
          cases hm
          exact ⟨frame, rfl, hpf⟩
  | push index text =>
      rw [hp] at h
      cases h
      refine ⟨fun p hm => ?_, fun i t hm => by cases hm⟩
      rcases List.mem_append.mp hm with hm | hm
      · exact Or.inl hm
      · rw [List.mem_singleton] at hm
        subst hm
        exact Or.inr rfl
  | markDone =>
      rw [hp] at h
      cases h; exact ⟨fun p hm => Or.inl hm, fun i t hm => by cases hm⟩
  | exited => rw [hp] at h; cases h

/-- Every text pushed, and the text the producer holds before its push, was rendered during the
schedule from the frame of its read, at the width in use at that moment. -/
theorem renderedDuring_run (L : Library) (cfg : Config) (tw th w : ℤ) (evs : List Event) :
    ∀ s, run L cfg evs (initial tw th w) = some s →
      (∀ p ∈ s.pushed, RenderedDuring L cfg (initial tw th w) evs p) ∧
      (∀ i t, s.producer = ProducerPC.push i t →
        RenderedDuring L cfg (initial tw th w) evs (i, t)) := by
  induction evs using List.reverseRecOn with
  | nil =>
      intro s h
      simp only [run, Option.some.injEq] at h
      subst h
      exact ⟨fun p hm => (by cases hm), fun i t hm => (by cases hm)⟩
  | append_singleton evs ev ih =>
      intro s h
      rw [run_append] at h
      cases h1 : run L cfg evs (initial tw th w) with
      | none => rw [h1] at h; cases h
      | some s1 =>
          rw [h1, Option.some_bind] at h
          obtain ⟨ihp, ihh⟩ := ih s1 h1
          have hsrc := sourceInv_run L cfg tw th w evs s1 h1
          cases hst : step L cfg ev s1 with
          | none => simp only [run, hst, Option.none_bind] at h; cases h
          | some s2 =>
              simp only [run, hst, Option.some_bind, Option.some.injEq] at h
              subst h
              cases ev with
              | producer =>
                  obtain ⟨hpu, hho⟩ := producerStep_rendered L cfg s1 s2 hst
                  constructor
                  · intro p hm
                    rcases hpu p hm with hold | hnew
                    · exact (ihp p hold).append _
                    · exact (ihh p.1 p.2 hnew).append _
                  · intro i t hm
                    obtain ⟨f, hf, hpf⟩ := hho i t hm
                    have hfi := hsrc.held_frame i f hf
                    subst hfi
                    exact ⟨evs, [], s1, rfl, h1, hf, hpf⟩
              | consumer termSize now posFrames =>
                  obtain ⟨hpr, hpu⟩ := consumerStep_producer L cfg termSize now posFrames s1 s2 hst
                  constructor
                  · intro p hm
                    rw [hpu] at hm
                    exact (ihp p hm).append _
                  · intro i t hm
                    rw [hpr] at hm
                    exact (ihh i t hm).append _

theorem emptyRun_framesThenEmpty (n j : ℕ) : EmptyRun (framesThenEmpty n) j ↔ n ≤ j := by
  constructor
  · intro h
    have hj := h j (le_refl j) (by omega)
    by_contra hlt
    simp [framesThenEmpty, Mat.empty, not_le.mp hlt] at hj
  · intro h i hi _
    simp [framesThenEmpty, Mat.empty, show ¬ i < n by omega]

/-- C5. End-of-stream policy, for every interleaving in which the consumer has not caught an
exception (no stop signal before the end).  (1) Once the producer is done, at least five reads
were made, the last five were empty, and no earlier five consecutive reads were all empty: it is
done exactly after the first run of five empty reads.  (2) In every state a run of five empty
reads is the end of the reads, and `consecutiveEmptyFrames` is the length of the run of empty
reads ending at the last read, so a shorter run followed by a frame resets it; the producer has
left its loop only when it is 5.  (3) The frames pushed, followed by the one the producer holds,
are exactly the non-empty reads in source order, each once, and the text pushed for a read is what
`processFrame` returned for the frame of that read in the call of line 121 made during the
schedule, at the value `asciiWidth` had at that step.  (4) The
consumer has left its loop only if the queue is empty and the producer is done.  (5) For a source
of ten frames followed by empty reads a done producer has made exactly 15 reads and pushed exactly
the frames 0 to 9.  (6) Progress: whenever the reads `p - 5, …, p - 1` are the first five
consecutive empty reads of the source (and every frame can be rendered at the initial width),
some schedule lets the producer make exactly `p` reads and mark itself done, after which the
consumer finishes. -/
theorem end_of_stream (L : Library) (cfg : Config) (termWidth termHeight w : ℤ)
    (evs : List Event) (s : State)
    (h : run L cfg evs (initial termWidth termHeight w) = some s)
    (hno : s.consumer ≠ ConsumerPC.crashed) :
    (s.producerDone = true →
      5 ≤ s.reads ∧ EmptyRun cfg.source (s.reads - 5) ∧
      (∀ j, j + 5 ≤ s.reads → EmptyRun cfg.source j → j + 5 = s.reads) ∧
      s.pushed.map (fun p => p.1) = (List.range s.reads).filter (fun i => !(cfg.source i).empty)) ∧
    ((∀ j, j + 5 ≤ s.reads → EmptyRun cfg.source j →
        j + 5 = s.reads ∧ s.consecutiveEmptyFrames = 5) ∧
      (∀ i, s.reads - s.consecutiveEmptyFrames ≤ i → i < s.reads →
        (cfg.source i).empty = true) ∧
      (s.consecutiveEmptyFrames < s.reads →
        (cfg.source (s.reads - s.consecutiveEmptyFrames - 1)).empty = false) ∧
      (s.producer = ProducerPC.markDone ∨ s.producer = ProducerPC.exited →
        s.consecutiveEmptyFrames = 5)) ∧
    (s.pushed.map (fun p => p.1) ++ heldIndex s.producer
        = (List.range s.reads).filter (fun i => !(cfg.source i).empty) ∧
      ∀ p ∈ s.pushed, RenderedDuring L cfg (initial termWidth termHeight w) evs p) ∧
    (s.consumer = ConsumerPC.shutdown ∨ s.consumer = ConsumerPC.stopped →
      s.frameQueue = [] ∧ s.producerDone = true) ∧
    (cfg.source = framesThenEmpty 10 → s.producerDone = true →
      s.reads = 15 ∧ s.pushed.map (fun p => p.1) = List.range 10) ∧
    (∀ p, 5 ≤ p → EmptyRun cfg.source (p - 5) →
      (∀ j, j + 5 ≤ p → EmptyRun cfg.source j → j + 5 = p) →
      (∀ i, ∃ t, processFrame L (cfg.source i) w cfg.useColor = some t) →
      ∃ evs' s', run L cfg evs' (initial termWidth termHeight w) = some s' ∧
        s'.producerDone = true ∧ s'.consumer = ConsumerPC.stopped ∧ s'.reads = p) := by
  have hc := controlInv_run L cfg termWidth termHeight w evs s h
  have hs := sourceInv_run L cfg termWidth termHeight w evs s h
  have hleft : s.producer = ProducerPC.markDone ∨ s.producer = ProducerPC.exited →
      s.consecutiveEmptyFrames = 5 := by
    intro hp
    rcases hs.finished hp with h5 | hcr
    · exact h5
    · exact absurd hcr hno
  have hdone : s.producerDone = true →
      5 ≤ s.reads ∧ EmptyRun cfg.source (s.reads - 5) ∧
      (∀ j, j + 5 ≤ s.reads → EmptyRun cfg.source j → j + 5 = s.reads) ∧
      s.pushed.map (fun p => p.1)
        = (List.range s.reads).filter (fun i => !(cfg.source i).empty) := by
    intro hd
    have hex := hc.done_exited.mp hd
    have h5 := hleft (Or.inr hex)
    have hr := hs.counter_reads
    refine ⟨by omega, ?_, fun j hj hrun => (hs.first j hj hrun).1, ?_⟩
    · intro i hi1 hi2
      exact hs.trailing i (by omega) (by omega)
    · have he := hs.enqueued
      rw [hex] at he
      simpa [heldIndex] using he
  refine ⟨hdone, ⟨hs.first, hs.trailing, hs.maximal, hleft⟩, ⟨hs.enqueued,
      (renderedDuring_run L cfg termWidth termHeight w evs s h).1⟩,
    hc.left, ?_, fun p hp hrun5 hfirst hdef =>
      producer_finishes L cfg termWidth termHeight w hdef p hp hrun5 hfirst⟩
  intro hsrc hd
  obtain ⟨h5, hrun, hfirst, hpushed⟩ := hdone hd
  rw [hsrc] at hrun hfirst hpushed
  have h10 : 10 ≤ s.reads - 5 := (emptyRun_framesThenEmpty 10 _).mp hrun
  have h15 : s.reads = 15 := by
    have := hfirst 10 (by omega) ((emptyRun_framesThenEmpty 10 10).mpr (le_refl 10))
    omega
  refine ⟨h15, ?_⟩
  rw [hpushed, h15]
  decide

/-- Witness for C5: the ten-frame source played to its end on a 1×1 terminal; and the first frame
of that source on the 120×40 terminal, pushed as the text of 119×33 characters that `processFrame`
returned for it during the schedule. -/
theorem end_of_stream_witness :
    (∃ s, run sampleLibrary (sampleConfig (framesThenEmpty 10)) tenFrameSchedule (initial 1 1 0)
        = some s ∧
      s.producerDone = true ∧ s.consumer = ConsumerPC.stopped ∧ s.frameQueue = [] ∧
      s.reads = 15 ∧ s.pushed.map (fun p => p.1) = List.range 10) ∧
    (∃ s, run sampleLibrary (sampleConfig (framesThenEmpty 10)) (firstFrameSchedule (120, 40) 0 0)
        (initial 120 40 119) = some s ∧
      s.pushed = [(0, sampleLibrary.renderPixels { rows := 1080, cols := 1920, pixels := 0 }
        119 33 false)] ∧
      sampleLibrary.renderPixels { rows := 1080, cols := 1920, pixels := 0 } 119 33 false ≠ "" ∧
      RenderedDuring sampleLibrary (sampleConfig (framesThenEmpty 10)) (initial 120 40 119)
        (firstFrameSchedule (120, 40) 0 0)
        (0, sampleLibrary.renderPixels { rows := 1080, cols := 1920, pixels := 0 }
          119 33 false)) := by
  constructor
  · have hrun : (run sampleLibrary (sampleConfig (framesThenEmpty 10)) tenFrameSchedule
        (initial 1 1 0)).map (fun s => (s.producerDone, s.consumer)) =
        some (true, ConsumerPC.stopped) := by decide
    cases hs : run sampleLibrary (sampleConfig (framesThenEmpty 10)) tenFrameSchedule
        (initial 1 1 0) with
    | none => rw [hs] at hrun; cases hrun
    | some s =>
        rw [hs] at hrun
        simp only [Option.map_some', Option.some.injEq, Prod.mk.injEq] at hrun
        have hthm := end_of_stream sampleLibrary (sampleConfig (framesThenEmpty 10)) 1 1 0
          tenFrameSchedule s hs (by rw [hrun.2]; simp)
        obtain ⟨_, _, _, hleft, hex, _⟩ := hthm
        have h15 := hex rfl hrun.1
        exact ⟨s, rfl, hrun.1, hrun.2, (hleft (Or.inr hrun.2)).1, h15.1, h15.2⟩
  · have hrun := run_firstFrameSchedule sampleLibrary (sampleConfig (framesThenEmpty 10))
      120 40 119 0 0 _ "[未知进度]" rfl processFrame_sample.1 processFrame_sample.2 rfl
    have hthm := end_of_stream sampleLibrary (sampleConfig (framesThenEmpty 10)) 120 40 119
      (firstFrameSchedule (120, 40) 0 0) _ hrun (by simp)
    obtain ⟨_, _, ⟨_, hrendered⟩, _⟩ := hthm
    exact ⟨_, hrun, rfl, processFrame_sample.2, hrendered _ (List.mem_singleton.mpr rfl)⟩

/-! ## C11: the palette lookup -/

/-- `strlen` does not pass the end of the characters. -/
theorem strlen_le_length (chars : List Char) : strlen chars ≤ chars.length :=
  (List.takeWhile_prefix _).length_le

/-- The characters before position `strlen` are characters of the string, none of them NUL. -/
theorem getElem?_of_lt_strlen (chars : List Char) (k : ℕ) (hk : k < strlen chars) :
    ∃ glyph, chars[k]? = some glyph ∧ glyph ≠ NUL := by
  obtain ⟨t, ht⟩ := List.takeWhile_prefix (fun c => c != NUL) (l := chars)
  have hk' : k < (chars.takeWhile (fun c => c != NUL)).length := hk
  refine ⟨(chars.takeWhile (fun c => c != NUL))[k], ?_, ?_⟩
  · conv_lhs => rw [← ht]
    rw [List.getElem?_append_left hk', List.getElem?_eq_getElem hk']
  · have hmem : (chars.takeWhile (fun c => c != NUL))[k] ∈
        chars.takeWhile (fun c => c != NUL) := List.getElem_mem hk'
    have := (List.mem_takeWhile_imp hmem)
    simpa using this

/-- The length as an `int`, for a palette of at most 256 characters. -/
theorem getAsciiCharSetLength_eq (chars : List Char) (h : strlen chars ≤ 256) :
    getAsciiCharSetLength chars = (strlen chars : ℤ) := by
  unfold getAsciiCharSetLength
  omega

/-- The index of luminance `i` is the quotient ⌊i × n / 256⌋; the product does not overflow. -/
theorem paletteIndex_eq (n i : ℕ) (hn : n ≤ 256) (hi : i < 256) :
    paletteIndex (n : ℤ) (i : ℤ) = some ((i * n / 256 : ℕ) : ℤ) := by
  have hprod : i * n ≤ 255 * 256 := Nat.mul_le_mul (by omega) hn
  have hcast : ((i : ℤ) * (n : ℤ)) = ((i * n : ℕ) : ℤ) := by push_cast; rfl
  unfold paletteIndex
  rw [hcast, if_pos]
  · rw [Int.tdiv_eq_ediv (by omega) (by norm_num)]
    norm_cast
  · simp only [INT_MIN, INT_MAX]
    omega

/-- Every index is in range. -/
theorem index_lt (n i : ℕ) (hn : 1 ≤ n) (hi : i < 256) : i * n / 256 < n := by
  apply Nat.div_lt_of_lt_mul
  calc i * n < 256 * n := Nat.mul_lt_mul_of_pos_right hi hn

/-- The index does not decrease with the luminance. -/
theorem index_mono (n i j : ℕ) (h : i ≤ j) : i * n / 256 ≤ j * n / 256 :=
  Nat.div_le_div_right (Nat.mul_le_mul_right n h)

/-- Every index below `n` is the index of a luminance. -/
theorem index_onto (n k : ℕ) (hn : n ≤ 256) (hk : k < n) :
    ∃ i, i < 256 ∧ i * n / 256 = k := by
  have hnpos : 0 < n := by omega
  refine ⟨(256 * k + (n - 1)) / n, ?_, ?_⟩
  · rw [Nat.div_lt_iff_lt_mul hnpos]
    have : 256 * k + 256 ≤ 256 * n := by omega
    have h2 : 256 * n = 255 * n + n := by ring
    omega
  · have hlow : 256 * k ≤ (256 * k + (n - 1)) / n * n := by
      have h1 := Nat.div_add_mod (256 * k + (n - 1)) n
      have h2 := Nat.mod_lt (256 * k + (n - 1)) hnpos
      have h3 : n * ((256 * k + (n - 1)) / n) = (256 * k + (n - 1)) / n * n := Nat.mul_comm _ _
      omega
    have hhigh : (256 * k + (n - 1)) / n * n ≤ 256 * k + (n - 1) := Nat.div_mul_le_self _ _
    generalize (256 * k + (n - 1)) / n * n = p at hlow hhigh
    omega

/-- The loop of `generateAsciiLookup` over the first `m` luminance values. -/
theorem fill_spec (entry : ℕ → Option Char) (glyph : ℕ → Char)
    (h : ∀ i, i < 256 → entry i = some (glyph i)) (m : ℕ) (hm : m ≤ 256) :
    ∃ lookup : List Char,
      (List.range m).foldlM (fun lookup i => (entry i).map fun c => lookup.set i c)
        (List.replicate 256 NUL) = some lookup ∧
      lookup.length = 256 ∧ ∀ i, i < m → lookup[i]? = some (glyph i) := by
  induction m with
  | zero => exact ⟨_, rfl, List.length_replicate _ _, by intro i hi; omega⟩
  | succ m ih =>
    obtain ⟨lookup, hrun, hlen, hget⟩ := ih (by omega)
    refine ⟨lookup.set m (glyph m), ?_, by simp [hlen], ?_⟩
    · rw [List.range_succ, List.foldlM_append, hrun]
      simp [h m (by omega)]
    · intro i hi
      by_cases him : i = m
      · subst him
        exact List.getElem?_set_self (by omega)
      · rw [List.getElem?_set_ne (Ne.symm him)]
        exact hget i (by omega)

set_option maxRecDepth 100000 in
/-- The table of the default palette: each of the ten glyphs fills 25 or 26 entries. -/
theorem generateAsciiLookup_default :
    (generateAsciiLookup CURRENT_ASCII_CHARS).map String.mk =
      some "                          ..........................:::::::::::::::::::::::::--------------------------=========================++++++++++++++++++++++++++**************************#########################%%%%%%%%%%%%%%%%%%%%%%%%%%@@@@@@@@@@@@@@@@@@@@@@@@@" := by
  decide

/-- C11.  Palette lookup: for every palette of `n = strlen` characters with 1 ≤ n ≤ 256,
`generateAsciiLookup` returns (without an undefined read or overflow) a table of 256 characters
whose entry `i` is the glyph of the palette at index ⌊i × n / 256⌋, which `pixelToAscii` returns
for luminance `i`; that index is below `n`, it does not decrease with `i`, luminance 0 has
index 0 (the first glyph), luminance 255 has index `n − 1` (the last glyph), and every index
below `n` is the index of some luminance. -/
theorem palette_lookup (chars : List Char) (h1 : 1 ≤ strlen chars) (h256 : strlen chars ≤ 256) :
    ∃ lookup : List Char,
      generateAsciiLookup chars = some lookup ∧ lookup.length = 256 ∧
      (∀ i : ℕ, i < 256 →
        paletteIndex (getAsciiCharSetLength chars) i = some ((i * strlen chars / 256 : ℕ) : ℤ) ∧
        i * strlen chars / 256 < strlen chars ∧
        ∃ glyph, chars[i * strlen chars / 256]? = some glyph ∧ glyph ≠ NUL ∧
          lookup[i]? = some glyph ∧ pixelToAscii lookup i = some glyph) ∧
      (∀ i j : ℕ, i ≤ j → j < 256 → i * strlen chars / 256 ≤ j * strlen chars / 256) ∧
      0 * strlen chars / 256 = 0 ∧
      255 * strlen chars / 256 = strlen chars - 1 ∧
      (∀ k : ℕ, k < strlen chars → ∃ i : ℕ, i < 256 ∧ i * strlen chars / 256 = k) := by
  have hlenEq := getAsciiCharSetLength_eq chars h256
  have hglyph : ∀ i : ℕ, i < 256 → ∃ glyph, chars[i * strlen chars / 256]? = some glyph ∧
      glyph ≠ NUL := fun i hi =>
    getElem?_of_lt_strlen chars _ (index_lt (strlen chars) i h1 hi)
  have hentry : ∀ i : ℕ, i < 256 →
      ((paletteIndex (getAsciiCharSetLength chars) i).bind fun k => readChars chars k) =
        some ((chars[i * strlen chars / 256]?).getD NUL) := by
    intro i hi
    obtain ⟨glyph, hg, _⟩ := hglyph i hi
    have hlt := index_lt (strlen chars) i h1 hi
    have hle := strlen_le_length chars
    rw [hlenEq, paletteIndex_eq (strlen chars) i h256 hi, Option.some_bind, readChars,
      if_pos (Int.natCast_nonneg _), Int.toNat_natCast,
      List.getElem?_append_left (by omega), hg]
    rfl
  obtain ⟨lookup, hrun, hlen, hget⟩ :=
    fill_spec (fun i => (paletteIndex (getAsciiCharSetLength chars) i).bind
      fun k => readChars chars k) _ hentry 256 le_rfl
  refine ⟨lookup, ?_, hlen, ?_, ?_, by simp, by omega, ?_⟩
  · have hfun : (fun (lookup : List Char) (i : ℕ) =>
        (paletteIndex (getAsciiCharSetLength chars) (i : ℤ)).bind fun k =>
          (readChars chars k).map fun c => lookup.set i c) =
        fun (lookup : List Char) (i : ℕ) =>
          ((paletteIndex (getAsciiCharSetLength chars) (i : ℤ)).bind
            fun k => readChars chars k).map fun c => lookup.set i c := by
      funext lookup i
      cases paletteIndex (getAsciiCharSetLength chars) (i : ℤ) <;> rfl
    unfold generateAsciiLookup
    rw [hfun]
    exact hrun
  · intro i hi
    obtain ⟨glyph, hg, hne⟩ := hglyph i hi
    have hl : lookup[i]? = some glyph := by rw [hget i hi, hg]; rfl
    refine ⟨by rw [hlenEq, paletteIndex_eq (strlen chars) i h256 hi],
      index_lt (strlen chars) i h1 hi, glyph, hg, hne, hl, ?_⟩
    rw [pixelToAscii, if_pos (Int.natCast_nonneg _), Int.toNat_natCast, hl]
  · intro i j hij _
    exact index_mono (strlen chars) i j hij
  · intro k hk
    exact index_onto (strlen chars) k h256 hk

/-- Witness for C11: the default palette of ten glyphs. -/
theorem palette_lookup_witness :
    ∃ lookup : List Char,
      generateAsciiLookup CURRENT_ASCII_CHARS = some lookup ∧ lookup.length = 256 ∧
      (∀ i : ℕ, i < 256 →
        paletteIndex (getAsciiCharSetLength CURRENT_ASCII_CHARS) i =
          some ((i * strlen CURRENT_ASCII_CHARS / 256 : ℕ) : ℤ) ∧
        i * strlen CURRENT_ASCII_CHARS / 256 < strlen CURRENT_ASCII_CHARS ∧
        ∃ glyph, CURRENT_ASCII_CHARS[i * strlen CURRENT_ASCII_CHARS / 256]? = some glyph ∧
          glyph ≠ NUL ∧ lookup[i]? = some glyph ∧ pixelToAscii lookup i = some glyph) ∧
      (∀ i j : ℕ, i ≤ j → j < 256 →
        i * strlen CURRENT_ASCII_CHARS / 256 ≤ j * strlen CURRENT_ASCII_CHARS / 256) ∧
      0 * strlen CURRENT_ASCII_CHARS / 256 = 0 ∧
      255 * strlen CURRENT_ASCII_CHARS / 256 = strlen CURRENT_ASCII_CHARS - 1 ∧
      (∀ k : ℕ, k < strlen CURRENT_ASCII_CHARS →
        ∃ i : ℕ, i < 256 ∧ i * strlen CURRENT_ASCII_CHARS / 256 = k) :=
  palette_lookup CURRENT_ASCII_CHARS (by decide) (by decide)

end AsciiFilm
